import Mathlib

/-!
Requirement propagation of `Generator::BaseType`

Shallow embedding of the requirement graph of `src/src/Generator.hpp`
(`struct BaseType`, lines 913-988).  A registry of `N` nodes is a function
`Fin N → BaseType N`; a `BaseType *` is an index `Fin N` into the registry.

* `dependencies` is a `std::unordered_set` that the operations only iterate
  over: it is a list, the order of the list being the iteration order.
* `subscribers` is a `std::unordered_set` that is tested, grown and shrunk:
  it is a `Finset`.
* `setEnabled`, `subscribe` and `unsubscribe` call each other; every call
  consumes one unit of `fuel`, which bounds the depth of the call stack, and
  a call that finds no fuel left returns `none`.
-/

namespace Generator

/-- The fields of `struct BaseType` that requirement propagation reads or
writes (`name` and `ext` play no part in it). -/
structure BaseType (N : Nat) where
  dependencies : List (Fin N)
  subscribers : Finset (Fin N)
  forceRequired : Bool
  enabled : Bool
  supported : Bool

instance {N : Nat} : DecidableEq (BaseType N) := fun a b =>
  decidable_of_iff
    (a.dependencies = b.dependencies ∧ a.subscribers = b.subscribers ∧
      a.forceRequired = b.forceRequired ∧ a.enabled = b.enabled ∧
      a.supported = b.supported)
    (by cases a; cases b; simp)

/-- The registry: every node, addressed by its index. -/
abbrev Graph (N : Nat) := Fin N → BaseType N

namespace BaseType

/-- Source: `bool isEnabled() const { return enabled && supported; }` -/
def isEnabled {N : Nat} (b : BaseType N) : Bool :=
  b.enabled && b.supported

/-- Source: `bool isSuppored() const { return supported; }` -/
def isSuppored {N : Nat} (b : BaseType N) : Bool :=
  b.supported

/-- Source: `bool isRequired() const { return !subscribers.empty() || forceRequired; }` -/
def isRequired {N : Nat} (b : BaseType N) : Bool :=
  !decide (b.subscribers = ∅) || b.forceRequired

/-- Source: `bool canGenerate() const { return supported && (enabled || isRequired()); }` -/
def canGenerate {N : Nat} (b : BaseType N) : Bool :=
  b.supported && (b.enabled || b.isRequired)

end BaseType

/-- Write `b` to the node at index `n`. -/
def Graph.store {N : Nat} (g : Graph N) (n : Fin N) (b : BaseType N) : Graph N :=
  fun m => if m = n then b else g m

/-- The assignment `enabled = value;` in node `n`. -/
def Graph.writeEnabled {N : Nat} (g : Graph N) (n : Fin N) (value : Bool) : Graph N :=
  g.store n { g n with enabled := value }

/-- The call `subscribers.emplace(s);` in node `n`. -/
def Graph.emplace {N : Nat} (g : Graph N) (n s : Fin N) : Graph N :=
  g.store n { g n with subscribers := insert s (g n).subscribers }

/-- The call `subscribers.erase(it);` in node `n`, `it` being the position of `s`. -/
def Graph.erase {N : Nat} (g : Graph N) (n s : Fin N) : Graph N :=
  g.store n { g n with subscribers := (g n).subscribers.erase s }

/-- Source: `void setUnsuppored() { supported = false; }`, called on node `n`. -/
def setUnsuppored {N : Nat} (g : Graph N) (n : Fin N) : Graph N :=
  g.store n { g n with supported := false }

/-- The loop `for (auto &d : dependencies) { if (!subscribers.contains(d)) { d->call(this); } }`
of `setEnabled`, run on node `n` over the dependencies still to visit.  The
guard reads the subscribers of `n` in the state the loop has reached. -/
def forDependencies {N : Nat} (call : Graph N → Fin N → Fin N → Option (Graph N))
    (n : Fin N) : List (Fin N) → Graph N → Option (Graph N)
  | [], g => some g
  | d :: ds, g =>
    if d ∈ (g n).subscribers then forDependencies call n ds g
    else (call g d n).bind (forDependencies call n ds)

mutual

/-- Source: `void setEnabled(bool value)`, called on node `n`. -/
def setEnabled {N : Nat} : Nat → Graph N → Fin N → Bool → Option (Graph N)
  | 0, _, _, _ => none
  | fuel + 1, g, n, value =>
    if (g n).enabled = value ∨ (g n).supported = false then some g
    else
      let g1 := g.writeEnabled n value
      if value then
        forDependencies (fun g2 d s => subscribe fuel g2 d s) n (g n).dependencies g1
      else
        forDependencies (fun g2 d s => unsubscribe fuel g2 d s) n (g n).dependencies g1

/-- Source: `void subscribe(BaseType *s)`, called on node `n`. -/
def subscribe {N : Nat} : Nat → Graph N → Fin N → Fin N → Option (Graph N)
  | 0, _, _, _ => none
  | fuel + 1, g, n, s =>
    if s ∈ (g n).subscribers then some g
    else
      let empty := decide ((g n).subscribers = ∅)
      let g1 := g.emplace n s
      if empty then setEnabled fuel g1 n true else some g1

/-- Source: `void unsubscribe(BaseType *s)`, called on node `n`. -/
def unsubscribe {N : Nat} : Nat → Graph N → Fin N → Fin N → Option (Graph N)
  | 0, _, _, _ => none
  | fuel + 1, g, n, s =>
    if s ∈ (g n).subscribers then
      let g1 := g.erase n s
      if (g1 n).subscribers = ∅ then setEnabled fuel g1 n false else some g1
    else some g

end

/-- What a cascade towards `v` may do to a registry: it leaves `dependencies`,
`supported` and `forceRequired` alone, moves `enabled` flags only to `v`, and
only adds subscribers when `v = true`, only removes them when `v = false`. -/
def Toward {N : Nat} (v : Bool) (g g2 : Graph N) : Prop :=
  ∀ m, (g2 m).dependencies = (g m).dependencies ∧
    (g2 m).supported = (g m).supported ∧
    (g2 m).forceRequired = (g m).forceRequired ∧
    ((g2 m).enabled = (g m).enabled ∨ (g2 m).enabled = v) ∧
    (v = true → (g m).subscribers ⊆ (g2 m).subscribers) ∧
    (v = false → (g2 m).subscribers ⊆ (g m).subscribers)

/-- The nodes on which `setEnabled(v)` would pass its guard. -/
def pending {N : Nat} (v : Bool) (g : Graph N) : Finset (Fin N) :=
  Finset.univ.filter (fun m => (g m).enabled ≠ v ∧ (g m).supported = true)

/-- The invariant of an enabling cascade.  Every subscriber is enabled; a
supported node with a subscriber is enabled, unless `X` excuses it (the node
whose `subscribe` has emplaced but not yet called `setEnabled`); an enabled
supported node `m` and a dependency `d` of it are linked by a subscription,
one way or the other, unless `P m d` (the loop of `m` has not reached `d`). -/
structure Settled {N : Nat} (g : Graph N) (X : Fin N → Prop)
    (P : Fin N → Fin N → Prop) : Prop where
  subs_enabled : ∀ m s, s ∈ (g m).subscribers → (g s).enabled = true
  req_enabled : ∀ m, (g m).supported = true → (g m).subscribers ≠ ∅ →
    X m ∨ (g m).enabled = true
  deps_done : ∀ m d, (g m).enabled = true → (g m).supported = true →
    d ∈ (g m).dependencies →
    P m d ∨ m ∈ (g d).subscribers ∨ d ∈ (g m).subscribers

/-- The freshly parsed state: every node disabled, no subscribers. -/
def Fresh {N : Nat} (g : Graph N) : Prop :=
  ∀ m, (g m).enabled = false ∧ (g m).subscribers = ∅

instance {N : Nat} (g : Graph N) : Decidable (Fresh g) := by
  unfold Fresh; infer_instance

/-- The nodes `a :: rest` form a dependency cycle: each one has the next one
among its dependencies, and the last one has `a`. -/
def IsCycle {N : Nat} (g : Graph N) (a : Fin N) (rest : List (Fin N)) : Prop :=
  List.Chain (fun p q => q ∈ (g p).dependencies) a (rest ++ [a])

/-- One call of a public member function of `BaseType` on a node. -/
inductive Call (N : Nat) where
  | setEnabled (n : Fin N) (value : Bool)
  | subscribe (n s : Fin N)
  | unsubscribe (n s : Fin N)
  | setUnsuppored (n : Fin N)
  deriving DecidableEq

/-- Run one call, with a stack of depth `fuel`. -/
def Call.run {N : Nat} (fuel : Nat) : Call N → Graph N → Option (Graph N)
  | .setEnabled n value, g => Generator.setEnabled fuel g n value
  | .subscribe n s, g => Generator.subscribe fuel g n s
  | .unsubscribe n s, g => Generator.unsubscribe fuel g n s
  | .setUnsuppored n, g => some (Generator.setUnsuppored g n)

/-- Run a sequence of calls, one after the other. -/
def runCalls {N : Nat} (fuel : Nat) : List (Call N) → Graph N → Option (Graph N)
  | [], g => some g
  | c :: cs, g => (c.run fuel g).bind (runCalls fuel cs)

/-- The run returned, and the state it returned satisfies `p`. -/
def EndsIn {N : Nat} (o : Option (Graph N)) (p : Graph N → Prop) : Prop :=
  match o with
  | some g => p g
  | none => False

instance {N : Nat} (o : Option (Graph N)) (p : Graph N → Prop) [DecidablePred p] :
    Decidable (EndsIn o p) :=
  match o with
  | some g => inferInstanceAs (Decidable (p g))
  | none => inferInstanceAs (Decidable False)

/-- A node as the parser leaves it: disabled, supported, nobody subscribed. -/
def freshNode {N : Nat} (deps : List (Fin N)) : BaseType N :=
  { dependencies := deps, subscribers := ∅, forceRequired := false,
    enabled := false, supported := true }

/-- Three nodes in a chain: node 0 depends on node 1, node 1 on node 2. -/
def chain3 : Graph 3 := fun i =>
  match i with
  | 0 => freshNode [1]
  | 1 => freshNode [2]
  | 2 => freshNode []

/-- The registry `chain3` after `setEnabled(true)` on node 1, `setEnabled(true)`
on node 0 and `setEnabled(false)` on node 1. -/
def chain3Released : Graph 3 := fun i =>
  match i with
  | 0 => { freshNode [1] with enabled := true }
  | 1 => { freshNode [2] with subscribers := {0} }
  | 2 => freshNode []

/-- Three nodes in a ring: node 0 depends on node 1, node 1 on node 2 and
node 2 on node 0. -/
def ring3 : Graph 3 := fun i =>
  match i with
  | 0 => freshNode [1]
  | 1 => freshNode [2]
  | 2 => freshNode [0]

/-- Two nodes that depend on each other. -/
def pair2 : Graph 2 := fun i =>
  match i with
  | 0 => freshNode [1]
  | 1 => freshNode [0]

/-- The registry `pair2` after `setEnabled(true)` on node 0 and then
`setEnabled(false)` on node 1. -/
def pair2Held : Graph 2 := fun i =>
  match i with
  | 0 => { freshNode [1] with enabled := true }
  | 1 => { freshNode [0] with subscribers := {0} }

/-- Two nodes, node 1 depends on node 0. -/
def chain2 : Graph 2 := fun i =>
  match i with
  | 0 => freshNode []
  | 1 => freshNode [0]

/-- The registry `chain2` after `setEnabled(true)` on node 1. -/
def chain2On : Graph 2 := fun i =>
  match i with
  | 0 => { freshNode [] with enabled := true, subscribers := {1} }
  | 1 => { freshNode [0] with enabled := true }

/-- The nodes an enabling cascade started by `setEnabled(true)` on `n0` in the
state `g0` switches on: `n0` itself when it passes the guard, and every
disabled, supported node without subscribers that is a dependency of such a
node and not one of its subscribers. -/
inductive Reached {N : Nat} (g0 : Graph N) (n0 : Fin N) : Fin N → Prop where
  | root : (g0 n0).enabled = false → (g0 n0).supported = true → Reached g0 n0 n0
  | step (m x : Fin N) : Reached g0 n0 m → x ∈ (g0 m).dependencies →
      x ∉ (g0 m).subscribers → (g0 x).enabled = false → (g0 x).supported = true →
      (g0 x).subscribers = ∅ → Reached g0 n0 x

/-- The nodes a disabling cascade started by `setEnabled(false)` on `n0` in the
state `g0` switches off: `n0` itself when it passes the guard, and every
enabled, supported node all of whose subscribers are such nodes that depend
on it and do not have it as a subscriber. -/
inductive Released {N : Nat} (g0 : Graph N) (n0 : Fin N) : Fin N → Prop where
  | root : (g0 n0).enabled = true → (g0 n0).supported = true → Released g0 n0 n0
  | step (d : Fin N) : (g0 d).enabled = true → (g0 d).supported = true →
      (g0 d).subscribers ≠ ∅ →
      (∀ m, m ∈ (g0 d).subscribers → Released g0 n0 m) →
      (∀ m, m ∈ (g0 d).subscribers →
        d ∈ (g0 m).dependencies ∧ d ∉ (g0 m).subscribers) →
      Released g0 n0 d

/-- Soundness of an enabling cascade from `g0`: only cascade writes have
happened, and every node that is enabled was enabled in `g0` or is reached. -/
def EnSound {N : Nat} (g0 : Graph N) (n0 : Fin N) (g : Graph N) : Prop :=
  Toward true g0 g ∧
  ∀ x, (g x).enabled = true → (g0 x).enabled = true ∨ Reached g0 n0 x

/-- Completeness of an enabling cascade from `g0`, with the same exceptions
`X` and `P` as `Settled`: a new subscriber is enabled; a supported node that
gained its first subscriber is enabled; a node switched on by the cascade is
linked to each dependency by a subscription, one way or the other. -/
structure EnDone {N : Nat} (g0 g : Graph N) (X : Fin N → Prop)
    (P : Fin N → Fin N → Prop) : Prop where
  subs_enabled : ∀ m s, s ∈ (g m).subscribers →
    s ∈ (g0 m).subscribers ∨ (g s).enabled = true
  req_enabled : ∀ m, (g m).supported = true → (g0 m).subscribers = ∅ →
    (g m).subscribers ≠ ∅ → X m ∨ (g m).enabled = true
  deps_done : ∀ m d, (g m).enabled = true → (g0 m).enabled = false →
    d ∈ (g m).dependencies →
    P m d ∨ m ∈ (g d).subscribers ∨ d ∈ (g m).subscribers

/-- Soundness of a disabling cascade from `g0`: only cascade writes have
happened, every node that is disabled was disabled in `g0` or is released,
and every subscription that has gone was held by a released node on a
dependency that does not subscribe back. -/
def DisSound {N : Nat} (g0 : Graph N) (n0 : Fin N) (g : Graph N) : Prop :=
  Toward false g0 g ∧
  (∀ x, (g x).enabled = false → (g0 x).enabled = false ∨ Released g0 n0 x) ∧
  (∀ d m, m ∈ (g0 d).subscribers → m ∉ (g d).subscribers →
    Released g0 n0 m ∧ d ∈ (g0 m).dependencies ∧ d ∉ (g0 m).subscribers)

/-- Completeness of a disabling cascade from `g0`: a supported node that lost
all its subscribers is disabled, unless `X` excuses it; a node switched off by
the cascade has left the subscribers of each dependency that did not
subscribe back in `g0`, unless `P` says its loop has not got there. -/
structure DisDone {N : Nat} (g0 g : Graph N) (X : Fin N → Prop)
    (P : Fin N → Fin N → Prop) : Prop where
  req_disabled : ∀ d, (g d).supported = true → (g0 d).subscribers ≠ ∅ →
    (g d).subscribers = ∅ → X d ∨ (g d).enabled = false
  deps_done : ∀ m d, (g m).enabled = false → (g0 m).enabled = true →
    d ∈ (g m).dependencies → d ∉ (g0 m).subscribers →
    P m d ∨ m ∉ (g d).subscribers

/-- Two registries that differ only in the order in which each node's
`dependencies` are iterated. -/
def SameUpToOrder {N : Nat} (g g2 : Graph N) : Prop :=
  ∀ m, (g m).dependencies.Perm (g2 m).dependencies ∧
    (g m).subscribers = (g2 m).subscribers ∧
    (g m).forceRequired = (g2 m).forceRequired ∧
    (g m).enabled = (g2 m).enabled ∧
    (g m).supported = (g2 m).supported

/-- Three nodes: node 0 depends on nodes 1 and 2 (iterated in this order),
node 1 on node 2 and node 2 on node 0. -/
def fan3 : Graph 3 := fun i =>
  match i with
  | 0 => freshNode [1, 2]
  | 1 => freshNode [2]
  | 2 => freshNode [0]

/-- The registry `fan3` with the dependencies of node 0 iterated the other
way round. -/
def fan3Swapped : Graph 3 := fun i =>
  match i with
  | 0 => freshNode [2, 1]
  | 1 => freshNode [2]
  | 2 => freshNode [0]

/-! ### Commands and their parameters (`Generator::CommandData`) -/

/-- Source: `enum class PFNReturnCategory`. -/
inductive PFNReturnCategory where
  | OTHER
  | VOID
  | VK_RESULT
  deriving DecidableEq

/-- Source: `enum class MemberNameCategory`. -/
inductive MemberNameCategory where
  | UNKNOWN
  | GET
  | ALLOCATE
  | ACQUIRE
  | CREATE
  | ENUMERATE
  | WRITE
  | DESTROY
  | FREE
  deriving DecidableEq

/-- Modelled from the spec: the `Namespace` enumeration, declared outside
`src/`.  The code under `src/` tells the primary namespace `VK` from the
resource-owning namespace `RAII`; `STD` stands for every other value. -/
inductive Namespace where
  | VK
  | RAII
  | STD
  deriving DecidableEq

/-- Modelled from the spec: the special type of a `VariableData`
(`XMLVariableParser.hpp` is not under `src/`).  The code under `src/` names
`TYPE_INVALID`, `TYPE_DEFAULT` and `TYPE_ARRAY_PROXY`; `TYPE_OTHER` stands for
every other value (the vector, return-by-value, reference and optional forms
of the parameter descriptor). -/
inductive SpecialType where
  | TYPE_INVALID
  | TYPE_DEFAULT
  | TYPE_ARRAY_PROXY
  | TYPE_OTHER
  deriving DecidableEq

/-- Modelled from the spec: `VariableData`, the parameter descriptor of
`XMLVariableParser.hpp`, which is not under `src/`.  The record holds what the
code under `src/` reads from or writes to a parameter through its accessors:
`identifier()`, the three parts of the full type written by `setFullType`
(`qualifier`, `type()`, `suffix()`), `original.type()`, `original.suffix()`,
`original.isPointer()`, `original.isConst()`, `isHandle()`, `getIgnoreFlag()`,
`getIgnorePFN()`, the length relationship (`hasLengthVar()`, `getLengthVar()`
as the position of the length parameter in the parameter list,
`isLenAttribIndirect()`, `getLenAttribRhs()`), `getSpecialType()`,
`assignment()`, `getTemplate()`, the text set by `setAltPFN`, the namespace
tag (`getNamespace()`, `setNamespace`), `isPointer()` and `getArrayVar()` as
the position of the array parameter in the parameter list. -/
structure VariableData where
  identifier : String := ""
  qualifier : String := ""
  type : String := ""
  suffix : String := ""
  originalType : String := ""
  originalSuffix : String := ""
  originalIsPointer : Bool := false
  originalIsConst : Bool := false
  isHandle : Bool := false
  ignoreFlag : Bool := false
  ignorePFN : Bool := false
  lengthVar : Option Nat := none
  lenAttribIndirect : Bool := false
  lenAttribRhs : String := ""
  specialType : SpecialType := SpecialType.TYPE_DEFAULT
  assignment : String := ""
  template : String := ""
  altPFN : String := ""
  ns : Namespace := Namespace.VK
  isPointer : Bool := false
  arrayVar : Option Nat := none
  deriving DecidableEq

/-- Source: `hasLengthVar()`, read off the length relationship. -/
def VariableData.hasLengthVar (v : VariableData) : Bool :=
  v.lengthVar.isSome

/-- The fields of `struct CommandData` besides those of its base `BaseType`:
return type, parameters in declared order, success codes, name category and
return category. -/
structure CommandData where
  type : String := ""
  params : List VariableData := []
  successCodes : List String := []
  nameCat : MemberNameCategory := MemberNameCategory.UNKNOWN
  pfnReturn : PFNReturnCategory := PFNReturnCategory.OTHER
  deriving DecidableEq

namespace CommandData

/-- Source: `bool getsObject() const`. -/
def getsObject (c : CommandData) : Bool :=
  match c.nameCat with
  | .ACQUIRE => true
  | .GET => true
  | _ => false

/-- Source: `bool createsObject() const`. -/
def createsObject (c : CommandData) : Bool :=
  match c.nameCat with
  | .ALLOCATE => true
  | .CREATE => true
  | _ => false

/-- Source: `bool destroysObject() const`. -/
def destroysObject (c : CommandData) : Bool :=
  match c.nameCat with
  | .DESTROY => true
  | .FREE => true
  | _ => false

/-- The loop `for (auto it = params.rbegin(); it != params.rend(); it++)` that
returns the first parameter satisfying `test`, on the parameters in reverse
order; `none` when the loop runs to its end. -/
def scanFromEnd (test : VariableData → Bool) : List VariableData → Option VariableData
  | [] => none
  | p :: ps => if test p then some p else scanFromEnd test ps

/-- Source: `bool containsPointerVariable()`. -/
def containsPointerVariable (c : CommandData) : Bool :=
  (scanFromEnd (fun p => p.originalIsPointer) c.params.reverse).isSome

/-- Source: `getLastPointerVar() const`; the `throw std::runtime_error` is the
`error` result. -/
def getLastPointerVar (c : CommandData) : Except String VariableData :=
  match scanFromEnd (fun p => p.originalIsPointer) c.params.reverse with
  | some v => .ok v
  | none => .error "can't get param (last pointer)"

/-- Source: `getLastHandleVar() const`; the `throw std::runtime_error` is the
`error` result. -/
def getLastHandleVar (c : CommandData) : Except String VariableData :=
  match scanFromEnd (fun p => p.isHandle) c.params.reverse with
  | some v => .ok v
  | none => .error "can't get param (last handle)"

/-- The `try` block of `isIndirectCandidate`: `some b` when it executes
`return b`, `none` when control leaves the block without returning, `error`
when a lookup throws. -/
def isIndirectCandidateTry (c : CommandData) (type : String) : Except String (Option Bool) :=
  if c.getsObject || c.createsObject then
    match c.getLastPointerVar with
    | .ok var => .ok (some (var.originalType != type))
    | .error e => .error e
  else if c.destroysObject then
    match c.getLastHandleVar with
    | .ok var => .ok (some (var.originalType != type))
    | .error e => .error e
  else .ok none

/-- Source: `bool isIndirectCandidate(const std::string_view &type) const`: the
`try` block, `catch (std::runtime_error) {}` and the final `return true`. -/
def isIndirectCandidate (c : CommandData) (type : String) : Except String Bool :=
  match c.isIndirectCandidateTry type with
  | .ok (some b) => .ok b
  | .ok none => .ok true
  | .error _ => .ok true

end CommandData

/-- A by-value parameter named `name`. -/
def valueParam (name : String) : VariableData :=
  { identifier := name, type := "uint32_t", originalType := "uint32_t" }

/-- A pointer parameter named `name`. -/
def pointerParam (name : String) : VariableData :=
  { identifier := name, type := "uint32_t", suffix := "*", originalType := "uint32_t",
    originalSuffix := "*", originalIsPointer := true }

/-- A handle parameter named `name` of type `type`. -/
def handleParam (name type : String) : VariableData :=
  { identifier := name, type := type, originalType := type, isHandle := true }

/-- A command with the parameters `[a:value, b:pointer, c:value, d:pointer]`. -/
def cmdAbcd : CommandData :=
  { params := [valueParam "a", pointerParam "b", valueParam "c", pointerParam "d"],
    nameCat := MemberNameCategory.GET }

/-- A command with two handle parameters followed by a by-value parameter. -/
def cmdHandles : CommandData :=
  { params := [handleParam "device" "VkDevice", handleParam "pool" "VkCommandPool",
      valueParam "flags"],
    nameCat := MemberNameCategory.DESTROY }

/-! ### Text helpers -/

/-- Source (`main.cpp`): `strStripPrefix`, which erases `pre` from the front of
`str` when `str` starts with it. -/
def strStripPrefix (str pre : String) : String :=
  if str.data.take pre.data.length = pre.data then
    String.mk (str.data.drop pre.data.length)
  else str

/-- Source (`main.cpp`, lines 169-177): `strStripVk`.  `Generator.hpp` calls
the function of this name that `XMLUtils.hpp` declares, which is not under
`src/`; modelled from the spec, it is taken to be the one of `main.cpp`. -/
def strStripVk (str : String) : String :=
  strStripPrefix str "Vk"

/-- Modelled from the spec: `strStripSuffix` of `XMLUtils.hpp`, which is not
under `src/`.  It removes `suffix` from the end of `str` when `str` ends with
it, as its uses on lines 1580, 1920 and 1976 require: an argument list or a
code list is built with a separator after every entry and carries no trailing
separator. -/
def strStripSuffix (str suffix : String) : String :=
  if suffix.data.isSuffixOf str.data then
    String.mk (str.data.take (str.data.length - suffix.data.length))
  else str

/-- The characters matched by `\s` in `std::regex("\\s+")`: space, tab, line
feed, vertical tab, form feed and carriage return. -/
def isRegexSpace (c : Char) : Bool :=
  c.toNat = 32 || (9 ≤ c.toNat && c.toNat ≤ 13)

/-- The lambda `removeWhitespace` of `compareSignature`:
`std::regex_replace(str, std::regex("\\s+"), "")`. -/
def removeWhitespace (str : String) : String :=
  String.mk (str.data.filter (fun c => !isRegexSpace c))

/-! ### Identifiers with the pointer prefix -/

/-- Source: `bool isPointerToCArray(const std::string &id)`; identifiers are
read character by character. -/
def isPointerToCArray (id : String) : Bool :=
  match id.data with
  | c0 :: c1 :: _ => c0 == 'p' && c1.isUpper
  | _ => false

/-- Source: `std::string stripStartingP(const std::string &str)`. -/
def stripStartingP (str : String) : String :=
  if isPointerToCArray str then
    match str.data with
    | _ :: c1 :: rest => String.mk (c1.toLower :: rest)
    | _ => str
  else str

/-- Modelled from the spec: `strFirstLower` of `XMLUtils.hpp`, which is not
under `src/`; the spec has identifiers rewritten by "lowering the next
letter", so the string is returned with its first character in lower case. -/
def strFirstLower (str : String) : String :=
  match str.data with
  | [] => str
  | c :: cs => String.mk (c.toLower :: cs)

/-! ### Handles, contexts and configuration -/

/-- Source: `struct Macro`. -/
structure Macro where
  value : String := ""
  define : String := ""
  usesDefine : Bool := false
  deriving DecidableEq

/-- Source: `std::string get() const { return usesDefine ? define : value; }` -/
def Macro.get (m : Macro) : String :=
  if m.usesDefine then m.define else m.value

/-- The fields of `struct Config` read by the code embedded here. -/
structure Config where
  mNamespace : Macro := {}
  mNamespaceRAII : Macro := {}
  mInline : Macro := {}
  mExplicit : Macro := {}
  mDispatch : Macro := {}
  mDispatchType : Macro := {}
  dispatchParam : Bool := false
  allocatorParam : Bool := false
  resultValueType : Bool := false
  deriving DecidableEq

/-- Modelled from the spec: the class `String` of names, declared outside
`src/`: a name as the registry spells it (`original`) and as the bindings
spell it (`text`, what the conversion to `std::string` gives). -/
structure Name where
  original : String := ""
  text : String := ""
  deriving DecidableEq

/-- The fields of `struct HandleData` read through `MemberContext::cls`. -/
structure HandleData where
  name : Name := {}
  superclass : Name := {}
  vkhandle : String := ""
  ownerhandle : String := ""
  isSubclass : Bool := false
  effectiveMembers : Int := 0
  uniqueVars : List VariableData := []
  deriving DecidableEq

/-- Source: `bool hasPFNs() const { return effectiveMembers > 0 && !isSubclass; }` -/
def HandleData.hasPFNs (h : HandleData) : Bool :=
  decide (h.effectiveMembers > 0) && !h.isSubclass

/-- Source: `struct MemberContext : CommandData`; `cls` holds the fields of the
hosting handle the context reads. -/
structure MemberContext extends CommandData where
  name : Name := {}
  cls : HandleData := {}
  ns : Namespace := Namespace.VK
  pfnSourceOverride : String := ""
  pfnNameOverride : String := ""
  raiiOnly : Bool := false
  useThis : Bool := false
  isStatic : Bool := false
  inUnique : Bool := false
  constructor : Bool := false
  generateInline : Bool := false
  disableSubstitution : Bool := false
  deriving DecidableEq

/-- Modelled from the spec: the member functions of `VariableData`, of
`Generator` and of `String` that the embedded code calls and whose bodies are
not under `src/`.  They are text emission and formatting, the conversions of a
parameter from one form to another, look-ups in the registry, and the
constructor `String(name, firstCapital)` of a name (`newName`), which the
spec leaves to external collaborators; the embedded functions take them as
they are. -/
structure External where
  toString : VariableData → String
  toStringWithAssignment : VariableData → String
  originalToString : VariableData → String
  toArgument : VariableData → Bool → String
  declaration : VariableData → String
  matchTypePointers : String → String → String
  format : String → List String → String
  enumConvertCamel : String → String → String
  newName : String → Bool → Name
  isArray : VariableData → Bool
  originalSetFromCurrent : VariableData → VariableData
  strFirstLower : String → String
  getDbgtag : String → String
  genOptional : MemberContext → (String → String) → String
  genOptionalRuns : MemberContext → Bool
  convertToArrayProxy : VariableData → VariableData
  toRAII : VariableData → VariableData
  convertToReference : VariableData → VariableData
  setConst : VariableData → Bool → VariableData
  convertToOptional : VariableData → VariableData
  isStructOrUnion : String → Bool

namespace MemberContext

/-- Source: `bool isIndirect() const { return cls->isSubclass; }` -/
def isIndirect (ctx : MemberContext) : Bool :=
  ctx.cls.isSubclass

/-- Source: `static bool filterProto(Var &v, bool same)`. -/
def filterProto (v : VariableData) (same : Bool) : Bool :=
  if v.ignoreFlag then false else v.hasLengthVar || !same

/-- Source: `static bool filterPass(Var &v, bool same)`. -/
def filterPass (v : VariableData) (_same : Bool) : Bool :=
  !v.ignoreFlag

/-- Source: `static bool filterPFN(Var &v, bool same)`. -/
def filterPFN (v : VariableData) (_same : Bool) : Bool :=
  !v.ignorePFN

/-- Source: `Variables getFilteredProtoVars() const`. -/
def getFilteredProtoVars (ctx : MemberContext) : List VariableData :=
  ctx.params.filter (fun p => filterProto p (p.originalType == ctx.cls.name.original))

/-- One pass through the body of the loop `for (const auto &p : params)` of
`createArguments`: `out` before, the result after. -/
def argumentStep (ext : External) (cfg : Config) (ctx : MemberContext)
    (filter : VariableData → Bool → Bool) (function : VariableData → String)
    (proto : Bool) (out : String) (p : VariableData) : String :=
  let sameType := p.originalType == ctx.cls.name.original && !p.originalType.isEmpty
  if ctx.ns == Namespace.RAII && ctx.cls.isSubclass && !ctx.constructor &&
      p.originalType == ctx.cls.superclass.original then out
  else if !filter p sameType then out
  else
    let out1 :=
      if !ctx.disableSubstitution && !proto && p.type == "AllocationCallbacks" &&
          !cfg.allocatorParam then
        out ++ "nullptr"
      else if !p.hasLengthVar && sameType then
        let out2 :=
          if !ctx.useThis && p.originalIsPointer then out ++ "&"
          else if ctx.useThis then out ++ "*"
          else out
        out2 ++ (if ctx.useThis then "this" else ctx.cls.vkhandle)
      else
        let found :=
          if ctx.inUnique && !proto && !ctx.disableSubstitution && !p.hasLengthVar then
            ctx.cls.uniqueVars.find? (fun v => p.type == v.type)
          else none
        match found with
        | some v => out ++ ext.matchTypePointers v.suffix p.originalSuffix ++ v.identifier
        | none => out ++ function p
    out1 ++ ", "

/-- Source: `std::string createArguments(filter, function, proto) const`. -/
def createArguments (ext : External) (cfg : Config) (ctx : MemberContext)
    (filter : VariableData → Bool → Bool) (function : VariableData → String)
    (proto : Bool) : String :=
  strStripSuffix (ctx.params.foldl (argumentStep ext cfg ctx filter function proto) "") ", "

/-- Source: `std::string createProtoArguments(bool useOriginal, bool declaration) const`. -/
def createProtoArguments (ext : External) (cfg : Config) (ctx : MemberContext)
    (useOriginal : Bool) (declaration : Bool) : String :=
  createArguments ext cfg ctx filterProto
    (fun v =>
      if useOriginal then ext.originalToString v
      else if declaration then ext.toStringWithAssignment v
      else ext.toString v)
    true

/-- Source: `std::string createPFNArguments(bool useOriginal = false) const`. -/
def createPFNArguments (ext : External) (cfg : Config) (ctx : MemberContext)
    (useOriginal : Bool) : String :=
  createArguments ext cfg ctx filterPFN (fun v => ext.toArgument v useOriginal) false

/-- Source: `std::string createPassArguments(bool hasAllocVar) const`. -/
def createPassArguments (_ext : External) (cfg : Config) (ctx : MemberContext)
    (_hasAllocVar : Bool) : String :=
  createArguments _ext cfg ctx filterPass (fun v => v.identifier) false

/-- The parameters the signature view lists: not skipped as the superclass
parameter of a subclass in the RAII namespace, not hidden, and not the
parameter of the hosting handle's own type (unless it has a bound length). -/
def protoVisible (ctx : MemberContext) (p : VariableData) : Bool :=
  !(ctx.ns == Namespace.RAII && ctx.cls.isSubclass && !ctx.constructor &&
      p.originalType == ctx.cls.superclass.original) &&
  !p.ignoreFlag &&
  (p.hasLengthVar ||
    !(p.originalType == ctx.cls.name.original && !p.originalType.isEmpty))

end MemberContext

/-! ### Resolvers (`Generator::MemberResolverBase`, `Generator::MemberResolver`) -/

/-- Modelled from the spec: `VariableData::isInvalid()`, not under `src/`: the
variable still has the special type `TYPE_INVALID` it was constructed with
(`resultVar(refCtx.gen, VariableData::TYPE_INVALID)`), that is, the result
variable has not been declared. -/
def VariableData.isInvalid (v : VariableData) : Bool :=
  v.specialType == SpecialType.TYPE_INVALID

/-- Source: `std::string getDispatchCall(const std::string &var = "d.") const`,
called without argument. -/
def getDispatchCall (cfg : Config) : String :=
  if cfg.dispatchParam then "d." else "::"

/-- Source: `std::string getDispatchType() const`: the define of the macro
when the macro uses one, else its formatted value. -/
def getDispatchType (ext : External) (cfg : Config) : String :=
  if cfg.mDispatchType.usesDefine then cfg.mDispatchType.define
  else ext.format cfg.mDispatchType.value []

/-- The replacement `std::regex_replace(text, std::regex(pattern, icase), "")`
of `convertName` for a pattern of letters and digits, which is what a class
name is: every occurrence of the pattern, compared without regard to case and
found from left to right, is erased; the empty pattern erases nothing.  Every
step consumes a character, so the length of the text is fuel enough. -/
def eraseIgnoreCase (pattern : List Char) : Nat → List Char → List Char
  | 0, text => text
  | _ + 1, [] => []
  | fuel + 1, c :: cs =>
    if !pattern.isEmpty &&
        (pattern.map Char.toLower).isPrefixOf ((c :: cs).map Char.toLower) then
      eraseIgnoreCase pattern fuel ((c :: cs).drop pattern.length)
    else c :: eraseIgnoreCase pattern fuel cs

/-- Source: `static String convertName(const std::string &name, const
std::string &cls)`, lines 862-867: the name built by `String out{name, false}`
with the class name erased from its text; the assignment of the replaced text
to `out` keeps the registry spelling. -/
def convertName (ext : External) (name : String) (cls : String) : Name :=
  let out := ext.newName name false
  { out with text := String.mk (eraseIgnoreCase cls.data out.text.data.length out.text.data) }

/-- The data members of `class MemberResolverBase` (without `allocatorVar`). -/
structure MemberResolverBase where
  ctx : MemberContext
  resultVar : VariableData
  returnType : String
  returnValue : String
  initializer : String
  specifierInline : Bool
  specifierExplicit : Bool
  specifierConst : Bool
  disableCheck : Bool
  dbgtag : String

/-- The template of `generateCheck`, lines 1925-1928. -/
def checkTemplate : String :=
  "\n    resultCheck({0},\n                {1}{2});\n"

/-- The separator after each success code in `generateCheck`. -/
def codeSeparator : String :=
  ",\n                  "

namespace MemberResolverBase

/-- Source: `std::string declareReturnVar(const std::string &assignment = "")`;
the text returned and the resolver with its result variable declared. -/
def declareReturnVar (ext : External) (r : MemberResolverBase) (assignment : String) :
    String × MemberResolverBase :=
  if !r.resultVar.isInvalid then ("", r)
  else
    let rv : VariableData :=
      { r.resultVar with
        specialType := SpecialType.TYPE_DEFAULT, identifier := "result",
        qualifier := "", type := "Result", suffix := "" }
    let out := ext.toString rv
    let out := if !assignment.isEmpty then out ++ " = " ++ assignment else out
    (out ++ ";\n", { r with resultVar := rv })

/-- Source: `std::string castTo(const std::string &type, const std::string &src) const`. -/
def castTo (r : MemberResolverBase) (type src : String) : String :=
  if type != r.ctx.type then "static_cast<" ++ type ++ ">(" ++ src ++ ")" else src

/-- Source: `std::string assignToResult(const std::string &assignment)`. -/
def assignToResult (ext : External) (r : MemberResolverBase) (assignment : String) :
    String × MemberResolverBase :=
  if r.resultVar.isInvalid then declareReturnVar ext r assignment
  else (r.resultVar.identifier ++ " = " ++ assignment ++ ";", r)

/-- Source: `std::string generatePFNcall(bool immediateReturn = false)`. -/
def generatePFNcall (ext : External) (cfg : Config) (r : MemberResolverBase)
    (immediateReturn : Bool) : String × MemberResolverBase :=
  let call := r.ctx.pfnSourceOverride
  let call :=
    if call.isEmpty then
      if r.ctx.ns == Namespace.RAII then call ++ "m_" else call ++ getDispatchCall cfg
    else call
  let call :=
    if r.ctx.pfnNameOverride.isEmpty then call ++ r.ctx.name.original
    else call ++ r.ctx.pfnNameOverride
  let call := call ++ "(" ++ r.ctx.createPFNArguments ext cfg false ++ ")"
  match r.ctx.pfnReturn with
  | .VK_RESULT =>
    let call := r.castTo "Result" call
    if !immediateReturn then assignToResult ext r call
    else ("return " ++ call ++ ";", r)
  | .OTHER =>
    let call := r.castTo r.returnType call
    let call := if immediateReturn then "return " ++ call else call
    (call ++ ";", r)
  | .VOID => (call ++ ";", r)

/-- Source: `bool usesResultValueType() const`. -/
def usesResultValueType (cfg : Config) (r : MemberResolverBase) : Bool :=
  if !cfg.resultValueType then false
  else !r.returnType.isEmpty && r.returnType != "Result" &&
    r.ctx.pfnReturn == PFNReturnCategory.VK_RESULT

/-- Source: `std::string generateReturnValue(const std::string &identifier)`. -/
def generateReturnValue (cfg : Config) (r : MemberResolverBase) (identifier : String) :
    String :=
  if r.resultVar.isInvalid || !r.usesResultValueType cfg then identifier
  else
    let out := "createResultValueType" ++ "("
    let out :=
      if r.resultVar.identifier != identifier then out ++ r.resultVar.identifier ++ ", "
      else out
    out ++ identifier ++ ")"

/-- The local variable `message` of `generateCheck`. -/
def checkMessage (cfg : Config) (r : MemberResolverBase) : String :=
  let ns := if r.ctx.ns == Namespace.VK then cfg.mNamespace else cfg.mNamespaceRAII
  let message := if ns.usesDefine then ns.define ++ "_STRING \"" else "\"" ++ ns.value
  let message :=
    if !r.ctx.cls.name.text.isEmpty then message ++ "::" ++ r.ctx.cls.name.text
    else message
  message ++ "::" ++ r.ctx.name.text ++ "\""

/-- The local variable `codes` of `generateCheck`. -/
def checkCodes (ext : External) (successCodes : List String) : String :=
  if successCodes.length > 1 then
    let codes := ",\n                \x7b "
    let codes := successCodes.foldl
      (fun codes c => codes ++ "Result::" ++ ext.enumConvertCamel "Result" c ++ codeSeparator)
      codes
    strStripSuffix codes codeSeparator ++ "\x7d"
  else ""

/-- Source: `std::string generateCheck()`. -/
def generateCheck (ext : External) (cfg : Config) (r : MemberResolverBase) : String :=
  if r.ctx.pfnReturn != PFNReturnCategory.VK_RESULT || r.resultVar.isInvalid then ""
  else
    ext.format checkTemplate
      [r.resultVar.identifier, checkMessage cfg r, checkCodes ext r.ctx.successCodes]

/-- Source: `std::string generateReturnType()`. -/
def generateReturnType (cfg : Config) (r : MemberResolverBase) : String :=
  if r.usesResultValueType cfg then "ResultValueType<" ++ r.returnType ++ ">::type"
  else r.returnType

/-- Source: `std::string getSpecifiers(bool decl)`. -/
def getSpecifiers (cfg : Config) (r : MemberResolverBase) (decl : Bool) : String :=
  let output := ""
  let output := if r.specifierInline && !decl then output ++ cfg.mInline.get ++ " " else output
  if r.specifierExplicit && decl then output ++ cfg.mExplicit.get ++ " " else output

/-- Source: `std::string getProto(const std::string &indent, bool declaration)`. -/
def getProto (ext : External) (cfg : Config) (r : MemberResolverBase) (indent : String)
    (declaration : Bool) : String :=
  let tag := ext.getDbgtag r.dbgtag
  let output := if !tag.isEmpty then indent ++ tag else ""
  let temp := r.ctx.params.foldl
    (fun temp p => if !p.template.isEmpty then temp ++ "typename " ++ p.template ++ ", " else temp)
    ""
  let temp := strStripSuffix temp ", "
  let output :=
    if !temp.isEmpty then output ++ indent ++ "template <" ++ temp ++ ">\n" else output
  let spec := r.getSpecifiers cfg declaration
  let ret := r.generateReturnType cfg
  let output := output ++ indent
  let output := if !spec.isEmpty then output ++ spec else output
  let output := if !ret.isEmpty then output ++ ret ++ " " else output
  let output :=
    if !declaration && !r.ctx.isStatic then output ++ r.ctx.cls.name.text ++ "::" else output
  let output := output ++ r.ctx.name.text ++ "(" ++
    r.ctx.createProtoArguments ext cfg false declaration ++ ")"
  let output :=
    if r.ctx.constructor && !r.initializer.isEmpty then output ++ r.initializer else output
  if r.specifierConst && !r.ctx.isStatic then output ++ " const" else output

/-- Source: `std::string createPassArguments()` of the resolver. -/
def createPassArguments (ext : External) (cfg : Config) (r : MemberResolverBase) : String :=
  r.ctx.createPassArguments ext cfg true

/-- The loop of `generateDefinition` over the parameters, lines 2037-2052: the
comment lines it appends. -/
def sizeComments (r : MemberResolverBase) : String :=
  r.ctx.params.foldl
    (fun output p =>
      if p.ignoreFlag then output
      else if p.specialType == SpecialType.TYPE_ARRAY_PROXY && p.lenAttribIndirect then
        let var := (r.ctx.params.getD (p.lengthVar.getD 0) {})
        let size := var.identifier ++ "." ++ p.lenAttribRhs
        output ++ "    // if (" ++ p.identifier ++ ".size()" ++ " != " ++ size ++ ") TODO\n"
      else output)
    ""

/-- The callback that `generateDefinition` hands to `genOptional`, lines
2014-2064, run on the output so far; `body` is the virtual
`generateMemberBody`.  The message written to `std::cerr` when the class has
no owner is not part of the output. -/
def definitionText (ext : External) (cfg : Config)
    (body : MemberResolverBase → String × MemberResolverBase) (r : MemberResolverBase)
    (genInline : Bool) (output : String) : String × MemberResolverBase :=
  let indent := if genInline then "    " else "  "
  let output := output ++ r.getProto ext cfg indent genInline ++ " \x7b\n"
  if r.ctx.ns == Namespace.RAII && r.ctx.isIndirect && !r.ctx.constructor then
    if r.ctx.cls.ownerhandle.isEmpty then (output ++ "  \x7d\n", r)
    else
      let name := convertName ext r.ctx.name.original r.ctx.cls.superclass.text
      let args := r.createPassArguments ext cfg
      let output := output ++ "    "
      let output := if r.generateReturnType cfg != "void" then output ++ "return " else output
      let output := output ++ r.ctx.cls.ownerhandle ++ "->" ++ name.text ++ "(" ++ args ++ ");\n"
      (output ++ "  \x7d\n", r)
  else
    let output := output ++ r.sizeComments
    let (text, r1) := body r
    let output := output ++ text
    let output :=
      if !r1.disableCheck && r1.ctx.pfnReturn == PFNReturnCategory.VK_RESULT then
        output ++ r1.generateCheck ext cfg
      else output
    let output :=
      if r1.generateReturnType cfg != "void" && !r1.returnValue.isEmpty then
        output ++ "    return " ++ r1.returnValue ++ ";\n"
      else output
    (output ++ "  \x7d\n", r1)

/-- Source: `std::string generateDefinition(bool genInline)`. -/
def generateDefinition (ext : External) (cfg : Config)
    (body : MemberResolverBase → String × MemberResolverBase) (r : MemberResolverBase)
    (genInline : Bool) : String :=
  ext.genOptional r.ctx (fun output => (definitionText ext cfg body r genInline output).1)

/-- Source: the constructor `MemberResolverBase(MemberContext &refCtx)`. -/
def new (ext : External) (cfg : Config) (refCtx : MemberContext) : MemberResolverBase :=
  let ctx :=
    if cfg.dispatchParam && refCtx.ns == Namespace.VK then
      let assignment := cfg.mDispatch.get
      let var : VariableData :=
        { qualifier := "", type := getDispatchType ext cfg, suffix := " const &",
          identifier := "d", ignorePFN := true,
          assignment := if !assignment.isEmpty then " " ++ assignment else "" }
      { refCtx with params := refCtx.params ++ [var] }
    else refCtx
  { ctx := ctx
    resultVar := { specialType := SpecialType.TYPE_INVALID }
    returnType := strStripVk refCtx.type
    returnValue := ""
    initializer := ""
    specifierInline := true
    specifierExplicit := false
    specifierConst := true
    disableCheck := true
    dbgtag := "default" }

/-- Source: the lambda `getType` of `compareSignature`. -/
def getType (var : VariableData) : String :=
  removeWhitespace var.type ++ " " ++ removeWhitespace var.suffix

/-- The loop `for (size_t i = 0; i < lhs.size(); i++)` of `compareSignature`,
on two lists of the same length. -/
def compareTypes : List VariableData → List VariableData → Bool
  | l :: ls, r :: rs => if getType l != getType r then false else compareTypes ls rs
  | _, _ => true

/-- Source: `bool compareSignature(const MemberResolverBase &o) const`. -/
def compareSignature (r o : MemberResolverBase) : Bool :=
  let lhs := r.ctx.getFilteredProtoVars
  let rhs := o.ctx.getFilteredProtoVars
  if lhs.length == rhs.length then compareTypes lhs rhs else false

end MemberResolverBase

namespace MemberResolver

/-- Source: `MemberResolver::generateMemberBody()`, lines 2339-2348. -/
def generateMemberBody (ext : External) (cfg : Config) (r : MemberResolverBase) :
    String × MemberResolverBase :=
  let immediate := r.ctx.pfnReturn != PFNReturnCategory.VK_RESULT &&
    decide (r.ctx.successCodes.length ≤ 1)
  let (call, r1) := r.generatePFNcall ext cfg immediate
  let output := "" ++ "    " ++ call ++ "\n"
  if !immediate then
    (output, { r1 with returnValue := r1.generateReturnValue cfg r1.resultVar.identifier })
  else (output, r1)

/-- Source: the constructor `MemberResolver(MemberContext &refCtx)`.
`transformMemberArguments()`, which rewrites the parameters of the context
and nothing else, is passed in as `transform`. -/
def new (ext : External) (cfg : Config)
    (transform : List VariableData → List VariableData) (refCtx : MemberContext) :
    MemberResolverBase :=
  let r := MemberResolverBase.new ext cfg refCtx
  let r := { r with ctx := { r.ctx with params := transform r.ctx.params } }
  if r.ctx.pfnReturn == PFNReturnCategory.VK_RESULT && decide (r.ctx.successCodes.length ≤ 1)
  then { r with returnType := "void" }
  else r

end MemberResolver

/-! ### A stand-in for the external collaborators -/

/-- Positional substitution: every `{i}` with a digit `i` is replaced by the
`i`-th argument; `fuel` bounds the number of characters read. -/
def substitutePositional (args : List String) : Nat → List Char → List Char
  | 0, _ => []
  | _, [] => []
  | fuel + 1, c :: tail =>
    match tail with
    | d :: e :: rest =>
      if c.toNat = 123 ∧ d.isDigit = true ∧ e.toNat = 125 then
        (args.getD (d.toNat - 48) "").data ++ substitutePositional args fuel rest
      else c :: substitutePositional args fuel tail
    | _ => c :: substitutePositional args fuel tail

/-- A stand-in for the external collaborators, to run the embedded functions
on concrete input: a parameter is printed as its full type followed by its
identifier, it is forwarded as its identifier (or as the text set by
`setAltPFN`), `format` substitutes its arguments by position, a success code
is named by `e` followed by its registry name, a name is its registry
spelling without the prefix `vk` and with a small first letter, `genOptional` always runs
its callback on the empty output, the conversions of a parameter rewrite its
qualifier, its suffix, its special type or its namespace tag and nothing
else, and the only structure is `VkSubmitInfo`. -/
def plainExternal : External :=
  { toString := fun v => v.qualifier ++ v.type ++ v.suffix ++ " " ++ v.identifier,
    toStringWithAssignment := fun v =>
      v.qualifier ++ v.type ++ v.suffix ++ " " ++ v.identifier ++ v.assignment,
    originalToString := fun v => v.originalType ++ v.originalSuffix ++ " " ++ v.identifier,
    toArgument := fun v _ => if v.altPFN.isEmpty then v.identifier else v.altPFN,
    declaration := fun v => v.qualifier ++ v.type ++ v.suffix ++ " " ++ v.identifier,
    matchTypePointers := fun _ _ => "",
    format := fun template args =>
      String.mk (substitutePositional args template.data.length template.data),
    enumConvertCamel := fun _ value => "e" ++ value,
    newName := fun name _ =>
      { original := name, text := strFirstLower (strStripPrefix name "vk") },
    isArray := fun v => v.lengthVar.isSome,
    originalSetFromCurrent := fun v => v,
    strFirstLower := strFirstLower,
    getDbgtag := fun _ => "",
    genOptional := fun _ f => f "",
    genOptionalRuns := fun _ => true,
    convertToArrayProxy := fun v =>
      { v with specialType := SpecialType.TYPE_ARRAY_PROXY,
               qualifier := "ArrayProxy<const ", suffix := "> const &" },
    toRAII := fun v => { v with ns := Namespace.RAII },
    convertToReference := fun v => { v with suffix := " &" },
    setConst := fun v c => { v with qualifier := if c then "const " else "" },
    convertToOptional := fun v =>
      { v with qualifier := "Optional<const ", suffix := ">" },
    isStructOrUnion := fun name => name == "VkSubmitInfo" }

/-- A configuration with the namespace macro `VULKAN_HPP_NAMESPACE` and no
optional arguments. -/
def plainConfig : Config :=
  { mNamespace :=
      { value := "vk", define := "VULKAN_HPP_NAMESPACE", usesDefine := true },
    mNamespaceRAII :=
      { value := "vk::raii", define := "VULKAN_HPP_NAMESPACE_RAII", usesDefine := true },
    mInline := { value := "inline" } }

/-- The handle `Device`. -/
def deviceHandle : HandleData :=
  { name := { original := "VkDevice", text := "Device" }, vkhandle := "m_device" }

/-- A member `waitIdle` of `Device` that returns `VkResult`, takes the device
and has the single success code `VK_SUCCESS`. -/
def ctxOneCode : MemberContext :=
  { type := "VkResult", pfnReturn := PFNReturnCategory.VK_RESULT,
    successCodes := ["VK_SUCCESS"],
    params := [handleParam "device" "VkDevice"],
    name := { original := "vkDeviceWaitIdle", text := "waitIdle" },
    cls := deviceHandle }

/-- A member `getFenceStatus` of `Device` that returns `VkResult`, takes the
device and a fence and has the success codes `VK_SUCCESS` and `VK_NOT_READY`. -/
def ctxTwoCodes : MemberContext :=
  { type := "VkResult", pfnReturn := PFNReturnCategory.VK_RESULT,
    successCodes := ["VK_SUCCESS", "VK_NOT_READY"],
    params := [handleParam "device" "VkDevice", handleParam "fence" "VkFence"],
    name := { original := "vkGetFenceStatus", text := "getFenceStatus" },
    cls := deviceHandle }

/-- The handle `CommandPool`, a subclass of `Device`. -/
def poolHandle : HandleData :=
  { name := { original := "VkCommandPool", text := "CommandPool" },
    superclass := { original := "VkDevice", text := "Device" },
    vkhandle := "m_commandPool", ownerhandle := "m_device", isSubclass := true }

/-- The member `reset` of `CommandPool` in the RAII namespace: it takes the
device, the command pool and by-value flags. -/
def ctxRaiiReset : MemberContext :=
  { type := "VkResult", pfnReturn := PFNReturnCategory.VK_RESULT,
    successCodes := ["VK_SUCCESS"],
    params := [handleParam "device" "VkDevice", handleParam "commandPool" "VkCommandPool",
      valueParam "flags"],
    name := { original := "vkResetCommandPool", text := "reset" },
    cls := poolHandle, ns := Namespace.RAII }

/-- The resolver with the identifiers of its parameters replaced. -/
def MemberResolverBase.withIdentifiers (rename : VariableData → String)
    (r : MemberResolverBase) : MemberResolverBase :=
  { r with ctx := { r.ctx with
      params := r.ctx.params.map (fun v => { v with identifier := rename v }) } }

/-- The normalised type sequence of a resolver's signature: for each
parameter of `getFilteredProtoVars`, in declared order, its type and its
suffix without whitespace. -/
def MemberResolverBase.signatureTypes (r : MemberResolverBase) : List (String × String) :=
  r.ctx.getFilteredProtoVars.map
    (fun v => (removeWhitespace v.type, removeWhitespace v.suffix))

/-- The default resolver for `ctxOneCode`, after its member body has declared
the result variable. -/
def resolverOneCode : MemberResolverBase :=
  (MemberResolver.generateMemberBody plainExternal plainConfig
    (MemberResolver.new plainExternal plainConfig id ctxOneCode)).2

/-- The default resolver for `ctxTwoCodes`, as constructed. -/
def resolverTwoCodes : MemberResolverBase :=
  MemberResolver.new plainExternal plainConfig id ctxTwoCodes

/-- The default resolver for `ctxTwoCodes`, after its member body has declared
the result variable. -/
def resolverTwoCodesDeclared : MemberResolverBase :=
  (MemberResolver.generateMemberBody plainExternal plainConfig resolverTwoCodes).2

/-- The context `ctxTwoCodes` with other identifiers and with whitespace in
the type of the fence parameter. -/
def ctxTwoCodesSpaced : MemberContext :=
  { ctxTwoCodes with
    params := [handleParam "self" "VkDevice",
      { handleParam "f" "VkFence" with type := " Vk Fence " }] }

/-- The member of `ctxTwoCodes` with an event in place of the fence. -/
def ctxTwoCodesEvent : MemberContext :=
  { ctxTwoCodes with
    params := [handleParam "device" "VkDevice", handleParam "fence" "VkEvent"] }

/-! ### Array code (`MemberResolverBase::generateArrayCode`) -/

/-- The template of lines 2115-2124: the two calls in a `do`/`while` loop, for
a callable that returns a status code. -/
def arrayLoopTemplate : String :=
  "\n    do \x7b\n      {0}\n      if (result == Result::eSuccess && {2}) \x7b\n        {3}.resize({2});\n        {1}\n        //VULKAN_HPP_ASSERT({2} <= {3}.size());\n      \x7d\n    \x7d while (result == Result::eIncomplete);\n"

/-- The template of lines 2127-2132: the two calls in sequence, for a callable
that returns no status code. -/
def arrayPlainTemplate : String :=
  "\n    {0}\n    {3}.resize({2});\n    {1}\n    //VULKAN_HPP_ASSERT({2} <= {3}.size());\n"

/-- The template of lines 2136-2140: the storage is shrunk to the count. -/
def arrayShrinkTemplate : String :=
  "\n    if ({0} < {1}.size()) \x7b\n      {1}.resize({0});\n    \x7d\n"

/-- The template of lines 2163-2168. -/
def arrayReserveTemplate : String :=
  "\n    this->reserve({0});\n    for (auto const &{1} : {2}) \x7b\n      this->emplace_back({3}, {1});\n    \x7d\n"

/-- Write `f p` to the parameter at position `i`. -/
def MemberResolverBase.modifyParam (r : MemberResolverBase) (i : Nat)
    (f : VariableData → VariableData) : MemberResolverBase :=
  { r with ctx := { r.ctx with params := r.ctx.params.modify f i } }

/-- The first statements of `generateArrayCode`, lines 2083-2095: with
`useOriginal`, each parameter that is an array or not of the type of the class
has field 1 of its original declaration set from field 1 of the current one
(`p->original.set(1, p->get(1))`, taken as `originalSetFromCurrent`); then an
array parameter in the RAII namespace is moved to the plain one. -/
def MemberResolverBase.arrayCodeParams (ext : External) (r : MemberResolverBase)
    (vi : Nat) (useOriginal : Bool) : MemberResolverBase :=
  let r :=
    if useOriginal then
      { r with ctx := { r.ctx with params := r.ctx.params.map (fun p =>
          if ext.isArray p || p.originalType != r.ctx.cls.name.original then
            ext.originalSetFromCurrent p
          else p) } }
    else r
  let convert := (r.ctx.params.getD vi {}).ns == Namespace.RAII
  if convert then r.modifyParam vi (fun v => { v with ns := Namespace.VK }) else r

/-- Source: `std::string generateArrayCode(const MemberContext::Var &var, bool
useOriginal = false)`.  `var` points into the parameters of the context; it
is given as its position `vi` there, and its length parameter is read at the
position `var->getLengthVar()` names. -/
def MemberResolverBase.generateArrayCode (ext : External) (cfg : Config)
    (r : MemberResolverBase) (vi : Nat) (useOriginal : Bool) :
    String × MemberResolverBase :=
  let r := r.arrayCodeParams ext vi useOriginal
  let var := r.ctx.params.getD vi {}
  let output := ""
  let lenVar := r.ctx.params.getD (var.lengthVar.getD 0) {}
  let id := var.identifier
  let (output, r) :=
    if r.ctx.pfnReturn == PFNReturnCategory.VK_RESULT then
      let (decl, r1) := r.declareReturnVar ext ""
      (output ++ "    " ++ decl, r1)
    else (output, r)
  let size := lenVar.identifier
  let (call, r) := r.generatePFNcall ext cfg false
  let (output, size, r) :=
    if lenVar.originalIsPointer && !lenVar.originalIsConst then
      let output := output ++ "    " ++ ext.declaration var ++ ";\n"
      let output := output ++ "    " ++ ext.declaration lenVar ++ ";\n"
      let r := r.modifyParam vi (fun v => { v with altPFN := "nullptr" })
      let (callNullptr, r) := r.generatePFNcall ext cfg false
      let output :=
        if r.ctx.pfnReturn == PFNReturnCategory.VK_RESULT then
          output ++ ext.format arrayLoopTemplate [callNullptr, call, size, id]
        else
          output ++ ext.format arrayPlainTemplate [callNullptr, call, size, id]
      let output := output ++ r.generateCheck ext cfg
      let output := output ++ ext.format arrayShrinkTemplate [size, id]
      (output, size, r)
    else
      let size :=
        if lenVar.ignoreFlag then
          (r.ctx.params.getD (lenVar.arrayVar.getD 0) {}).identifier ++ ".size()"
        else if var.lenAttribIndirect then
          (if lenVar.isPointer then size ++ "->" else size ++ ".") ++ var.lenAttribRhs
        else size
      let output := output ++ "    " ++ ext.declaration var ++ "(" ++ size ++ ");\n"
      let output := output ++ "    " ++ call ++ "\n"
      let output := output ++ r.generateCheck ext cfg
      (output, size, r)
  if !r.returnType.isEmpty then
    (output, { r with returnValue := r.generateReturnValue cfg id })
  else
    let parent := ext.strFirstLower r.ctx.cls.superclass.text
    let iter := strStripSuffix id "s"
    (output ++ ext.format arrayReserveTemplate [size, iter, id, parent], r)

/-- The status codes the emitted loop tells apart. -/
inductive Status where
  | eSuccess
  | eIncomplete
  | other (code : Nat)
  deriving DecidableEq

/-- The entry point as the emitted code sees it: called in a state of its own
with a buffer (`none` for `nullptr`, `some n` for storage of size `n`) and the
value of the count variable, it answers with a status, the count it writes
back and its next state. -/
abbrev EntryPoint (σ : Type) := σ → Option Nat → Nat → Status × Nat × σ

/-- The variables of the emitted body: `result`, the count variable, the size
of the storage, the state of the entry point, and the buffers passed to it so
far. -/
structure ArrayRun (σ : Type) where
  result : Status
  count : Nat
  storage : Nat
  entry : σ
  calls : List (Option Nat)

/-- One call of the entry point, `{0}` with `nullptr` or `{1}` with the
storage: `result` and the count variable are overwritten. -/
def callEntry {σ : Type} (ep : EntryPoint σ) (st : ArrayRun σ) (buffer : Option Nat) :
    ArrayRun σ :=
  let answer := ep st.entry buffer st.count
  { st with result := answer.1, count := answer.2.1, entry := answer.2.2,
            calls := st.calls ++ [buffer] }

/-- What a round of the loop computes, in closed form (`arrayRoundProgram`
run on the slots of the loop gives it): the call with `nullptr`, then, when the
status is success and the count is not zero, the resize to the count and the
call with the storage. -/
def arrayRound {σ : Type} (ep : EntryPoint σ) (st : ArrayRun σ) : ArrayRun σ :=
  let st1 := callEntry ep st none
  if st1.result = Status.eSuccess ∧ st1.count ≠ 0 then
    callEntry ep { st1 with storage := st1.count } (some st1.count)
  else st1

/-- What the loop computes, in closed form (`arrayLoopProgram` run on the
slots of the loop gives it): rounds while the status is incomplete, `fuel`
bounding their number. -/
def arrayLoop {σ : Type} (ep : EntryPoint σ) : Nat → ArrayRun σ → Option (ArrayRun σ)
  | 0, _ => none
  | fuel + 1, st =>
    let st1 := arrayRound ep st
    if st1.result = Status.eIncomplete then arrayLoop ep fuel st1 else some st1

/-- What the shrink computes, in closed form (`arrayShrinkProgram` run on its
slots gives it): the storage is resized to the count when the count is
smaller. -/
def arrayShrink {σ : Type} (st : ArrayRun σ) : ArrayRun σ :=
  if st.count < st.storage then { st with storage := st.count } else st

/-- What an argument of `format` puts in a slot of a template of
`generateArrayCode`: the call with `nullptr` for the array, the call with the
array, the count variable, or the array variable. -/
inductive Operand where
  | query
  | fill
  | count
  | storage
  deriving DecidableEq

/-- The conditions that occur in the templates of `generateArrayCode`. -/
inductive Cond where
  | resultIs (code : String)
  | slot (n : Nat)
  | lessThanSize (count storage : Nat)
  | and (a b : Cond)

/-- The statements that occur in the templates of `generateArrayCode`. -/
inductive Stmt where
  | run (n : Nat)
  | resize (storage count : Nat)
  | comment (text : String)
  | seq (first second : Stmt)
  | ifThen (c : Cond) (body : Stmt)
  | doWhile (body : Stmt) (c : Cond)

/-- The text of slot `n` in a template. -/
def slotText (n : Nat) : String :=
  "\x7b" ++ toString n ++ "\x7d"

/-- The text of a condition. -/
def Cond.render : Cond → String
  | .resultIs code => "result == Result::" ++ code
  | .slot n => slotText n
  | .lessThanSize count storage => slotText count ++ " < " ++ slotText storage ++ ".size()"
  | .and a b => a.render ++ " && " ++ b.render

/-- The text of a statement, every line of it after `indent`. -/
def Stmt.render : Stmt → String → String
  | .run n, indent => indent ++ slotText n ++ "\n"
  | .resize storage count, indent =>
    indent ++ slotText storage ++ ".resize(" ++ slotText count ++ ");\n"
  | .comment text, indent => indent ++ "//" ++ text ++ "\n"
  | .seq first second, indent => first.render indent ++ second.render indent
  | .ifThen c body, indent =>
    indent ++ "if (" ++ c.render ++ ") \x7b\n" ++ body.render (indent ++ "  ") ++
      indent ++ "\x7d\n"
  | .doWhile body c, indent =>
    indent ++ "do \x7b\n" ++ body.render (indent ++ "  ") ++
      indent ++ "\x7d while (" ++ c.render ++ ");\n"

/-- The status an enumerator of `Result` in a condition names. -/
def Status.named (code : String) : Option Status :=
  if code = "eSuccess" then some Status.eSuccess
  else if code = "eIncomplete" then some Status.eIncomplete
  else none

/-- The value of a condition in a state of the variables: `result == ...`
compares the status, a slot that holds the count variable is true when the
count is not zero, `&&` evaluates its right side only when the left one is
true.  `none` when a slot does not hold what the condition needs. -/
def Cond.eval {σ : Type} (slots : List Operand) (st : ArrayRun σ) : Cond → Option Bool
  | .resultIs code => (Status.named code).map (fun s => decide (st.result = s))
  | .slot n =>
    match slots[n]? with
    | some Operand.count => some (decide (st.count ≠ 0))
    | _ => none
  | .lessThanSize count storage =>
    match slots[count]?, slots[storage]? with
    | some Operand.count, some Operand.storage => some (decide (st.count < st.storage))
    | _, _ => none
  | .and a b =>
    (a.eval slots st).bind (fun t => if t then b.eval slots st else some false)

/-- The loop `do body while (cond);`, `fuel` bounding the number of rounds. -/
def repeatWhile {α : Type} (body : α → Option α) (cond : α → Option Bool) :
    Nat → α → Option α
  | 0, _ => none
  | fuel + 1, st =>
    (body st).bind (fun st1 =>
      (cond st1).bind (fun t => if t then repeatWhile body cond fuel st1 else some st1))

/-- Run a statement in a state of the variables, against the entry point `ep`
and with `slots` telling what the slots hold: a slot with a call makes the
call, with `nullptr` or with the storage, `resize` sets the size of the
storage to the count, a comment does nothing.  `none` when a slot does not
hold what the statement needs or a loop does not end within `fuel` rounds. -/
def Stmt.exec {σ : Type} (ep : EntryPoint σ) (slots : List Operand) :
    Stmt → Nat → ArrayRun σ → Option (ArrayRun σ)
  | .run n, _, st =>
    match slots[n]? with
    | some Operand.query => some (callEntry ep st none)
    | some Operand.fill => some (callEntry ep st (some st.storage))
    | _ => none
  | .resize storage count, _, st =>
    match slots[storage]?, slots[count]? with
    | some Operand.storage, some Operand.count => some { st with storage := st.count }
    | _, _ => none
  | .comment _, _, st => some st
  | .seq first second, fuel, st =>
    (first.exec ep slots fuel st).bind (fun st1 => second.exec ep slots fuel st1)
  | .ifThen c body, fuel, st =>
    (c.eval slots st).bind (fun t => if t then body.exec ep slots fuel st else some st)
  | .doWhile body c, fuel, st =>
    repeatWhile (fun st1 => body.exec ep slots fuel st1) (c.eval slots) fuel st

/-- The body of the `do` loop of `arrayLoopTemplate`. -/
def arrayRoundProgram : Stmt :=
  .seq (.run 0)
    (.ifThen (.and (.resultIs "eSuccess") (.slot 2))
      (.seq (.resize 3 2)
        (.seq (.run 1) (.comment "VULKAN_HPP_ASSERT({2} <= {3}.size());"))))

/-- The statement of `arrayLoopTemplate`. -/
def arrayLoopProgram : Stmt :=
  .doWhile arrayRoundProgram (.resultIs "eIncomplete")

/-- The statements of `arrayPlainTemplate`. -/
def arrayPlainProgram : Stmt :=
  .seq (.run 0)
    (.seq (.resize 3 2)
      (.seq (.run 1) (.comment "VULKAN_HPP_ASSERT({2} <= {3}.size());")))

/-- The statement of `arrayShrinkTemplate`. -/
def arrayShrinkProgram : Stmt :=
  .ifThen (.lessThanSize 0 1) (.resize 1 0)

/-- The slots of `arrayLoopTemplate` and of `arrayPlainTemplate`, as
`format(..., callNullptr, call, size, id)` fills them. -/
def loopSlots : List Operand :=
  [Operand.query, Operand.fill, Operand.count, Operand.storage]

/-- The slots of `arrayShrinkTemplate`, as `format(..., size, id)` fills
them. -/
def shrinkSlots : List Operand :=
  [Operand.count, Operand.storage]

/-- The text `format` puts in a slot: the call generated with `nullptr` for
the array, the call generated with the array, the identifier of the count
variable, or the identifier of the array variable. -/
def Operand.text (query fill count storage : String) : Operand → String
  | .query => query
  | .fill => fill
  | .count => count
  | .storage => storage

/-- The emitted body for a callable that returns a status code: the loop, the
status check (`check` says whether `resultCheck` lets the status pass;
otherwise it throws and the body ends there), then the shrink.  `none` when
the loop does not end within `fuel` rounds. -/
def runStatusBody {σ : Type} (ep : EntryPoint σ) (check : Status → Bool) (fuel : Nat)
    (st : ArrayRun σ) : Option (Except Status (ArrayRun σ)) :=
  (arrayLoopProgram.exec ep loopSlots fuel st).bind (fun st1 =>
    if check st1.result then
      (arrayShrinkProgram.exec ep shrinkSlots fuel st1).map (fun st2 => .ok st2)
    else some (.error st1.result))

/-- The emitted body for a callable that returns no status code: the
statements of `arrayPlainTemplate`, then the shrink. -/
def runPlainBody {σ : Type} (ep : EntryPoint σ) (fuel : Nat) (st : ArrayRun σ) :
    Option (ArrayRun σ) :=
  (arrayPlainProgram.exec ep loopSlots fuel st).bind (fun st1 =>
    arrayShrinkProgram.exec ep shrinkSlots fuel st1)

/-- The member `enumeratePhysicalDevices` of `Instance`: the count parameter
is a non-const pointer and binds the length of the output array. -/
def ctxEnumerate : MemberContext :=
  { type := "VkResult", pfnReturn := PFNReturnCategory.VK_RESULT,
    successCodes := ["VK_SUCCESS", "VK_INCOMPLETE"],
    nameCat := MemberNameCategory.ENUMERATE,
    params := [handleParam "instance" "VkInstance",
      { identifier := "physicalDeviceCount", type := "uint32_t",
        originalType := "uint32_t", originalSuffix := "*", originalIsPointer := true,
        arrayVar := some 2 },
      { identifier := "physicalDevices", qualifier := "std::vector<",
        type := "PhysicalDevice", suffix := ">", originalType := "VkPhysicalDevice",
        originalSuffix := "*", originalIsPointer := true, isHandle := true,
        lengthVar := some 1 }],
    name := { original := "vkEnumeratePhysicalDevices", text := "enumeratePhysicalDevices" },
    cls := { name := { original := "VkInstance", text := "Instance" },
             vkhandle := "m_instance" } }

/-- An entry point that reports success and no element on every call. -/
def emptyEntry : EntryPoint Unit :=
  fun _ _ _ => (Status.eSuccess, 0, ())

/-- An entry point that has three elements, then five: the first query
reports three, the fill that follows reports `eIncomplete`, the second query
reports five and the fill that follows reports success with four written. -/
def growingEntry : EntryPoint Nat :=
  fun n buffer _ =>
    match n, buffer with
    | 0, _ => (Status.eSuccess, 3, 1)
    | 1, _ => (Status.eIncomplete, 3, 2)
    | 2, _ => (Status.eSuccess, 5, 3)
    | _, _ => (Status.eSuccess, 4, 4)

/-- The variables of the emitted body before the loop: no storage, nothing
called yet. -/
def freshRun {σ : Type} (entry : σ) : ArrayRun σ :=
  { result := Status.other 0, count := 0, storage := 0, entry := entry, calls := [] }

/-! ### The entries of the forwarding view and of the call view -/

/-- The test `ns == Namespace::RAII && cls->isSubclass && !constructor &&
p->original.type() == cls->superclass.original` of `createArguments`, on which
the loop moves on to the next parameter. -/
def MemberContext.skipsSuperclass (ctx : MemberContext) (p : VariableData) : Bool :=
  ctx.ns == Namespace.RAII && ctx.cls.isSubclass && !ctx.constructor &&
    p.originalType == ctx.cls.superclass.original

/-- The local `sameType` of `createArguments`: the parameter is of the hosting
handle's type, and that type is not empty. -/
def MemberContext.sameType (ctx : MemberContext) (p : VariableData) : Bool :=
  p.originalType == ctx.cls.name.original && !p.originalType.isEmpty

/-- The self reference `createArguments` writes for a parameter of the hosting
handle's type: `*this` with `useThis`, otherwise the handle member, with `&`
when the parameter is a pointer in its original declaration. -/
def MemberContext.selfReference (ctx : MemberContext) (p : VariableData) : String :=
  (if !ctx.useThis && p.originalIsPointer then "&"
   else if ctx.useThis then "*" else "") ++
  (if ctx.useThis then "this" else ctx.cls.vkhandle)

/-- The member variable of a unique-ownership wrapper that stands in for the
parameter: the first of `cls->uniqueVars` with the parameter's type, looked
for only inside a unique wrapper, with substitution on, for a parameter
without bound length. -/
def MemberContext.uniqueMatch (ctx : MemberContext) (p : VariableData) :
    Option VariableData :=
  if ctx.inUnique && !ctx.disableSubstitution && !p.hasLengthVar then
    ctx.cls.uniqueVars.find? (fun v => p.type == v.type)
  else none

/-- The entry of a parameter in a view that is not the signature view: the
first of the substitutions that applies, otherwise the text `function` gives
for the parameter. -/
def MemberContext.argumentText (ext : External) (cfg : Config) (ctx : MemberContext)
    (function : VariableData → String) (p : VariableData) : String :=
  if !ctx.disableSubstitution && p.type == "AllocationCallbacks" &&
      !cfg.allocatorParam then "nullptr"
  else if !p.hasLengthVar && ctx.sameType p then ctx.selfReference p
  else
    match ctx.uniqueMatch p with
    | some v => ext.matchTypePointers v.suffix p.originalSuffix ++ v.identifier
    | none => function p

/-! ### `generate` and `finalizeArguments` -/

/-- The declaration buffer and the definition buffer `generate` is called on,
and the ledger `cls->generated` of the hosting handle. -/
structure GenOutput where
  decl : String := ""
  defn : String := ""
  generated : List MemberContext := []

namespace MemberResolverBase

/-- Source: `std::string generateDeclaration()`. -/
def generateDeclaration (ext : External) (cfg : Config) (r : MemberResolverBase) : String :=
  ext.genOptional r.ctx (fun output =>
    let indent := if r.ctx.isStatic then "  " else "    "
    output ++ r.getProto ext cfg indent true ++ ";\n")

/-- The resolver after `generateDefinition(genInline)`: the member body has
run, and written to the resolver, when `genOptional` has run its callback. -/
def afterDefinition (ext : External) (cfg : Config)
    (body : MemberResolverBase → String × MemberResolverBase) (r : MemberResolverBase)
    (genInline : Bool) : MemberResolverBase :=
  if ext.genOptionalRuns r.ctx then (definitionText ext cfg body r genInline "").2 else r

/-- Source: `virtual void generate(std::string &decl, std::string &def)` of
`MemberResolverBase`; `ctx.cls->generated.push_back(ctx)` appends the context
as the calls before it have left it. -/
def generate (ext : External) (cfg : Config)
    (body : MemberResolverBase → String × MemberResolverBase) (r : MemberResolverBase)
    (out : GenOutput) : GenOutput × MemberResolverBase :=
  if r.ctx.generateInline then
    let text := r.generateDefinition ext cfg body true
    let r1 := r.afterDefinition ext cfg body true
    ({ out with decl := out.decl ++ text, generated := out.generated ++ [r1.ctx] }, r1)
  else
    let text := r.generateDeclaration ext cfg
    let decl := out.decl ++ text
    let text := r.generateDefinition ext cfg body false
    let r1 := r.afterDefinition ext cfg body false
    ({ decl := decl, defn := out.defn ++ text, generated := out.generated ++ [r1.ctx] }, r1)

end MemberResolverBase

namespace MemberResolver

/-- One pass through the body of the loop of `finalizeArguments`, which visits
the parameters from the last to the first: `acc` holds the parameters visited
so far, as the loop has left them, and the flag `hasAssignment`. -/
def finalizeStep (ext : External) (cfg : Config) (p : VariableData)
    (acc : List VariableData × Bool) : List VariableData × Bool :=
  if p.ignoreFlag then (p :: acc.1, acc.2)
  else
    let hasAssignment := if acc.2 && p.assignment.isEmpty then false else acc.2
    if p.type == "AllocationCallbacks" then
      if cfg.allocatorParam then
        let p1 := ext.convertToOptional p
        let p2 := if hasAssignment then { p1 with assignment := " = nullptr" } else p1
        (p2 :: acc.1, hasAssignment)
      else ({ p with ignoreFlag := true } :: acc.1, hasAssignment)
    else (p :: acc.1, hasAssignment)

/-- Source: `void finalizeArguments()`. -/
def finalizeArguments (ext : External) (cfg : Config) (r : MemberResolverBase) :
    MemberResolverBase :=
  { r with ctx := { r.ctx with
      params := (r.ctx.params.foldr (finalizeStep ext cfg) ([], true)).1 } }

/-- Source: `MemberResolver::generate`: `finalizeArguments()`, then
`MemberResolverBase::generate(decl, def)`. -/
def generate (ext : External) (cfg : Config) (r : MemberResolverBase) (out : GenOutput) :
    GenOutput × MemberResolverBase :=
  MemberResolverBase.generate ext cfg (generateMemberBody ext cfg)
    (finalizeArguments ext cfg r) out

end MemberResolver

namespace MemberResolverDbg

/-- Source: the constructor `MemberResolverDbg(MemberContext &refCtx)`. -/
def new (ext : External) (cfg : Config)
    (transform : List VariableData → List VariableData) (refCtx : MemberContext) :
    MemberResolverBase :=
  { MemberResolver.new ext cfg transform refCtx with dbgtag := "disabled" }

/-- Source: `MemberResolverDbg::generate`. -/
def generate (ext : External) (cfg : Config) (r : MemberResolverBase) (out : GenOutput) :
    GenOutput × MemberResolverBase :=
  let decl := out.decl ++ "/*\n"
  let decl := decl ++ r.generateDeclaration ext cfg
  let decl := decl ++ "*/\n"
  ({ out with decl := decl }, r)

end MemberResolverDbg

/-- A parameter named `pAllocator` of type `AllocationCallbacks`, without a
default value. -/
def allocatorVar : VariableData :=
  { identifier := "pAllocator", qualifier := "const ", type := "AllocationCallbacks",
    suffix := " *", originalType := "VkAllocationCallbacks", originalSuffix := " *",
    originalIsPointer := true, originalIsConst := true }

/-- The member `destroy` of `Device`: it takes the device and the allocator. -/
def ctxDestroy : MemberContext :=
  { type := "void", pfnReturn := PFNReturnCategory.VOID,
    nameCat := MemberNameCategory.DESTROY,
    params := [handleParam "device" "VkDevice", allocatorVar],
    name := { original := "vkDestroyDevice", text := "destroy" },
    cls := deviceHandle }

/-- A configuration with the allocator argument and the dispatch argument
enabled, the latter with a default value. -/
def fullConfig : Config :=
  { plainConfig with
    allocatorParam := true, dispatchParam := true,
    mDispatch := { value := "= VULKAN_HPP_DEFAULT_DISPATCHER" },
    mDispatchType := { value := "Dispatch" } }

/-! ### The entry point of the program (`main.cpp`) -/

/-- The fields of `ArgOption` that `main` reads after `p.parse(argc, argv)`. -/
structure ArgOption where
  set : Bool := false
  value : String := ""
  deriving DecidableEq

/-- What `main` does that can be seen from outside, in the order in which it
does it: text written to `std::cout` and to `std::cerr`, the destination opened
with `file.open`, the registry read with `doc.LoadFile`, the run of
`generateFile`, and `file.close()`. -/
inductive Event where
  | stdout (text : String)
  | stderr (text : String)
  | openFile (path : String)
  | loadFile (path : String)
  | generateFile
  | closeFile
  deriving DecidableEq

/-- What `main` gets back from the code it calls after the argument check,
none of it under `src/` or decided by `main`: the error code of
`doc.LoadFile` (0 is `XML_SUCCESS`), whether the document has a root element,
the message of the exception `generateFile` ends with, if it ends with one,
and the text of the macro `ENDL`. -/
structure Surroundings where
  loadFile : String → Nat
  hasRoot : String → Bool
  generateFile : String → Option String
  endl : String

/-- Source: `HELP_TEXT`, lines 41-46 of `main.cpp`. -/
def HELP_TEXT : String :=
  "Usage:\n  -r, --reg       path to source registry file\n  -s, --source    path to source directory\n  -d, --dest      path to destination file"

/-- The `try` block of `main`, lines 316-354, after `p.parse(argc, argv)`: the
events so far and how the block ends, with `return 0` (`.ok (some 0)`), by
reaching its end (`.ok none`), or with an exception (`.error`, the text of
`what()`). -/
def mainTry (w : Surroundings) (helpOption xmlOption sourceOption destOpton : ArgOption) :
    List Event × Except String (Option Int) :=
  if helpOption.set then ([Event.stdout HELP_TEXT], .ok (some 0))
  else if !destOpton.set || !xmlOption.set || !sourceOption.set then
    ([], .error "Missing arguments. See usage.")
  else
    let events := [Event.openFile destOpton.value, Event.loadFile xmlOption.value]
    let e := w.loadFile xmlOption.value
    if e ≠ 0 then
      (events, .error ("XML load failed: " ++ toString e ++ " (file: " ++
        xmlOption.value ++ ")"))
    else if !w.hasRoot xmlOption.value then (events, .error "XML file is empty")
    else
      let events := events ++ [Event.generateFile]
      match w.generateFile sourceOption.value with
      | some what => (events, .error what)
      | none => (events ++ [Event.stdout ("Parsing done" ++ w.endl)], .ok none)

/-- Source: `int main(int argc, char** argv)`, as a function of the four
parsed options: the events and the value returned. -/
def main (w : Surroundings) (helpOption xmlOption sourceOption destOpton : ArgOption) :
    List Event × Int :=
  match mainTry w helpOption xmlOption sourceOption destOpton with
  | (events, .ok (some code)) => (events, code)
  | (events, .ok none) => (events ++ [Event.closeFile], 0)
  | (events, .error what) =>
    (events ++ [Event.stderr ("Error: " ++ what ++ "\n"), Event.closeFile], 0)

/-- Surroundings in which the registry loads and `generateFile` returns. -/
def calmSurroundings : Surroundings :=
  { loadFile := fun _ => 0, hasRoot := fun _ => true, generateFile := fun _ => none,
    endl := "\n" }

/-- A configuration with the allocator argument enabled and no dispatch
argument. -/
def allocatorConfig : Config :=
  { plainConfig with allocatorParam := true }

/-- Two nodes without dependencies, node 0 enabled by the user. -/
def solo2 : Graph 2 := fun i =>
  match i with
  | 0 => { freshNode [] with enabled := true }
  | 1 => freshNode []

/-- What an enabling cascade started on `x` in a fresh registry keeps true: a
subscriber depends on the node it has subscribed to, and an enabled node other
than `x` has a subscriber. -/
def Rooted {N : Nat} (x : Fin N) (g : Graph N) : Prop :=
  (∀ m s, s ∈ (g m).subscribers → m ∈ (g s).dependencies) ∧
  (∀ m, (g m).enabled = true → m = x ∨ (g m).subscribers ≠ ∅)

/-- No two distinct nodes subscribe to each other. -/
def OneWay {N : Nat} (g : Graph N) : Prop :=
  ∀ m s, s ∈ (g m).subscribers → m ∈ (g s).subscribers → m = s

/-- The nodes `a :: rest` form a ring of subscriptions: each one is a
subscriber of the next one, and the last one is a subscriber of `a`. -/
def IsRing {N : Nat} (g : Graph N) (a : Fin N) (rest : List (Fin N)) : Prop :=
  List.Chain (fun s d => s ∈ (g d).subscribers) a (rest ++ [a])

/-- One node that depends on itself. -/
def self1 : Graph 1 := fun _ => freshNode [0]

/-- Four nodes: node 0 depends on node 1, and nodes 2 and 3, which node 0 does
not reach, depend on each other. -/
def aside4 : Graph 4 := fun i =>
  match i with
  | 0 => freshNode [1]
  | 1 => freshNode []
  | 2 => freshNode [3]
  | 3 => freshNode [2]

/-- Three nodes: node 0 depends on node 1, and nodes 1 and 2 depend on each
other. -/
def lasso3 : Graph 3 := fun i =>
  match i with
  | 0 => freshNode [1]
  | 1 => freshNode [2]
  | 2 => freshNode [1]

/-- Four nodes: node 0 depends on node 1, and nodes 1, 2 and 3 form a ring. -/
def lasso4 : Graph 4 := fun i =>
  match i with
  | 0 => freshNode [1]
  | 1 => freshNode [2]
  | 2 => freshNode [3]
  | 3 => freshNode [1]

/-! ### The argument transformation of `MemberResolver` -/

/-- The part of the generator's registry that `isHandle` reads: the keys of
the map `handles` and the registry name of `loader`. -/
structure Handles where
  names : List String := []
  loader : String := ""

/-- Source: `bool isHandle(const std::string &name) const`. -/
def Handles.isHandle (h : Handles) (name : String) : Bool :=
  h.names.contains name || name == h.loader

namespace MemberResolver

/-- Source: the lambda `convertName` of `transformMemberArguments`. -/
def convertName (ext : External) (var : VariableData) : VariableData :=
  match var.identifier.data with
  | c0 :: c1 :: rest =>
    if c0 == 'p' && c1.isUpper then
      { var with identifier := ext.strFirstLower (String.mk (c1 :: rest)) }
    else var
  | _ => var

/-- The type `transformToProxy` gives to an array of `void`: bytes when the
length parameter is a pointer, otherwise the template parameter `DataType`
(`setFullType` and `setTemplate`). -/
def retype (var : VariableData) (isPointer : Bool) : VariableData :=
  if var.originalType == "void" then
    if isPointer then { var with qualifier := "", type := "uint8_t", suffix := "" }
    else { var with qualifier := "", type := "DataType", suffix := "",
                    template := "DataType" }
  else var

/-- Source: the lambda `transformToProxy` of `transformMemberArguments`, called
on the parameter at position `i` of `params`.  The length parameter is the
one at the position `getLengthVar()` names; what the lambda writes to it and to
the parameter is written to the list at these positions. -/
def transformToProxy (ext : External) (params : List VariableData) (i : Nat) :
    List VariableData :=
  let var := params.getD i {}
  match var.lengthVar with
  | none => params
  | some c =>
    let sizeVar := params.getD c {}
    let params :=
      if sizeVar.arrayVar.isNone then params.modify (fun v => { v with arrayVar := some i }) c
      else params
    let isPointer := sizeVar.originalIsPointer
    let params :=
      if !var.lenAttribIndirect then params.modify (fun v => { v with ignoreFlag := true }) c
      else params
    let params := params.modify (fun v => retype v isPointer) i
    let params :=
      if var.originalType == "void" && !isPointer then
        params.modify (fun v => { v with ignoreFlag := false }) c
      else params
    params.modify ext.convertToArrayProxy i

/-- The test of lines 2291-2294: the member is generated in the RAII
namespace and creates or allocates an object, or is a constructor. -/
def raiiCreates (ctx : MemberContext) : Bool :=
  ctx.ns == Namespace.RAII &&
    (ctx.nameCat == MemberNameCategory.CREATE ||
      ctx.nameCat == MemberNameCategory.ALLOCATE || ctx.constructor)

/-- The first statement of the body of the second loop of
`transformMemberArguments`: a handle parameter of a creating member in the
RAII namespace is converted to its RAII type and renamed. -/
def raiiStep (ext : External) (handles : Handles) (ctx : MemberContext)
    (p : VariableData) : VariableData :=
  if raiiCreates ctx then
    if handles.isHandle p.originalType then convertName ext (ext.toRAII p) else p
  else p

/-- The body of the second loop of `transformMemberArguments`, lines
2289-2311, on one parameter.  `type` is a reference to `p->original.type()`, so
`isStructOrUnion(type)` reads it as it is then. -/
def transformParam (ext : External) (handles : Handles) (ctx : MemberContext)
    (p : VariableData) : VariableData :=
  let p := raiiStep ext handles ctx p
  if ext.isArray p then convertName ext p
  else if ext.isStructOrUnion p.originalType then
    convertName ext (ext.setConst (ext.convertToReference p) true)
  else p

/-- The first loop of `transformMemberArguments`: `transformToProxy` on every
parameter, in declared order. -/
def proxyLoop (ext : External) (params : List VariableData) : List VariableData :=
  (List.range params.length).foldl (transformToProxy ext) params

/-- Source: `void transformMemberArguments()`. -/
def transformMemberArguments (ext : External) (handles : Handles) (ctx : MemberContext) :
    MemberContext :=
  { ctx with params := (proxyLoop ext ctx.params).map (transformParam ext handles ctx) }

end MemberResolver

/-- The handles `VkInstance`, `VkDevice`, `VkFence`, `VkQueryPool` and
`VkCommandPool`. -/
def plainHandles : Handles :=
  { names := ["VkInstance", "VkDevice", "VkFence", "VkQueryPool", "VkCommandPool"] }

/-- The member `getQueryPoolResults` of `Device` with the parameters that
matter here: the device, the query pool, the size of the data in bytes, passed
by value, and the data, an array of `void` whose length is that size. -/
def ctxGetResults : MemberContext :=
  { type := "VkResult", pfnReturn := PFNReturnCategory.VK_RESULT,
    successCodes := ["VK_SUCCESS", "VK_NOT_READY"],
    nameCat := MemberNameCategory.GET,
    params := [handleParam "device" "VkDevice", handleParam "queryPool" "VkQueryPool",
      { identifier := "dataSize", type := "size_t", originalType := "size_t" },
      { identifier := "pData", type := "void", suffix := " *", originalType := "void",
        originalSuffix := " *", originalIsPointer := true, lengthVar := some 2 }],
    name := { original := "vkGetQueryPoolResults", text := "getQueryPoolResults" },
    cls := deviceHandle }

/-- The member `waitForFences` of `Device`: the device, the number of fences,
the fences, a by-value flag and a by-value timeout, with the identifiers of
the registry. -/
def ctxWaitForFences : MemberContext :=
  { type := "VkResult", pfnReturn := PFNReturnCategory.VK_RESULT,
    successCodes := ["VK_SUCCESS", "VK_TIMEOUT"],
    nameCat := MemberNameCategory.UNKNOWN,
    params := [handleParam "device" "VkDevice",
      { identifier := "fenceCount", type := "uint32_t", originalType := "uint32_t" },
      { identifier := "pFences", qualifier := "const ", type := "Fence", suffix := " *",
        originalType := "VkFence", originalSuffix := " *", originalIsPointer := true,
        originalIsConst := true, isHandle := true, lengthVar := some 1 },
      { identifier := "waitAll", type := "Bool32", originalType := "VkBool32" },
      { identifier := "timeout", type := "uint64_t", originalType := "uint64_t" }],
    name := { original := "vkWaitForFences", text := "waitForFences" },
    cls := deviceHandle }

/-- The member `enumeratePhysicalDevices` of `Instance` with the identifiers
of the registry. -/
def ctxEnumerateRaw : MemberContext :=
  { ctxEnumerate with
    params := [handleParam "instance" "VkInstance",
      { identifier := "pPhysicalDeviceCount", type := "uint32_t", suffix := " *",
        originalType := "uint32_t", originalSuffix := " *", originalIsPointer := true },
      { identifier := "pPhysicalDevices", type := "PhysicalDevice", suffix := " *",
        originalType := "VkPhysicalDevice", originalSuffix := " *",
        originalIsPointer := true, isHandle := true, lengthVar := some 1 }] }

/-- The member `queueSubmit`-like `submit` of `Device` with a structure passed
by pointer and a fence. -/
def ctxSubmit : MemberContext :=
  { type := "VkResult", pfnReturn := PFNReturnCategory.VK_RESULT,
    successCodes := ["VK_SUCCESS"],
    params := [handleParam "device" "VkDevice",
      { identifier := "pSubmitInfo", qualifier := "const ", type := "SubmitInfo",
        suffix := " *", originalType := "VkSubmitInfo", originalSuffix := " *",
        originalIsPointer := true, originalIsConst := true },
      handleParam "fence" "VkFence"],
    name := { original := "vkSubmit", text := "submit" },
    cls := deviceHandle }

/-- The member `bindVertexBuffers` of `CommandBuffer`: the command buffer, the
first binding, the number of bindings, and the buffers and the offsets, two
arrays whose length is that number. -/
def ctxBindVertexBuffers : MemberContext :=
  { type := "void", pfnReturn := PFNReturnCategory.VOID,
    nameCat := MemberNameCategory.UNKNOWN,
    params := [handleParam "commandBuffer" "VkCommandBuffer",
      { identifier := "firstBinding", type := "uint32_t", originalType := "uint32_t" },
      { identifier := "bindingCount", type := "uint32_t", originalType := "uint32_t" },
      { identifier := "pBuffers", qualifier := "const ", type := "Buffer", suffix := " *",
        originalType := "VkBuffer", originalSuffix := " *", originalIsPointer := true,
        originalIsConst := true, isHandle := true, lengthVar := some 2 },
      { identifier := "pOffsets", qualifier := "const ", type := "DeviceSize",
        suffix := " *", originalType := "VkDeviceSize", originalSuffix := " *",
        originalIsPointer := true, originalIsConst := true, lengthVar := some 2 }],
    name := { original := "vkCmdBindVertexBuffers", text := "bindVertexBuffers" },
    cls := { name := { original := "VkCommandBuffer", text := "CommandBuffer" },
             vkhandle := "m_commandBuffer" } }

/-- Whether `transformToProxy`, called on the array parameter `var`, leaves its
length parameter `sizeVar` hidden: not for an array of `void` with a by-value
length, otherwise always when the length relationship is direct, and
otherwise as it was. -/
def MemberResolver.countHidden (var sizeVar : VariableData) : Bool :=
  if var.originalType == "void" && !sizeVar.originalIsPointer then false
  else if !var.lenAttribIndirect then true
  else sizeVar.ignoreFlag

/-- The ignore flag of the parameter at position `c` after the first loop of
`transformMemberArguments`, as the parameters bound to `c` write it one after
the other in declared order: each of them leaves the flag as `countHidden`
says, and a parameter not bound to `c` leaves it as it is. -/
def MemberResolver.hiddenAfter (params : List VariableData) (c : Nat) : Bool :=
  (List.range params.length).foldl
    (fun f j =>
      if (params.getD j {}).lengthVar = some c then
        MemberResolver.countHidden (params.getD j {}) { params.getD c {} with ignoreFlag := f }
      else f)
    (params.getD c {}).ignoreFlag

/-- The parameters the first loop has not visited yet differ from what they
were at most in the ignore flag and the bound array. -/
def ProxyBase (ps0 : List VariableData) (j : Nat) (ps : List VariableData) : Prop :=
  ps.length = ps0.length ∧
  ∀ k, j ≤ k → ∃ (a : Option Nat) (f : Bool),
    ps.getD k {} = { ps0.getD k {} with arrayVar := a, ignoreFlag := f }

/-- What the claims about the argument transformation assume of the
conversions of a parameter, whose code is not under `src/`: they leave the
ignore flag and the identifier of the parameter as they are. -/
structure External.KeepsFlags (ext : External) : Prop where
  proxy : ∀ v, (ext.convertToArrayProxy v).ignoreFlag = v.ignoreFlag ∧
    (ext.convertToArrayProxy v).identifier = v.identifier
  raii : ∀ v, (ext.toRAII v).ignoreFlag = v.ignoreFlag ∧
    (ext.toRAII v).identifier = v.identifier
  reference : ∀ v, (ext.convertToReference v).ignoreFlag = v.ignoreFlag ∧
    (ext.convertToReference v).identifier = v.identifier
  const : ∀ v c, (ext.setConst v c).ignoreFlag = v.ignoreFlag ∧
    (ext.setConst v c).identifier = v.identifier

/-- How often the second loop of `transformMemberArguments` calls
`convertName` on the parameter `q`: once for a handle of a creating member in
the RAII namespace, and once for an array or for a structure or union. -/
def MemberResolver.renameCount (ext : External) (handles : Handles) (ctx : MemberContext)
    (q : VariableData) : Nat :=
  (if MemberResolver.raiiCreates ctx && handles.isHandle q.originalType then 1 else 0) +
  (if ext.isArray (MemberResolver.raiiStep ext handles ctx q) ||
      ext.isStructOrUnion (MemberResolver.raiiStep ext handles ctx q).originalType
    then 1 else 0)

/-! ## Reading a node after a write -/

section writes
variable {N : Nat} (g : Graph N) (n s m : Fin N) (v : Bool)

@[simp] theorem writeEnabled_enabled :
    (g.writeEnabled n v m).enabled = if m = n then v else (g m).enabled := by
  unfold Graph.writeEnabled Graph.store; split <;> rfl

@[simp] theorem writeEnabled_subscribers :
    (g.writeEnabled n v m).subscribers = (g m).subscribers := by
  unfold Graph.writeEnabled Graph.store; split <;> simp_all

@[simp] theorem writeEnabled_supported :
    (g.writeEnabled n v m).supported = (g m).supported := by
  unfold Graph.writeEnabled Graph.store; split <;> simp_all

@[simp] theorem writeEnabled_forceRequired :
    (g.writeEnabled n v m).forceRequired = (g m).forceRequired := by
  unfold Graph.writeEnabled Graph.store; split <;> simp_all

@[simp] theorem writeEnabled_dependencies :
    (g.writeEnabled n v m).dependencies = (g m).dependencies := by
  unfold Graph.writeEnabled Graph.store; split <;> simp_all

@[simp] theorem emplace_subscribers :
    (g.emplace n s m).subscribers =
      if m = n then insert s (g m).subscribers else (g m).subscribers := by
  unfold Graph.emplace Graph.store; split <;> simp_all

@[simp] theorem emplace_enabled : (g.emplace n s m).enabled = (g m).enabled := by
  unfold Graph.emplace Graph.store; split <;> simp_all

@[simp] theorem emplace_supported : (g.emplace n s m).supported = (g m).supported := by
  unfold Graph.emplace Graph.store; split <;> simp_all

@[simp] theorem emplace_forceRequired :
    (g.emplace n s m).forceRequired = (g m).forceRequired := by
  unfold Graph.emplace Graph.store; split <;> simp_all

@[simp] theorem emplace_dependencies :
    (g.emplace n s m).dependencies = (g m).dependencies := by
  unfold Graph.emplace Graph.store; split <;> simp_all

@[simp] theorem erase_subscribers :
    (g.erase n s m).subscribers =
      if m = n then (g m).subscribers.erase s else (g m).subscribers := by
  unfold Graph.erase Graph.store; split <;> simp_all

@[simp] theorem erase_enabled : (g.erase n s m).enabled = (g m).enabled := by
  unfold Graph.erase Graph.store; split <;> simp_all

@[simp] theorem erase_supported : (g.erase n s m).supported = (g m).supported := by
  unfold Graph.erase Graph.store; split <;> simp_all

@[simp] theorem erase_forceRequired :
    (g.erase n s m).forceRequired = (g m).forceRequired := by
  unfold Graph.erase Graph.store; split <;> simp_all

@[simp] theorem erase_dependencies :
    (g.erase n s m).dependencies = (g m).dependencies := by
  unfold Graph.erase Graph.store; split <;> simp_all

end writes

/-! ## Unfolding one call -/

section unfold
variable {N : Nat} (fuel : Nat) (g : Graph N) (n s : Fin N) (v : Bool)

theorem setEnabled_zero : setEnabled 0 g n v = none := by
  simp [setEnabled]

theorem subscribe_zero : subscribe 0 g n s = none := by
  simp [subscribe]

theorem unsubscribe_zero : unsubscribe 0 g n s = none := by
  simp [unsubscribe]

theorem setEnabled_guard (h : (g n).enabled = v ∨ (g n).supported = false) :
    setEnabled (fuel + 1) g n v = some g := by
  simp only [setEnabled, if_pos h]

theorem setEnabled_true (he : (g n).enabled = false) (hs : (g n).supported = true) :
    setEnabled (fuel + 1) g n true =
      forDependencies (subscribe fuel) n (g n).dependencies (g.writeEnabled n true) := by
  simp [setEnabled, he, hs]

theorem setEnabled_false (he : (g n).enabled = true) (hs : (g n).supported = true) :
    setEnabled (fuel + 1) g n false =
      forDependencies (unsubscribe fuel) n (g n).dependencies (g.writeEnabled n false) := by
  simp [setEnabled, he, hs]

theorem subscribe_present (h : s ∈ (g n).subscribers) :
    subscribe (fuel + 1) g n s = some g := by
  simp [subscribe, h]

theorem subscribe_first (h : (g n).subscribers = ∅) :
    subscribe (fuel + 1) g n s = setEnabled fuel (g.emplace n s) n true := by
  simp [subscribe, h]

theorem subscribe_more (h : s ∉ (g n).subscribers) (hne : (g n).subscribers ≠ ∅) :
    subscribe (fuel + 1) g n s = some (g.emplace n s) := by
  simp [subscribe, h, hne]

theorem unsubscribe_absent (h : s ∉ (g n).subscribers) :
    unsubscribe (fuel + 1) g n s = some g := by
  simp [unsubscribe, h]

theorem unsubscribe_last (h : s ∈ (g n).subscribers)
    (he : (g n).subscribers.erase s = ∅) :
    unsubscribe (fuel + 1) g n s = setEnabled fuel (g.erase n s) n false := by
  simp [unsubscribe, h, he]

theorem unsubscribe_more (h : s ∈ (g n).subscribers)
    (he : (g n).subscribers.erase s ≠ ∅) :
    unsubscribe (fuel + 1) g n s = some (g.erase n s) := by
  simp [unsubscribe, h, he]

end unfold

/-! ## A relation kept by every write is kept by a whole cascade -/

theorem forDependencies_rel {N : Nat} (R : Graph N → Graph N → Prop)
    (hrefl : ∀ g, R g g) (htrans : ∀ a b c, R a b → R b c → R a c)
    (call : Graph N → Fin N → Fin N → Option (Graph N)) (n : Fin N)
    (hcall : ∀ g d g2, call g d n = some g2 → R g g2) :
    ∀ (ds : List (Fin N)) (g g2 : Graph N),
      forDependencies call n ds g = some g2 → R g g2 := by
  intro ds
  induction ds with
  | nil =>
    intro g g2 h
    simp only [forDependencies, Option.some.injEq] at h
    exact h ▸ hrefl g
  | cons d ds ih =>
    intro g g2 h
    simp only [forDependencies] at h
    split at h
    · exact ih g g2 h
    · cases hc : call g d n with
      | none => simp [hc] at h
      | some g1 =>
        simp only [hc, Option.some_bind] at h
        exact htrans _ _ _ (hcall g d g1 hc) (ih g1 g2 h)

/-- A reflexive and transitive relation that holds across each write of a
cascade towards `v` (the flag of a supported node set to `v`; a subscriber
added when `v = true`, removed when `v = false`) holds between the state
before and the state after every call of that cascade. -/
theorem cascade_rel {N : Nat} (v : Bool) (R : Graph N → Graph N → Prop)
    (hrefl : ∀ g, R g g) (htrans : ∀ a b c, R a b → R b c → R a c)
    (hflip : ∀ g n, (g n).enabled ≠ v → (g n).supported = true →
      R g (g.writeEnabled n v))
    (hins : v = true → ∀ g n s, s ∉ (g n).subscribers → R g (g.emplace n s))
    (hers : v = false → ∀ g n s, s ∈ (g n).subscribers → R g (g.erase n s)) :
    ∀ (fuel : Nat) (g g2 : Graph N) (n : Fin N),
      (setEnabled fuel g n v = some g2 → R g g2) ∧
      (∀ s, v = true → subscribe fuel g n s = some g2 → R g g2) ∧
      (∀ s, v = false → unsubscribe fuel g n s = some g2 → R g g2) := by
  intro fuel
  induction fuel with
  | zero =>
    intro g g2 n
    simp [setEnabled_zero, subscribe_zero, unsubscribe_zero]
  | succ fuel ih =>
    intro g g2 n
    refine ⟨?_, ?_, ?_⟩
    · intro h
      by_cases hg : (g n).enabled = v ∨ (g n).supported = false
      · rw [setEnabled_guard fuel g n v hg] at h
        cases h; exact hrefl g
      · have he : (g n).enabled ≠ v := fun e => hg (Or.inl e)
        have hs : (g n).supported = true := by
          cases hsup : (g n).supported
          · exact absurd (Or.inr hsup) hg
          · rfl
        cases v with
        | true =>
          have he2 : (g n).enabled = false := by simpa using he
          rw [setEnabled_true fuel g n he2 hs] at h
          refine htrans _ _ _ (hflip g n he hs) ?_
          exact forDependencies_rel R hrefl htrans _ n
            (fun a d b hab => (ih a b d).2.1 n rfl hab) _ _ _ h
        | false =>
          have he2 : (g n).enabled = true := by simpa using he
          rw [setEnabled_false fuel g n he2 hs] at h
          refine htrans _ _ _ (hflip g n he hs) ?_
          exact forDependencies_rel R hrefl htrans _ n
            (fun a d b hab => (ih a b d).2.2 n rfl hab) _ _ _ h
    · intro s hv h
      by_cases hm : s ∈ (g n).subscribers
      · rw [subscribe_present fuel g n s hm] at h
        cases h; exact hrefl g
      · by_cases hem : (g n).subscribers = ∅
        · rw [subscribe_first fuel g n s hem] at h
          subst hv
          exact htrans _ _ _ (hins rfl g n s hm) ((ih _ _ _).1 h)
        · rw [subscribe_more fuel g n s hm hem] at h
          cases h; exact hins hv g n s hm
    · intro s hv h
      by_cases hm : s ∈ (g n).subscribers
      · by_cases hem : (g n).subscribers.erase s = ∅
        · rw [unsubscribe_last fuel g n s hm hem] at h
          subst hv
          exact htrans _ _ _ (hers rfl g n s hm) ((ih _ _ _).1 h)
        · rw [unsubscribe_more fuel g n s hm hem] at h
          cases h; exact hers hv g n s hm
      · rw [unsubscribe_absent fuel g n s hm] at h
        cases h; exact hrefl g

/-! ## The writes of a cascade all go one way -/

theorem toward_refl {N : Nat} (v : Bool) (g : Graph N) : Toward v g g := by
  intro m
  simp

theorem toward_trans {N : Nat} (v : Bool) (a b c : Graph N)
    (hab : Toward v a b) (hbc : Toward v b c) : Toward v a c := by
  intro m
  obtain ⟨h1, h2, h3, h4, h5, h6⟩ := hab m
  obtain ⟨k1, k2, k3, k4, k5, k6⟩ := hbc m
  refine ⟨k1.trans h1, k2.trans h2, k3.trans h3, ?_, ?_, ?_⟩
  · rcases k4 with k4 | k4
    · rcases h4 with h4 | h4
      · exact Or.inl (k4.trans h4)
      · exact Or.inr (k4.trans h4)
    · exact Or.inr k4
  · intro hv
    exact (h5 hv).trans (k5 hv)
  · intro hv
    exact (k6 hv).trans (h6 hv)

theorem toward_writeEnabled {N : Nat} (v : Bool) (g : Graph N) (n : Fin N) :
    Toward v g (g.writeEnabled n v) := by
  intro m
  simp only [writeEnabled_dependencies, writeEnabled_supported,
    writeEnabled_forceRequired, writeEnabled_enabled, writeEnabled_subscribers,
    true_and]
  refine ⟨?_, fun _ => Finset.Subset.refl _, fun _ => Finset.Subset.refl _⟩
  by_cases h : m = n
  · simp [h]
  · simp [h]

theorem toward_emplace {N : Nat} (g : Graph N) (n s : Fin N) :
    Toward true g (g.emplace n s) := by
  intro m
  simp only [emplace_dependencies, emplace_supported, emplace_forceRequired,
    emplace_enabled, emplace_subscribers, true_and, true_or]
  refine ⟨fun _ => ?_, fun h => by simp at h⟩
  by_cases h : m = n
  · simp [h]
  · simp [h]

theorem toward_erase {N : Nat} (g : Graph N) (n s : Fin N) :
    Toward false g (g.erase n s) := by
  intro m
  simp only [erase_dependencies, erase_supported, erase_forceRequired,
    erase_enabled, erase_subscribers, true_and, true_or]
  refine ⟨fun h => by simp at h, fun _ => ?_⟩
  by_cases h : m = n
  · simp [h, Finset.erase_subset]
  · simp [h]

/-- Every call of a cascade towards `v` relates its two states by `Toward v`. -/
theorem cascade_toward {N : Nat} (v : Bool) (fuel : Nat) (g g2 : Graph N) (n : Fin N) :
    (setEnabled fuel g n v = some g2 → Toward v g g2) ∧
    (∀ s, v = true → subscribe fuel g n s = some g2 → Toward v g g2) ∧
    (∀ s, v = false → unsubscribe fuel g n s = some g2 → Toward v g g2) :=
  cascade_rel v (Toward v) (toward_refl v) (toward_trans v)
    (fun a m _ _ => toward_writeEnabled v a m)
    (fun hv a m s _ => hv ▸ toward_emplace a m s)
    (fun hv a m s _ => hv ▸ toward_erase a m s) fuel g g2 n

theorem setEnabled_toward {N : Nat} {v : Bool} {fuel : Nat} {g g2 : Graph N} {n : Fin N}
    (h : setEnabled fuel g n v = some g2) : Toward v g g2 :=
  (cascade_toward v fuel g g2 n).1 h

theorem subscribe_toward {N : Nat} {fuel : Nat} {g g2 : Graph N} {n s : Fin N}
    (h : subscribe fuel g n s = some g2) : Toward true g g2 :=
  (cascade_toward true fuel g g2 n).2.1 s rfl h

theorem unsubscribe_toward {N : Nat} {fuel : Nat} {g g2 : Graph N} {n s : Fin N}
    (h : unsubscribe fuel g n s = some g2) : Toward false g g2 :=
  (cascade_toward false fuel g g2 n).2.2 s rfl h

/-! ## Termination: the depth of the call stack is bounded -/

theorem pending_subset_of_toward {N : Nat} {v : Bool} {g g2 : Graph N}
    (h : Toward v g g2) : pending v g2 ⊆ pending v g := by
  intro m hm
  simp only [pending, Finset.mem_filter, Finset.mem_univ, true_and] at hm ⊢
  obtain ⟨_, h2, _, h4, _, _⟩ := h m
  refine ⟨?_, h2 ▸ hm.2⟩
  rcases h4 with h4 | h4
  · exact h4 ▸ hm.1
  · exact absurd h4 hm.1

theorem pending_card_le_of_toward {N : Nat} {v : Bool} {g g2 : Graph N}
    (h : Toward v g g2) : (pending v g2).card ≤ (pending v g).card :=
  Finset.card_le_card (pending_subset_of_toward h)

theorem pending_card_le {N : Nat} (v : Bool) (g : Graph N) : (pending v g).card ≤ N := by
  have h := Finset.card_le_univ (pending v g)
  simpa using h

theorem pending_writeEnabled {N : Nat} (v : Bool) (g : Graph N) (n : Fin N)
    (he : (g n).enabled ≠ v) (hs : (g n).supported = true) :
    (pending v (g.writeEnabled n v)).card + 1 ≤ (pending v g).card := by
  have hsub : pending v (g.writeEnabled n v) ⊆ (pending v g).erase n := by
    intro m hm
    simp only [pending, Finset.mem_filter, Finset.mem_univ, true_and,
      writeEnabled_enabled, writeEnabled_supported, Finset.mem_erase] at hm ⊢
    by_cases hmn : m = n
    · simp [hmn] at hm
    · simp only [hmn, if_false] at hm
      exact ⟨hmn, hm⟩
  have hn : n ∈ pending v g := by
    simp [pending, he, hs]
  have h1 := Finset.card_le_card hsub
  rw [Finset.card_erase_of_mem hn] at h1
  have hpos : 0 < (pending v g).card := Finset.card_pos.mpr ⟨n, hn⟩
  omega

theorem forDependencies_some {N : Nat} (P : Graph N → Prop)
    (call : Graph N → Fin N → Fin N → Option (Graph N)) (n : Fin N)
    (hcall : ∀ g d, P g → ∃ g2, call g d n = some g2 ∧ P g2) :
    ∀ (ds : List (Fin N)) (g : Graph N), P g →
      ∃ g2, forDependencies call n ds g = some g2 := by
  intro ds
  induction ds with
  | nil => intro g _; exact ⟨g, rfl⟩
  | cons d ds ih =>
    intro g hg
    simp only [forDependencies]
    split
    · exact ih g hg
    · obtain ⟨g1, h1, hP⟩ := hcall g d hg
      simp only [h1, Option.some_bind]
      exact ih g1 hP

/-- A stack of depth `2 * k + 1` is enough for `setEnabled(v)` when at most `k`
nodes can still pass the guard, and depth `2 * k + 2` is enough for `subscribe`
and `unsubscribe`. -/
theorem cascade_terminates {N : Nat} (v : Bool) :
    ∀ (fuel : Nat) (g : Graph N) (n : Fin N),
      (2 * (pending v g).card + 1 ≤ fuel → ∃ g2, setEnabled fuel g n v = some g2) ∧
      (∀ s, v = true → 2 * (pending v g).card + 2 ≤ fuel →
        ∃ g2, subscribe fuel g n s = some g2) ∧
      (∀ s, v = false → 2 * (pending v g).card + 2 ≤ fuel →
        ∃ g2, unsubscribe fuel g n s = some g2) := by
  intro fuel
  induction fuel with
  | zero =>
    intro g n
    refine ⟨fun h => ?_, fun s _ h => ?_, fun s _ h => ?_⟩ <;> omega
  | succ fuel ih =>
    intro g n
    refine ⟨?_, ?_, ?_⟩
    · intro hf
      by_cases hg : (g n).enabled = v ∨ (g n).supported = false
      · exact ⟨g, setEnabled_guard fuel g n v hg⟩
      · have he : (g n).enabled ≠ v := fun e => hg (Or.inl e)
        have hs : (g n).supported = true := by
          cases hsup : (g n).supported
          · exact absurd (Or.inr hsup) hg
          · rfl
        have hdec := pending_writeEnabled v g n he hs
        cases v with
        | true =>
          have he2 : (g n).enabled = false := by simpa using he
          rw [setEnabled_true fuel g n he2 hs]
          refine forDependencies_some
            (fun a => (pending true a).card ≤ (pending true (g.writeEnabled n true)).card)
            _ n ?_ _ _ (le_refl _)
          intro a d ha
          obtain ⟨b, hb⟩ := (ih a d).2.1 n rfl (by omega)
          exact ⟨b, hb, le_trans (pending_card_le_of_toward (subscribe_toward hb)) ha⟩
        | false =>
          have he2 : (g n).enabled = true := by simpa using he
          rw [setEnabled_false fuel g n he2 hs]
          refine forDependencies_some
            (fun a => (pending false a).card ≤ (pending false (g.writeEnabled n false)).card)
            _ n ?_ _ _ (le_refl _)
          intro a d ha
          obtain ⟨b, hb⟩ := (ih a d).2.2 n rfl (by omega)
          exact ⟨b, hb, le_trans (pending_card_le_of_toward (unsubscribe_toward hb)) ha⟩
    · intro s hv hf
      by_cases hm : s ∈ (g n).subscribers
      · exact ⟨g, subscribe_present fuel g n s hm⟩
      · by_cases hem : (g n).subscribers = ∅
        · rw [subscribe_first fuel g n s hem]
          subst hv
          refine (ih _ n).1 ?_
          have := pending_card_le_of_toward (toward_emplace g n s)
          omega
        · exact ⟨_, subscribe_more fuel g n s hm hem⟩
    · intro s hv hf
      by_cases hm : s ∈ (g n).subscribers
      · by_cases hem : (g n).subscribers.erase s = ∅
        · rw [unsubscribe_last fuel g n s hm hem]
          subst hv
          refine (ih _ n).1 ?_
          have := pending_card_le_of_toward (toward_erase g n s)
          omega
        · exact ⟨_, unsubscribe_more fuel g n s hm hem⟩
      · exact ⟨g, unsubscribe_absent fuel g n s hm⟩

theorem setEnabled_some {N : Nat} (fuel : Nat) (g : Graph N) (n : Fin N) (v : Bool)
    (h : 2 * N + 2 ≤ fuel) : ∃ g2, setEnabled fuel g n v = some g2 :=
  (cascade_terminates v fuel g n).1 (by have := pending_card_le v g; omega)

theorem subscribe_some {N : Nat} (fuel : Nat) (g : Graph N) (n s : Fin N)
    (h : 2 * N + 2 ≤ fuel) : ∃ g2, subscribe fuel g n s = some g2 :=
  (cascade_terminates true fuel g n).2.1 s rfl (by have := pending_card_le true g; omega)

theorem unsubscribe_some {N : Nat} (fuel : Nat) (g : Graph N) (n s : Fin N)
    (h : 2 * N + 2 ≤ fuel) : ∃ g2, unsubscribe fuel g n s = some g2 :=
  (cascade_terminates false fuel g n).2.2 s rfl (by have := pending_card_le false g; omega)

theorem endsIn_iff {N : Nat} (o : Option (Graph N)) (p : Graph N → Prop) :
    EndsIn o p ↔ ∃ g, o = some g ∧ p g := by
  cases o <;> simp [EndsIn]

/-! ## The invariant of an enabling cascade -/

theorem settled_weaken {N : Nat} {g : Graph N} {X : Fin N → Prop}
    {P Q : Fin N → Fin N → Prop} (h : Settled g X P)
    (hPQ : ∀ m d, P m d → Q m d ∨ m ∈ (g d).subscribers ∨ d ∈ (g m).subscribers) :
    Settled g X Q := by
  refine ⟨h.subs_enabled, h.req_enabled, ?_⟩
  intro m d he hs hd
  rcases h.deps_done m d he hs hd with hp | hp
  · exact hPQ m d hp
  · exact Or.inr hp

theorem settled_fresh {N : Nat} {g : Graph N} (h : Fresh g) :
    Settled g (fun _ => False) (fun _ _ => False) := by
  refine ⟨?_, ?_, ?_⟩
  · intro m s hs
    rw [(h m).2] at hs
    simp at hs
  · intro m _ hne
    exact absurd (h m).2 hne
  · intro m d he
    rw [(h m).1] at he
    simp at he

theorem settled_writeEnabled {N : Nat} {g : Graph N} {n : Fin N}
    {P : Fin N → Fin N → Prop} (h : Settled g (fun m => m = n) P) :
    Settled (g.writeEnabled n true) (fun _ => False)
      (fun m d => P m d ∨ (m = n ∧ d ∈ (g n).dependencies)) := by
  refine ⟨?_, ?_, ?_⟩
  · intro m s hs
    simp only [writeEnabled_subscribers] at hs
    simp only [writeEnabled_enabled]
    split
    · rfl
    · exact h.subs_enabled m s hs
  · intro m hsup hne
    simp only [writeEnabled_supported, writeEnabled_subscribers] at hsup hne
    simp only [writeEnabled_enabled]
    right
    split
    · rfl
    · next hmn =>
      rcases h.req_enabled m hsup hne with hx | hx
      · exact absurd hx hmn
      · exact hx
  · intro m d he hsup hd
    simp only [writeEnabled_enabled, writeEnabled_supported,
      writeEnabled_dependencies, writeEnabled_subscribers] at he hsup hd ⊢
    by_cases hmn : m = n
    · subst hmn
      exact Or.inl (Or.inr ⟨rfl, hd⟩)
    · simp only [hmn, if_false] at he
      rcases h.deps_done m d he hsup hd with hp | hp
      · exact Or.inl (Or.inl hp)
      · exact Or.inr hp

theorem settled_emplace {N : Nat} {g : Graph N} {n s : Fin N}
    {P : Fin N → Fin N → Prop} (h : Settled g (fun _ => False) P)
    (hs : (g s).enabled = true) :
    Settled (g.emplace n s) (fun m => m = n) P := by
  refine ⟨?_, ?_, ?_⟩
  · intro m t ht
    simp only [emplace_subscribers, emplace_enabled] at ht ⊢
    split at ht
    · rcases Finset.mem_insert.mp ht with e | e
      · exact e ▸ hs
      · exact h.subs_enabled m t e
    · exact h.subs_enabled m t ht
  · intro m hsup hne
    simp only [emplace_supported, emplace_subscribers, emplace_enabled] at hsup hne ⊢
    by_cases hmn : m = n
    · exact Or.inl hmn
    · simp only [hmn, if_false] at hne
      rcases h.req_enabled m hsup hne with hx | hx
      · exact absurd hx id
      · exact Or.inr hx
  · intro m d he hsup hd
    simp only [emplace_enabled, emplace_supported, emplace_dependencies,
      emplace_subscribers] at he hsup hd ⊢
    rcases h.deps_done m d he hsup hd with hp | hp | hp
    · exact Or.inl hp
    · right; left
      split
      · exact Finset.mem_insert_of_mem hp
      · exact hp
    · right; right
      split
      · exact Finset.mem_insert_of_mem hp
      · exact hp

/-- The loop of `setEnabled(true)` on an enabled node `n` discharges the
obligations of `n` towards the dependencies it visits. -/
theorem forDependencies_settled {N : Nat} (fuel : Nat) (n : Fin N)
    (P : Fin N → Fin N → Prop)
    (hsub : ∀ (g g2 : Graph N) (d : Fin N) (Q : Fin N → Fin N → Prop),
      subscribe fuel g d n = some g2 → Settled g (fun _ => False) Q →
      (g n).enabled = true → Settled g2 (fun _ => False) Q ∧ n ∈ (g2 d).subscribers) :
    ∀ (ds : List (Fin N)) (g g2 : Graph N),
      forDependencies (subscribe fuel) n ds g = some g2 →
      (g n).enabled = true →
      Settled g (fun _ => False) (fun m d => P m d ∨ (m = n ∧ d ∈ ds)) →
      Settled g2 (fun _ => False) P := by
  intro ds
  induction ds with
  | nil =>
    intro g g2 h _ hS
    simp only [forDependencies, Option.some.injEq] at h
    subst h
    refine settled_weaken hS ?_
    intro m d hp
    rcases hp with hp | ⟨_, hp⟩
    · exact Or.inl hp
    · simp at hp
  | cons d ds ih =>
    intro g g2 h hen hS
    simp only [forDependencies] at h
    split at h
    · next hmem =>
      refine ih g g2 h hen (settled_weaken hS ?_)
      intro m e hp
      rcases hp with hp | ⟨hm, hp⟩
      · exact Or.inl (Or.inl hp)
      · rcases List.mem_cons.mp hp with he | he
        · subst hm; subst he
          exact Or.inr (Or.inr hmem)
        · exact Or.inl (Or.inr ⟨hm, he⟩)
    · cases hc : subscribe fuel g d n with
      | none => simp [hc] at h
      | some g1 =>
        simp only [hc, Option.some_bind] at h
        obtain ⟨hS1, hin⟩ := hsub g g1 d _ hc hS hen
        have hen1 : (g1 n).enabled = true := by
          rcases (subscribe_toward hc n).2.2.2.1 with e | e
          · exact e.trans hen
          · exact e
        refine ih g1 g2 h hen1 (settled_weaken hS1 ?_)
        intro m e hp
        rcases hp with hp | ⟨hm, hp⟩
        · exact Or.inl (Or.inl hp)
        · rcases List.mem_cons.mp hp with he | he
          · subst hm; subst he
            exact Or.inr (Or.inl hin)
          · exact Or.inl (Or.inr ⟨hm, he⟩)

/-- An enabling cascade keeps the invariant: `setEnabled(true)` on the one
excused node, `subscribe` for an enabled requester. -/
theorem enable_settled {N : Nat} :
    ∀ (fuel : Nat) (g g2 : Graph N) (n : Fin N) (P : Fin N → Fin N → Prop),
      (setEnabled fuel g n true = some g2 → Settled g (fun m => m = n) P →
        Settled g2 (fun _ => False) P) ∧
      (∀ s, subscribe fuel g n s = some g2 → Settled g (fun _ => False) P →
        (g s).enabled = true →
        Settled g2 (fun _ => False) P ∧ s ∈ (g2 n).subscribers) := by
  intro fuel
  induction fuel with
  | zero =>
    intro g g2 n P
    simp [setEnabled_zero, subscribe_zero]
  | succ fuel ih =>
    intro g g2 n P
    refine ⟨?_, ?_⟩
    · intro h hS
      by_cases hg : (g n).enabled = true ∨ (g n).supported = false
      · rw [setEnabled_guard fuel g n true hg] at h
        cases h
        refine ⟨hS.subs_enabled, ?_, hS.deps_done⟩
        intro m hsup hne
        rcases hS.req_enabled m hsup hne with hx | hx
        · subst hx
          rcases hg with hg | hg
          · exact Or.inr hg
          · rw [hg] at hsup; simp at hsup
        · exact Or.inr hx
      · have he : (g n).enabled = false := by
          cases hen : (g n).enabled
          · rfl
          · exact absurd (Or.inl hen) hg
        have hs : (g n).supported = true := by
          cases hsup : (g n).supported
          · exact absurd (Or.inr hsup) hg
          · rfl
        rw [setEnabled_true fuel g n he hs] at h
        refine forDependencies_settled fuel n P
          (fun a b d Q hab hQ hen => (ih a b d Q).2 n hab hQ hen) _ _ _ h ?_
          (settled_writeEnabled hS)
        simp
    · intro s h hS hen
      by_cases hm : s ∈ (g n).subscribers
      · rw [subscribe_present fuel g n s hm] at h
        cases h
        exact ⟨hS, hm⟩
      · by_cases hem : (g n).subscribers = ∅
        · rw [subscribe_first fuel g n s hem] at h
          refine ⟨(ih _ g2 n P).1 h (settled_emplace hS hen), ?_⟩
          have hmono := (setEnabled_toward h n).2.2.2.2.1 rfl
          apply hmono
          simp
        · rw [subscribe_more fuel g n s hm hem] at h
          cases h
          refine ⟨?_, by simp⟩
          have hS1 := settled_emplace (n := n) hS hen
          refine ⟨hS1.subs_enabled, ?_, hS1.deps_done⟩
          intro m hsup hne
          rcases hS1.req_enabled m hsup hne with hx | hx
          · subst hx
            simp only [emplace_supported, emplace_enabled] at hsup ⊢
            rcases hS.req_enabled m hsup hem with hy | hy
            · exact absurd hy id
            · exact Or.inr hy
          · exact Or.inr hx

/-! ## What a call leaves behind in the node it is made on -/

theorem forDependencies_toward {N : Nat} {v : Bool} {fuel : Nat} {n : Fin N}
    {ds : List (Fin N)} {g g2 : Graph N}
    (h : forDependencies (if v then subscribe fuel else unsubscribe fuel) n ds g = some g2) :
    Toward v g g2 := by
  refine forDependencies_rel (Toward v) (toward_refl v) (toward_trans v) _ n ?_ ds g g2 h
  intro a d b hab
  cases v with
  | true => exact subscribe_toward hab
  | false => exact unsubscribe_toward hab

theorem setEnabled_enabled {N : Nat} {fuel : Nat} {g g2 : Graph N} {n : Fin N} {v : Bool}
    (h : setEnabled fuel g n v = some g2) (hs : (g n).supported = true) :
    (g2 n).enabled = v := by
  cases fuel with
  | zero => simp [setEnabled_zero] at h
  | succ fuel =>
    by_cases he : (g n).enabled = v
    · rw [setEnabled_guard fuel g n v (Or.inl he)] at h
      cases h; exact he
    · have hT : Toward v (g.writeEnabled n v) g2 := by
        cases v with
        | true =>
          rw [setEnabled_true fuel g n (by simpa using he) hs] at h
          exact forDependencies_toward (v := true) h
        | false =>
          rw [setEnabled_false fuel g n (by simpa using he) hs] at h
          exact forDependencies_toward (v := false) h
      rcases (hT n).2.2.2.1 with e | e
      · simpa using e
      · exact e

theorem subscribe_mem {N : Nat} {fuel : Nat} {g g2 : Graph N} {n s : Fin N}
    (h : subscribe fuel g n s = some g2) : s ∈ (g2 n).subscribers := by
  cases fuel with
  | zero => simp [subscribe_zero] at h
  | succ fuel =>
    by_cases hm : s ∈ (g n).subscribers
    · rw [subscribe_present fuel g n s hm] at h
      cases h; exact hm
    · by_cases hem : (g n).subscribers = ∅
      · rw [subscribe_first fuel g n s hem] at h
        apply (setEnabled_toward h n).2.2.2.2.1 rfl
        simp
      · rw [subscribe_more fuel g n s hm hem] at h
        cases h; simp

theorem unsubscribe_not_mem {N : Nat} {fuel : Nat} {g g2 : Graph N} {n s : Fin N}
    (h : unsubscribe fuel g n s = some g2) : s ∉ (g2 n).subscribers := by
  cases fuel with
  | zero => simp [unsubscribe_zero] at h
  | succ fuel =>
    by_cases hm : s ∈ (g n).subscribers
    · by_cases hem : (g n).subscribers.erase s = ∅
      · rw [unsubscribe_last fuel g n s hm hem] at h
        intro hin
        have := (setEnabled_toward h n).2.2.2.2.2 rfl hin
        simp at this
      · rw [unsubscribe_more fuel g n s hm hem] at h
        cases h; simp
    · rw [unsubscribe_absent fuel g n s hm] at h
      cases h; exact hm

/-! ## Sequences of calls -/

theorem call_run_some {N : Nat} (fuel : Nat) (c : Call N) (g : Graph N)
    (h : 2 * N + 2 ≤ fuel) : ∃ g2, c.run fuel g = some g2 := by
  cases c with
  | setEnabled n v => exact setEnabled_some fuel g n v h
  | subscribe n s => exact subscribe_some fuel g n s h
  | unsubscribe n s => exact unsubscribe_some fuel g n s h
  | setUnsuppored n => exact ⟨_, rfl⟩

theorem call_run_unsupported {N : Nat} {fuel : Nat} {c : Call N} {g g2 : Graph N}
    (h : c.run fuel g = some g2) (m : Fin N) (hm : (g m).supported = false) :
    (g2 m).supported = false := by
  cases c with
  | setEnabled n v => exact ((setEnabled_toward h m).2.1).trans hm
  | subscribe n s => exact ((subscribe_toward h m).2.1).trans hm
  | unsubscribe n s => exact ((unsubscribe_toward h m).2.1).trans hm
  | setUnsuppored n =>
    simp only [Call.run, Option.some.injEq] at h
    subst h
    unfold setUnsuppored Graph.store
    split
    · rfl
    · exact hm

theorem runCalls_unsupported {N : Nat} (fuel : Nat) (h : 2 * N + 2 ≤ fuel) (m : Fin N) :
    ∀ (cs : List (Call N)) (g : Graph N), (g m).supported = false →
      ∃ g2, runCalls fuel cs g = some g2 ∧ (g2 m).supported = false := by
  intro cs
  induction cs with
  | nil => intro g hm; exact ⟨g, rfl, hm⟩
  | cons c cs ih =>
    intro g hm
    obtain ⟨g1, h1⟩ := call_run_some fuel c g h
    obtain ⟨g2, h2, hm2⟩ := ih g1 (call_run_unsupported h1 m hm)
    exact ⟨g2, by simp [runCalls, h1, h2], hm2⟩

theorem runEnables_settled {N : Nat} (fuel : Nat) (h : 2 * N + 2 ≤ fuel) :
    ∀ (xs : List (Fin N)) (g : Graph N),
      Settled g (fun _ => False) (fun _ _ => False) →
      ∃ g2, runCalls fuel (xs.map (fun x => Call.setEnabled x true)) g = some g2 ∧
        Settled g2 (fun _ => False) (fun _ _ => False) ∧ Toward true g g2 := by
  intro xs
  induction xs with
  | nil => intro g hS; exact ⟨g, rfl, hS, toward_refl true g⟩
  | cons x xs ih =>
    intro g hS
    obtain ⟨g1, h1⟩ := setEnabled_some fuel g x true h
    have hS0 : Settled g (fun m => m = x) (fun _ _ => False) :=
      ⟨hS.subs_enabled, fun m a b => (hS.req_enabled m a b).imp (fun f => f.elim) id,
        hS.deps_done⟩
    have hS1 := (enable_settled fuel g g1 x _).1 h1 hS0
    obtain ⟨g2, h2, hS2, hT⟩ := ih g1 hS1
    refine ⟨g2, ?_, hS2, toward_trans true _ _ _ (setEnabled_toward h1) hT⟩
    simp [runCalls, Call.run, h1, h2]

/-- In a settled registry without forced nodes, what can be generated is
enabled, and the supported dependencies of an enabled node can be generated. -/
theorem settled_canGenerate {N : Nat} {g : Graph N}
    (hS : Settled g (fun _ => False) (fun _ _ => False)) :
    (∀ n, (g n).forceRequired = false → (g n).canGenerate = true →
      (g n).enabled = true) ∧
    (∀ n d, (g n).enabled = true → (g n).supported = true →
      d ∈ (g n).dependencies → (g d).supported = true → (g d).canGenerate = true) := by
  refine ⟨?_, ?_⟩
  · intro n hf hc
    simp only [BaseType.canGenerate, BaseType.isRequired, hf, Bool.or_false,
      Bool.and_eq_true, Bool.or_eq_true, Bool.not_eq_true', decide_eq_false_iff_not] at hc
    rcases hc.2 with he | hne
    · exact he
    · rcases hS.req_enabled n hc.1 hne with hx | hx
      · exact hx.elim
      · exact hx
  · intro n d he hs hd hsd
    rcases hS.deps_done n d he hs hd with hp | hp | hp
    · exact hp.elim
    · have hne : (g d).subscribers ≠ ∅ := Finset.ne_empty_of_mem hp
      simp [BaseType.canGenerate, BaseType.isRequired, hsd, hne]
    · have := hS.subs_enabled n d hp
      simp [BaseType.canGenerate, hsd, this]

/-! ## Dependency cycles -/

theorem chain_forward {α : Type} (R : α → α → Prop) (E : α → Prop)
    (hstep : ∀ p q, R p q → E p → E q) :
    ∀ (l : List α) (a : α), List.Chain R a l → E a → ∀ y ∈ l, E y := by
  intro l
  induction l with
  | nil => intro a _ _ y hy; simp at hy
  | cons c l ih =>
    intro a hc ha y hy
    rw [List.chain_cons] at hc
    have hcE : E c := hstep a c hc.1 ha
    rcases List.mem_cons.mp hy with e | e
    · exact e ▸ hcE
    · exact ih c hc.2 hcE y e

theorem chain_to_last {α : Type} (R : α → α → Prop) (E : α → Prop)
    (hstep : ∀ p q, R p q → E p → E q) (b : α) :
    ∀ (l : List α) (a x : α), List.Chain R a (l ++ [b]) →
      (x = a ∨ x ∈ l ++ [b]) → E x → E b := by
  intro l
  induction l with
  | nil =>
    intro a x hc hx hE
    simp only [List.nil_append, List.chain_cons, List.Chain.nil, and_true] at hc
    rcases hx with e | e
    · exact hstep a b hc (e ▸ hE)
    · simp only [List.nil_append, List.mem_singleton] at e
      exact e ▸ hE
  | cons c l ih =>
    intro a x hc hx hE
    rw [List.cons_append, List.chain_cons] at hc
    rcases hx with e | e
    · exact ih c c hc.2 (Or.inl rfl) (hstep a c hc.1 (e ▸ hE))
    · rw [List.cons_append] at e
      exact ih c x hc.2 (List.mem_cons.mp e) hE

/-- A property that passes from a node to its dependencies and holds of one
node of a cycle holds of every node of the cycle. -/
theorem cycle_all {N : Nat} (g : Graph N) (E : Fin N → Prop)
    (hstep : ∀ p q, q ∈ (g p).dependencies → E p → E q)
    (a : Fin N) (rest : List (Fin N)) (hc : IsCycle g a rest)
    (x : Fin N) (hx : x ∈ a :: rest) (hE : E x) : ∀ y ∈ a :: rest, E y := by
  have ha : E a := by
    refine chain_to_last _ E hstep a rest a x hc ?_ hE
    rcases List.mem_cons.mp hx with e | e
    · exact Or.inl e
    · exact Or.inr (List.mem_append_left _ e)
  intro y hy
  rcases List.mem_cons.mp hy with e | e
  · exact e ▸ ha
  · exact chain_forward _ E hstep _ a hc ha y (List.mem_append_left _ e)

/-- After the loop of `setEnabled(true)` on node `n`, every dependency the loop
visited has `n` as a subscriber or is itself a subscriber of `n`. -/
theorem forDependencies_linked {N : Nat} (fuel : Nat) (n : Fin N) :
    ∀ (ds : List (Fin N)) (g g2 : Graph N),
      forDependencies (subscribe fuel) n ds g = some g2 →
      ∀ d ∈ ds, n ∈ (g2 d).subscribers ∨ d ∈ (g2 n).subscribers := by
  intro ds
  induction ds with
  | nil => intro g g2 _ d hd; simp at hd
  | cons c ds ih =>
    intro g g2 h d hd
    simp only [forDependencies] at h
    split at h
    · next hmem =>
      rcases List.mem_cons.mp hd with e | e
      · have hT : Toward true g g2 := forDependencies_toward (v := true) h
        exact Or.inr (e ▸ (hT n).2.2.2.2.1 rfl hmem)
      · exact ih g g2 h d e
    · cases hc : subscribe fuel g c n with
      | none => simp [hc] at h
      | some g1 =>
        simp only [hc, Option.some_bind] at h
        rcases List.mem_cons.mp hd with e | e
        · have hT : Toward true g1 g2 := forDependencies_toward (v := true) h
          exact Or.inl (e ▸ (hT c).2.2.2.2.1 rfl (subscribe_mem hc))
        · exact ih g1 g2 h d e

/-! ## Which nodes an enabling cascade switches on -/

theorem reached_initial {N : Nat} {g0 : Graph N} {n0 x : Fin N}
    (h : Reached g0 n0 x) : (g0 x).enabled = false ∧ (g0 x).supported = true := by
  cases h with
  | root he hs => exact ⟨he, hs⟩
  | step m _ _ _ _ he hs _ => exact ⟨he, hs⟩

theorem enSound_refl {N : Nat} (g0 : Graph N) (n0 : Fin N) : EnSound g0 n0 g0 :=
  ⟨toward_refl true g0, fun _ h => Or.inl h⟩

theorem toward_true_enabled_false {N : Nat} {g0 g : Graph N} (h : Toward true g0 g)
    {x : Fin N} (hx : (g x).enabled = false) : (g0 x).enabled = false := by
  rcases (h x).2.2.2.1 with e | e
  · exact e ▸ hx
  · rw [hx] at e; cases e

theorem forDependencies_enSound {N : Nat} (g0 : Graph N) (n0 : Fin N) (fuel : Nat)
    (x : Fin N)
    (hsub : ∀ (g r : Graph N) (d : Fin N), subscribe fuel g d x = some r →
      EnSound g0 n0 g → d ∈ (g0 x).dependencies → d ∉ (g0 x).subscribers →
      EnSound g0 n0 r) :
    ∀ (ds : List (Fin N)) (g r : Graph N),
      forDependencies (subscribe fuel) x ds g = some r →
      (∀ d ∈ ds, d ∈ (g0 x).dependencies) → EnSound g0 n0 g → EnSound g0 n0 r := by
  intro ds
  induction ds with
  | nil =>
    intro g r h _ hS
    simp only [forDependencies, Option.some.injEq] at h
    exact h ▸ hS
  | cons d ds ih =>
    intro g r h hds hS
    simp only [forDependencies] at h
    have hrest : ∀ e ∈ ds, e ∈ (g0 x).dependencies :=
      fun e he => hds e (List.mem_cons_of_mem _ he)
    split at h
    · exact ih g r h hrest hS
    · next hnot =>
      cases hc : subscribe fuel g d x with
      | none => simp [hc] at h
      | some g1 =>
        simp only [hc, Option.some_bind] at h
        have hd0 : d ∉ (g0 x).subscribers :=
          fun hin => hnot ((hS.1 x).2.2.2.2.1 rfl hin)
        exact ih g1 r h hrest
          (hsub g g1 d hc hS (hds d (List.mem_cons_self _ _)) hd0)

/-- An enabling cascade only switches on reached nodes. -/
theorem enable_sound {N : Nat} (g0 : Graph N) (n0 : Fin N) :
    ∀ (fuel : Nat) (g r : Graph N) (x : Fin N),
      (setEnabled fuel g x true = some r → EnSound g0 n0 g →
        ((g x).enabled = false → (g x).supported = true → Reached g0 n0 x) →
        EnSound g0 n0 r) ∧
      (∀ m, subscribe fuel g x m = some r → EnSound g0 n0 g →
        Reached g0 n0 m → x ∈ (g0 m).dependencies → x ∉ (g0 m).subscribers →
        EnSound g0 n0 r) := by
  intro fuel
  induction fuel with
  | zero =>
    intro g r x
    simp [setEnabled_zero, subscribe_zero]
  | succ fuel ih =>
    intro g r x
    refine ⟨?_, ?_⟩
    · intro h hS hpre
      by_cases hg : (g x).enabled = true ∨ (g x).supported = false
      · rw [setEnabled_guard fuel g x true hg] at h
        cases h; exact hS
      · have he : (g x).enabled = false := by
          cases hen : (g x).enabled
          · rfl
          · exact absurd (Or.inl hen) hg
        have hs : (g x).supported = true := by
          cases hsup : (g x).supported
          · exact absurd (Or.inr hsup) hg
          · rfl
        have hx : Reached g0 n0 x := hpre he hs
        rw [setEnabled_true fuel g x he hs] at h
        have hS1 : EnSound g0 n0 (g.writeEnabled x true) := by
          refine ⟨toward_trans true _ _ _ hS.1 (toward_writeEnabled true g x), ?_⟩
          intro y hy
          simp only [writeEnabled_enabled] at hy
          by_cases hyx : y = x
          · exact Or.inr (hyx ▸ hx)
          · simp only [hyx, if_false] at hy
            exact hS.2 y hy
        refine forDependencies_enSound g0 n0 fuel x
          (fun a b d hab ha hd hd0 => (ih a b d).2 x hab ha hx hd hd0) _ _ _ h ?_ hS1
        intro d hd
        rw [← (hS.1 x).1]
        exact hd
    · intro m h hS hm hxd hxs
      by_cases hin : m ∈ (g x).subscribers
      · rw [subscribe_present fuel g x m hin] at h
        cases h; exact hS
      · have hS1 : EnSound g0 n0 (g.emplace x m) := by
          refine ⟨toward_trans true _ _ _ hS.1 (toward_emplace g x m), ?_⟩
          intro y hy
          simp only [emplace_enabled] at hy
          exact hS.2 y hy
        by_cases hem : (g x).subscribers = ∅
        · rw [subscribe_first fuel g x m hem] at h
          refine (ih _ r x).1 h hS1 ?_
          intro he hs
          simp only [emplace_enabled, emplace_supported] at he hs
          refine Reached.step m x hm hxd hxs (toward_true_enabled_false hS.1 he) ?_ ?_
          · rw [← (hS.1 x).2.1]; exact hs
          · apply Finset.eq_empty_of_forall_not_mem
            intro s hs0
            have := (hS.1 x).2.2.2.2.1 rfl hs0
            rw [hem] at this
            simp at this
        · rw [subscribe_more fuel g x m hin hem] at h
          cases h; exact hS1

theorem enDone_weaken {N : Nat} {g0 g : Graph N} {X : Fin N → Prop}
    {P Q : Fin N → Fin N → Prop} (h : EnDone g0 g X P)
    (hPQ : ∀ m d, P m d → Q m d ∨ m ∈ (g d).subscribers ∨ d ∈ (g m).subscribers) :
    EnDone g0 g X Q := by
  refine ⟨h.subs_enabled, h.req_enabled, ?_⟩
  intro m d he h0 hd
  rcases h.deps_done m d he h0 hd with hp | hp
  · exact hPQ m d hp
  · exact Or.inr hp

theorem enDone_initial {N : Nat} (g0 : Graph N) (X : Fin N → Prop) :
    EnDone g0 g0 X (fun _ _ => False) := by
  refine ⟨fun m s hs => Or.inl hs, fun m _ h0 hne => absurd h0 hne, ?_⟩
  intro m d he h0
  rw [he] at h0
  cases h0

theorem enDone_writeEnabled {N : Nat} {g0 g : Graph N} {n : Fin N}
    {P : Fin N → Fin N → Prop} (h : EnDone g0 g (fun m => m = n) P) :
    EnDone g0 (g.writeEnabled n true) (fun _ => False)
      (fun m d => P m d ∨ (m = n ∧ d ∈ (g n).dependencies)) := by
  refine ⟨?_, ?_, ?_⟩
  · intro m s hs
    simp only [writeEnabled_subscribers] at hs
    simp only [writeEnabled_enabled]
    rcases h.subs_enabled m s hs with h1 | h1
    · exact Or.inl h1
    · right
      split
      · rfl
      · exact h1
  · intro m hsup h0 hne
    simp only [writeEnabled_supported, writeEnabled_subscribers] at hsup hne
    simp only [writeEnabled_enabled]
    right
    split
    · rfl
    · next hmn =>
      rcases h.req_enabled m hsup h0 hne with hx | hx
      · exact absurd hx hmn
      · exact hx
  · intro m d he h0 hd
    simp only [writeEnabled_enabled, writeEnabled_dependencies,
      writeEnabled_subscribers] at he hd ⊢
    by_cases hmn : m = n
    · subst hmn
      exact Or.inl (Or.inr ⟨rfl, hd⟩)
    · simp only [hmn, if_false] at he
      rcases h.deps_done m d he h0 hd with hp | hp
      · exact Or.inl (Or.inl hp)
      · exact Or.inr hp

theorem enDone_emplace {N : Nat} {g0 g : Graph N} {n s : Fin N}
    {P : Fin N → Fin N → Prop} (h : EnDone g0 g (fun _ => False) P)
    (hs : (g s).enabled = true) :
    EnDone g0 (g.emplace n s) (fun m => m = n) P := by
  refine ⟨?_, ?_, ?_⟩
  · intro m t ht
    simp only [emplace_subscribers, emplace_enabled] at ht ⊢
    split at ht
    · rcases Finset.mem_insert.mp ht with e | e
      · exact Or.inr (e ▸ hs)
      · exact h.subs_enabled m t e
    · exact h.subs_enabled m t ht
  · intro m hsup h0 hne
    simp only [emplace_supported, emplace_subscribers, emplace_enabled] at hsup hne ⊢
    by_cases hmn : m = n
    · exact Or.inl hmn
    · simp only [hmn, if_false] at hne
      rcases h.req_enabled m hsup h0 hne with hx | hx
      · exact absurd hx id
      · exact Or.inr hx
  · intro m d he h0 hd
    simp only [emplace_enabled, emplace_dependencies, emplace_subscribers] at he hd ⊢
    rcases h.deps_done m d he h0 hd with hp | hp | hp
    · exact Or.inl hp
    · right; left
      split
      · exact Finset.mem_insert_of_mem hp
      · exact hp
    · right; right
      split
      · exact Finset.mem_insert_of_mem hp
      · exact hp

theorem forDependencies_enDone {N : Nat} (g0 : Graph N) (fuel : Nat) (n : Fin N)
    (P : Fin N → Fin N → Prop)
    (hsub : ∀ (g g2 : Graph N) (d : Fin N) (Q : Fin N → Fin N → Prop),
      subscribe fuel g d n = some g2 → EnDone g0 g (fun _ => False) Q →
      (g n).enabled = true →
      EnDone g0 g2 (fun _ => False) Q ∧ n ∈ (g2 d).subscribers) :
    ∀ (ds : List (Fin N)) (g g2 : Graph N),
      forDependencies (subscribe fuel) n ds g = some g2 →
      (g n).enabled = true →
      EnDone g0 g (fun _ => False) (fun m d => P m d ∨ (m = n ∧ d ∈ ds)) →
      EnDone g0 g2 (fun _ => False) P := by
  intro ds
  induction ds with
  | nil =>
    intro g g2 h _ hS
    simp only [forDependencies, Option.some.injEq] at h
    subst h
    refine enDone_weaken hS ?_
    intro m d hp
    rcases hp with hp | ⟨_, hp⟩
    · exact Or.inl hp
    · simp at hp
  | cons d ds ih =>
    intro g g2 h hen hS
    simp only [forDependencies] at h
    split at h
    · next hmem =>
      refine ih g g2 h hen (enDone_weaken hS ?_)
      intro m e hp
      rcases hp with hp | ⟨hm, hp⟩
      · exact Or.inl (Or.inl hp)
      · rcases List.mem_cons.mp hp with he | he
        · subst hm; subst he
          exact Or.inr (Or.inr hmem)
        · exact Or.inl (Or.inr ⟨hm, he⟩)
    · cases hc : subscribe fuel g d n with
      | none => simp [hc] at h
      | some g1 =>
        simp only [hc, Option.some_bind] at h
        obtain ⟨hS1, hin⟩ := hsub g g1 d _ hc hS hen
        have hen1 : (g1 n).enabled = true := by
          rcases (subscribe_toward hc n).2.2.2.1 with e | e
          · exact e.trans hen
          · exact e
        refine ih g1 g2 h hen1 (enDone_weaken hS1 ?_)
        intro m e hp
        rcases hp with hp | ⟨hm, hp⟩
        · exact Or.inl (Or.inl hp)
        · rcases List.mem_cons.mp hp with he | he
          · subst hm; subst he
            exact Or.inr (Or.inl hin)
          · exact Or.inl (Or.inr ⟨hm, he⟩)

/-- An enabling cascade, started in any state `g0`, keeps `EnDone`. -/
theorem enable_done {N : Nat} (g0 : Graph N) :
    ∀ (fuel : Nat) (g g2 : Graph N) (n : Fin N) (P : Fin N → Fin N → Prop),
      (setEnabled fuel g n true = some g2 → EnDone g0 g (fun m => m = n) P →
        EnDone g0 g2 (fun _ => False) P) ∧
      (∀ s, subscribe fuel g n s = some g2 → EnDone g0 g (fun _ => False) P →
        (g s).enabled = true →
        EnDone g0 g2 (fun _ => False) P ∧ s ∈ (g2 n).subscribers) := by
  intro fuel
  induction fuel with
  | zero =>
    intro g g2 n P
    simp [setEnabled_zero, subscribe_zero]
  | succ fuel ih =>
    intro g g2 n P
    refine ⟨?_, ?_⟩
    · intro h hS
      by_cases hg : (g n).enabled = true ∨ (g n).supported = false
      · rw [setEnabled_guard fuel g n true hg] at h
        cases h
        refine ⟨hS.subs_enabled, ?_, hS.deps_done⟩
        intro m hsup h0 hne
        rcases hS.req_enabled m hsup h0 hne with hx | hx
        · subst hx
          rcases hg with hg | hg
          · exact Or.inr hg
          · rw [hg] at hsup; simp at hsup
        · exact Or.inr hx
      · have he : (g n).enabled = false := by
          cases hen : (g n).enabled
          · rfl
          · exact absurd (Or.inl hen) hg
        have hs : (g n).supported = true := by
          cases hsup : (g n).supported
          · exact absurd (Or.inr hsup) hg
          · rfl
        rw [setEnabled_true fuel g n he hs] at h
        refine forDependencies_enDone g0 fuel n P
          (fun a b d Q hab hQ hen => (ih a b d Q).2 n hab hQ hen) _ _ _ h ?_
          (enDone_writeEnabled hS)
        simp
    · intro s h hS hen
      by_cases hm : s ∈ (g n).subscribers
      · rw [subscribe_present fuel g n s hm] at h
        cases h
        exact ⟨hS, hm⟩
      · by_cases hem : (g n).subscribers = ∅
        · rw [subscribe_first fuel g n s hem] at h
          refine ⟨(ih _ g2 n P).1 h (enDone_emplace hS hen), ?_⟩
          have hmono := (setEnabled_toward h n).2.2.2.2.1 rfl
          apply hmono
          simp
        · rw [subscribe_more fuel g n s hm hem] at h
          cases h
          refine ⟨?_, by simp⟩
          have hS1 := enDone_emplace (n := n) hS hen
          refine ⟨hS1.subs_enabled, ?_, hS1.deps_done⟩
          intro m hsup h0 hne
          rcases hS1.req_enabled m hsup h0 hne with hx | hx
          · subst hx
            simp only [emplace_supported, emplace_enabled] at hsup ⊢
            rcases hS.req_enabled m hsup h0 hem with hy | hy
            · exact absurd hy id
            · exact Or.inr hy
          · exact Or.inr hx

/-- What `setEnabled(n, true)` makes of `canGenerate()`, in any state: the
nodes that can be generated afterwards are the supported nodes that were
enabled, subscribed to or forced before, and the supported reached nodes. -/
theorem enable_canGenerate {N : Nat} {fuel : Nat} {g r : Graph N} {n : Fin N}
    (h : setEnabled fuel g n true = some r) (x : Fin N) :
    (r x).canGenerate = true ↔
      (g x).supported = true ∧
        ((g x).enabled = true ∨ (g x).subscribers ≠ ∅ ∨
          (g x).forceRequired = true ∨ Reached g n x) := by
  have hT := setEnabled_toward h
  have hsound : EnSound g n r :=
    (enable_sound g n fuel g r n).1 h (enSound_refl g n) (fun he hs => Reached.root he hs)
  have hdone : EnDone g r (fun _ => False) (fun _ _ => False) :=
    (enable_done g fuel g r n _).1 h (enDone_initial g _)
  have hreach : ∀ y, Reached g n y → (r y).enabled = true := by
    intro y hy
    induction hy with
    | root he hs => exact setEnabled_enabled h hs
    | step m y hm hd hns he hs hem ih =>
      have hd2 : y ∈ (r m).dependencies := by rw [(hT m).1]; exact hd
      rcases hdone.deps_done m y ih (reached_initial hm).1 hd2 with hf | hin | hin
      · exact hf.elim
      · have hsy : (r y).supported = true := ((hT y).2.1).trans hs
        rcases hdone.req_enabled y hsy hem (Finset.ne_empty_of_mem hin) with hf | hen
        · exact hf.elim
        · exact hen
      · rcases hdone.subs_enabled m y hin with h0 | hen
        · exact absurd h0 hns
        · exact hen
  obtain ⟨_, hsup, hfr, hen, hsubs, _⟩ := hT x
  simp only [BaseType.canGenerate, BaseType.isRequired, Bool.and_eq_true, Bool.or_eq_true,
    Bool.not_eq_true', decide_eq_false_iff_not, hsup, hfr]
  constructor
  · rintro ⟨hs, hc⟩
    refine ⟨hs, ?_⟩
    rcases hc with he | hne | hf
    · rcases hsound.2 x he with h0 | h0
      · exact Or.inl h0
      · exact Or.inr (Or.inr (Or.inr h0))
    · by_cases h0 : (g x).subscribers = ∅
      · rcases hdone.req_enabled x (hsup.trans hs) h0 hne with hf | he
        · exact hf.elim
        · rcases hsound.2 x he with h1 | h1
          · exact Or.inl h1
          · exact Or.inr (Or.inr (Or.inr h1))
      · exact Or.inr (Or.inl h0)
    · exact Or.inr (Or.inr (Or.inl hf))
  · rintro ⟨hs, hc⟩
    refine ⟨hs, ?_⟩
    rcases hc with he | hne | hf | hr
    · rcases hen with e | e
      · exact Or.inl (e.trans he)
      · exact Or.inl e
    · right; left
      intro hemp
      obtain ⟨s, hs0⟩ := Finset.nonempty_iff_ne_empty.mpr hne
      have := hsubs rfl hs0
      rw [hemp] at this
      simp at this
    · exact Or.inr (Or.inr hf)
    · exact Or.inl (hreach x hr)

/-! ## Which nodes a disabling cascade switches off -/

theorem released_initial {N : Nat} {g0 : Graph N} {n0 x : Fin N}
    (h : Released g0 n0 x) : (g0 x).enabled = true ∧ (g0 x).supported = true := by
  cases h with
  | root he hs => exact ⟨he, hs⟩
  | step _ he hs _ _ _ => exact ⟨he, hs⟩

theorem disSound_refl {N : Nat} (g0 : Graph N) (n0 : Fin N) : DisSound g0 n0 g0 :=
  ⟨toward_refl false g0, fun _ h => Or.inl h, fun _ _ h hn => absurd h hn⟩

theorem toward_false_enabled_true {N : Nat} {g0 g : Graph N} (h : Toward false g0 g)
    {x : Fin N} (hx : (g x).enabled = true) : (g0 x).enabled = true := by
  rcases (h x).2.2.2.1 with e | e
  · exact e ▸ hx
  · rw [hx] at e; cases e

theorem forDependencies_disSound {N : Nat} (g0 : Graph N) (n0 : Fin N) (fuel : Nat)
    (x : Fin N)
    (hunsub : ∀ (g r : Graph N) (d : Fin N), unsubscribe fuel g d x = some r →
      DisSound g0 n0 g → d ∈ (g0 x).dependencies → d ∉ (g x).subscribers →
      DisSound g0 n0 r) :
    ∀ (ds : List (Fin N)) (g r : Graph N),
      forDependencies (unsubscribe fuel) x ds g = some r →
      (∀ d ∈ ds, d ∈ (g0 x).dependencies) → DisSound g0 n0 g → DisSound g0 n0 r := by
  intro ds
  induction ds with
  | nil =>
    intro g r h _ hS
    simp only [forDependencies, Option.some.injEq] at h
    exact h ▸ hS
  | cons d ds ih =>
    intro g r h hds hS
    simp only [forDependencies] at h
    have hrest : ∀ e ∈ ds, e ∈ (g0 x).dependencies :=
      fun e he => hds e (List.mem_cons_of_mem _ he)
    split at h
    · exact ih g r h hrest hS
    · next hnot =>
      cases hc : unsubscribe fuel g d x with
      | none => simp [hc] at h
      | some g1 =>
        simp only [hc, Option.some_bind] at h
        exact ih g1 r h hrest
          (hunsub g g1 d hc hS (hds d (List.mem_cons_self _ _)) hnot)

theorem disSound_erase {N : Nat} {g0 g : Graph N} {n0 x m : Fin N}
    (hS : DisSound g0 n0 g) (hin : m ∈ (g x).subscribers)
    (hm : Released g0 n0 m) (hxd : x ∈ (g0 m).dependencies)
    (hxs : x ∉ (g m).subscribers) : DisSound g0 n0 (g.erase x m) := by
  obtain ⟨hT, hen, hgone⟩ := hS
  refine ⟨toward_trans false _ _ _ hT (toward_erase g x m), ?_, ?_⟩
  · intro y hy
    simp only [erase_enabled] at hy
    exact hen y hy
  · intro d s hs0 hs
    simp only [erase_subscribers] at hs
    by_cases hdx : d = x
    · subst hdx
      simp only [if_true, Finset.mem_erase, not_and] at hs
      by_cases hsm : s = m
      · subst hsm
        refine ⟨hm, hxd, ?_⟩
        intro hback
        have h1 := (hgone s d hback hxs).2.2
        exact h1 ((hT d).2.2.2.2.2 rfl hin)
      · exact hgone d s hs0 (fun hc => hs hsm hc)
    · simp only [hdx, if_false] at hs
      exact hgone d s hs0 hs

/-- A disabling cascade only switches off released nodes and only removes
the subscriptions of released nodes. -/
theorem disable_sound {N : Nat} (g0 : Graph N) (n0 : Fin N) :
    ∀ (fuel : Nat) (g r : Graph N) (x : Fin N),
      (setEnabled fuel g x false = some r → DisSound g0 n0 g →
        ((g x).enabled = true → (g x).supported = true → Released g0 n0 x) →
        DisSound g0 n0 r) ∧
      (∀ m, unsubscribe fuel g x m = some r → DisSound g0 n0 g →
        Released g0 n0 m → x ∈ (g0 m).dependencies → x ∉ (g m).subscribers →
        DisSound g0 n0 r) := by
  intro fuel
  induction fuel with
  | zero =>
    intro g r x
    simp [setEnabled_zero, unsubscribe_zero]
  | succ fuel ih =>
    intro g r x
    refine ⟨?_, ?_⟩
    · intro h hS hpre
      by_cases hg : (g x).enabled = false ∨ (g x).supported = false
      · rw [setEnabled_guard fuel g x false hg] at h
        cases h; exact hS
      · have he : (g x).enabled = true := by
          cases hen : (g x).enabled
          · exact absurd (Or.inl hen) hg
          · rfl
        have hs : (g x).supported = true := by
          cases hsup : (g x).supported
          · exact absurd (Or.inr hsup) hg
          · rfl
        have hx : Released g0 n0 x := hpre he hs
        rw [setEnabled_false fuel g x he hs] at h
        have hS1 : DisSound g0 n0 (g.writeEnabled x false) := by
          refine ⟨toward_trans false _ _ _ hS.1 (toward_writeEnabled false g x), ?_, ?_⟩
          · intro y hy
            simp only [writeEnabled_enabled] at hy
            by_cases hyx : y = x
            · exact Or.inr (hyx ▸ hx)
            · simp only [hyx, if_false] at hy
              exact hS.2.1 y hy
          · intro d s hs0 hs1
            simp only [writeEnabled_subscribers] at hs1
            exact hS.2.2 d s hs0 hs1
        refine forDependencies_disSound g0 n0 fuel x
          (fun a b d hab ha hd hnot => (ih a b d).2 x hab ha hx hd hnot) _ _ _ h ?_ hS1
        intro d hd
        rw [← (hS.1 x).1]
        exact hd
    · intro m h hS hm hxd hxs
      by_cases hin : m ∈ (g x).subscribers
      · have hS1 := disSound_erase hS hin hm hxd hxs
        by_cases hem : (g x).subscribers.erase m = ∅
        · rw [unsubscribe_last fuel g x m hin hem] at h
          refine (ih _ r x).1 h hS1 ?_
          intro he hs
          simp only [erase_enabled, erase_supported] at he hs
          have hgone : ∀ s, s ∈ (g0 x).subscribers →
              Released g0 n0 s ∧ x ∈ (g0 s).dependencies ∧ x ∉ (g0 s).subscribers := by
            intro s hs0
            apply hS1.2.2 x s hs0
            simp [hem]
          refine Released.step x (toward_false_enabled_true hS.1 he) ?_ ?_
            (fun s hs0 => (hgone s hs0).1) (fun s hs0 => (hgone s hs0).2)
          · rw [← (hS.1 x).2.1]; exact hs
          · exact Finset.ne_empty_of_mem ((hS.1 x).2.2.2.2.2 rfl hin)
        · rw [unsubscribe_more fuel g x m hin hem] at h
          cases h; exact hS1
      · rw [unsubscribe_absent fuel g x m hin] at h
        cases h; exact hS

theorem disDone_weaken {N : Nat} {g0 g : Graph N} {X : Fin N → Prop}
    {P Q : Fin N → Fin N → Prop} (h : DisDone g0 g X P)
    (hPQ : ∀ m d, d ∉ (g0 m).subscribers → P m d → Q m d ∨ m ∉ (g d).subscribers) :
    DisDone g0 g X Q := by
  refine ⟨h.req_disabled, ?_⟩
  intro m d he h0 hd hns
  rcases h.deps_done m d he h0 hd hns with hp | hp
  · exact hPQ m d hns hp
  · exact Or.inr hp

theorem disDone_initial {N : Nat} (g0 : Graph N) (X : Fin N → Prop) :
    DisDone g0 g0 X (fun _ _ => False) := by
  refine ⟨fun d _ hne hem => absurd hem hne, ?_⟩
  intro m d he h0
  rw [he] at h0
  cases h0

theorem disDone_writeEnabled {N : Nat} {g0 g : Graph N} {n : Fin N}
    {P : Fin N → Fin N → Prop} (h : DisDone g0 g (fun m => m = n) P) :
    DisDone g0 (g.writeEnabled n false) (fun _ => False)
      (fun m d => P m d ∨ (m = n ∧ d ∈ (g n).dependencies)) := by
  refine ⟨?_, ?_⟩
  · intro d hsup hne hem
    simp only [writeEnabled_supported, writeEnabled_subscribers] at hsup hem
    simp only [writeEnabled_enabled]
    right
    split
    · rfl
    · next hdn =>
      rcases h.req_disabled d hsup hne hem with hx | hx
      · exact absurd hx hdn
      · exact hx
  · intro m d he h0 hd hns
    simp only [writeEnabled_enabled, writeEnabled_dependencies,
      writeEnabled_subscribers] at he hd ⊢
    by_cases hmn : m = n
    · subst hmn
      exact Or.inl (Or.inr ⟨rfl, hd⟩)
    · simp only [hmn, if_false] at he
      rcases h.deps_done m d he h0 hd hns with hp | hp
      · exact Or.inl (Or.inl hp)
      · exact Or.inr hp

theorem disDone_erase {N : Nat} {g0 g : Graph N} {n s : Fin N}
    {P : Fin N → Fin N → Prop} (h : DisDone g0 g (fun _ => False) P) :
    DisDone g0 (g.erase n s) (fun m => m = n) P := by
  refine ⟨?_, ?_⟩
  · intro d hsup hne hem
    simp only [erase_supported, erase_subscribers, erase_enabled] at hsup hem ⊢
    by_cases hdn : d = n
    · exact Or.inl hdn
    · simp only [hdn, if_false] at hem
      rcases h.req_disabled d hsup hne hem with hx | hx
      · exact absurd hx id
      · exact Or.inr hx
  · intro m d he h0 hd hns
    simp only [erase_enabled, erase_dependencies, erase_subscribers] at he hd ⊢
    rcases h.deps_done m d he h0 hd hns with hp | hp
    · exact Or.inl hp
    · right
      split
      · exact fun hc => hp (Finset.mem_of_mem_erase hc)
      · exact hp

theorem forDependencies_disDone {N : Nat} (g0 : Graph N) (fuel : Nat) (n : Fin N)
    (P : Fin N → Fin N → Prop)
    (hunsub : ∀ (g g2 : Graph N) (d : Fin N) (Q : Fin N → Fin N → Prop),
      unsubscribe fuel g d n = some g2 → Toward false g0 g →
      DisDone g0 g (fun _ => False) Q → DisDone g0 g2 (fun _ => False) Q) :
    ∀ (ds : List (Fin N)) (g g2 : Graph N),
      forDependencies (unsubscribe fuel) n ds g = some g2 →
      Toward false g0 g →
      DisDone g0 g (fun _ => False) (fun m d => P m d ∨ (m = n ∧ d ∈ ds)) →
      DisDone g0 g2 (fun _ => False) P := by
  intro ds
  induction ds with
  | nil =>
    intro g g2 h _ hS
    simp only [forDependencies, Option.some.injEq] at h
    subst h
    refine disDone_weaken hS ?_
    intro m d _ hp
    rcases hp with hp | ⟨_, hp⟩
    · exact Or.inl hp
    · simp at hp
  | cons d ds ih =>
    intro g g2 h hT hS
    simp only [forDependencies] at h
    split at h
    · next hmem =>
      refine ih g g2 h hT (disDone_weaken hS ?_)
      intro m e hns hp
      rcases hp with hp | ⟨hm, hp⟩
      · exact Or.inl (Or.inl hp)
      · rcases List.mem_cons.mp hp with he | he
        · subst hm; subst he
          exact absurd ((hT m).2.2.2.2.2 rfl hmem) hns
        · exact Or.inl (Or.inr ⟨hm, he⟩)
    · cases hc : unsubscribe fuel g d n with
      | none => simp [hc] at h
      | some g1 =>
        simp only [hc, Option.some_bind] at h
        have hS1 := hunsub g g1 d _ hc hT hS
        have hT1 : Toward false g0 g1 :=
          toward_trans false _ _ _ hT (unsubscribe_toward hc)
        refine ih g1 g2 h hT1 (disDone_weaken hS1 ?_)
        intro m e _ hp
        rcases hp with hp | ⟨hm, hp⟩
        · exact Or.inl (Or.inl hp)
        · rcases List.mem_cons.mp hp with he | he
          · subst hm; subst he
            exact Or.inr (unsubscribe_not_mem hc)
          · exact Or.inl (Or.inr ⟨hm, he⟩)

/-- A disabling cascade, started in any state `g0`, keeps `DisDone`. -/
theorem disable_done {N : Nat} (g0 : Graph N) :
    ∀ (fuel : Nat) (g g2 : Graph N) (n : Fin N) (P : Fin N → Fin N → Prop),
      (setEnabled fuel g n false = some g2 → Toward false g0 g →
        DisDone g0 g (fun m => m = n) P → DisDone g0 g2 (fun _ => False) P) ∧
      (∀ s, unsubscribe fuel g n s = some g2 → Toward false g0 g →
        DisDone g0 g (fun _ => False) P → DisDone g0 g2 (fun _ => False) P) := by
  intro fuel
  induction fuel with
  | zero =>
    intro g g2 n P
    simp [setEnabled_zero, unsubscribe_zero]
  | succ fuel ih =>
    intro g g2 n P
    refine ⟨?_, ?_⟩
    · intro h hT hS
      by_cases hg : (g n).enabled = false ∨ (g n).supported = false
      · rw [setEnabled_guard fuel g n false hg] at h
        cases h
        refine ⟨?_, hS.deps_done⟩
        intro d hsup hne hem
        rcases hS.req_disabled d hsup hne hem with hx | hx
        · subst hx
          rcases hg with hg | hg
          · exact Or.inr hg
          · rw [hg] at hsup; simp at hsup
        · exact Or.inr hx
      · have he : (g n).enabled = true := by
          cases hen : (g n).enabled
          · exact absurd (Or.inl hen) hg
          · rfl
        have hs : (g n).supported = true := by
          cases hsup : (g n).supported
          · exact absurd (Or.inr hsup) hg
          · rfl
        rw [setEnabled_false fuel g n he hs] at h
        exact forDependencies_disDone g0 fuel n P
          (fun a b d Q hab hTa hQ => (ih a b d Q).2 n hab hTa hQ) _ _ _ h
          (toward_trans false _ _ _ hT (toward_writeEnabled false g n))
          (disDone_writeEnabled hS)
    · intro s h hT hS
      by_cases hm : s ∈ (g n).subscribers
      · have hS1 := disDone_erase (n := n) (s := s) hS
        by_cases hem : (g n).subscribers.erase s = ∅
        · rw [unsubscribe_last fuel g n s hm hem] at h
          exact (ih _ g2 n P).1 h (toward_trans false _ _ _ hT (toward_erase g n s)) hS1
        · rw [unsubscribe_more fuel g n s hm hem] at h
          cases h
          refine ⟨?_, hS1.deps_done⟩
          intro d hsup hne hemp
          rcases hS1.req_disabled d hsup hne hemp with hx | hx
          · subst hx
            simp only [erase_subscribers, if_true] at hemp
            exact absurd hemp hem
          · exact Or.inr hx
      · rw [unsubscribe_absent fuel g n s hm] at h
        cases h; exact hS

/-- What `setEnabled(n, false)` makes of the registry, in any state: the nodes
still enabled are the enabled nodes that are not released, and the
subscriptions still held are those not held by a released node on a
dependency that does not subscribe back. -/
theorem disable_state {N : Nat} {fuel : Nat} {g r : Graph N} {n : Fin N}
    (h : setEnabled fuel g n false = some r) (x : Fin N) :
    ((r x).enabled = true ↔ (g x).enabled = true ∧ ¬ Released g n x) ∧
    (∀ m, m ∈ (r x).subscribers ↔ m ∈ (g x).subscribers ∧
      ¬ (Released g n m ∧ x ∈ (g m).dependencies ∧ x ∉ (g m).subscribers)) := by
  have hT := setEnabled_toward h
  have hsound : DisSound g n r :=
    (disable_sound g n fuel g r n).1 h (disSound_refl g n)
      (fun he hs => Released.root he hs)
  have hdone : DisDone g r (fun _ => False) (fun _ _ => False) :=
    (disable_done g fuel g r n _).1 h (toward_refl false g) (disDone_initial g _)
  have hrel : ∀ y, Released g n y → (r y).enabled = false := by
    intro y hy
    induction hy with
    | root he hs => exact setEnabled_enabled h hs
    | step d he hs hne hall hdeps ih =>
      have hempty : (r d).subscribers = ∅ := by
        apply Finset.eq_empty_of_forall_not_mem
        intro m hm
        have hm0 : m ∈ (g d).subscribers := (hT d).2.2.2.2.2 rfl hm
        have hd2 : d ∈ (r m).dependencies := by rw [(hT m).1]; exact (hdeps m hm0).1
        rcases hdone.deps_done m d (ih m hm0) (released_initial (hall m hm0)).1 hd2
          (hdeps m hm0).2 with hf | hn
        · exact hf.elim
        · exact hn hm
      rcases hdone.req_disabled d (((hT d).2.1).trans hs) hne hempty with hf | hd
      · exact hf.elim
      · exact hd
  refine ⟨⟨?_, ?_⟩, ?_⟩
  · intro hx
    refine ⟨toward_false_enabled_true hT hx, ?_⟩
    intro hr
    rw [hrel x hr] at hx
    cases hx
  · rintro ⟨hx, hnr⟩
    cases hrx : (r x).enabled
    · rcases hsound.2.1 x hrx with h0 | h0
      · rw [hx] at h0; cases h0
      · exact absurd h0 hnr
    · rfl
  · intro m
    constructor
    · intro hm
      refine ⟨(hT x).2.2.2.2.2 rfl hm, ?_⟩
      rintro ⟨hr, hd, hns⟩
      have hd2 : x ∈ (r m).dependencies := by rw [(hT m).1]; exact hd
      rcases hdone.deps_done m x (hrel m hr) (released_initial hr).1 hd2 hns with hf | hn
      · exact hf.elim
      · exact hn hm
    · rintro ⟨hm0, hnot⟩
      by_contra hm
      exact hnot (hsound.2.2 x m hm0 hm)

/-! ## The order of iteration -/

theorem sameUpToOrder_symm {N : Nat} {g g2 : Graph N} (h : SameUpToOrder g g2) :
    SameUpToOrder g2 g := by
  intro m
  obtain ⟨h1, h2, h3, h4, h5⟩ := h m
  exact ⟨h1.symm, h2.symm, h3.symm, h4.symm, h5.symm⟩

theorem reached_sameUpToOrder {N : Nat} {g g2 : Graph N} (h : SameUpToOrder g g2)
    {n x : Fin N} (hx : Reached g n x) : Reached g2 n x := by
  induction hx with
  | root he hs =>
    exact Reached.root ((h n).2.2.2.1 ▸ he) ((h n).2.2.2.2 ▸ hs)
  | step m x _ hd hns he hs hem ih =>
    refine Reached.step m x ih ((h m).1.mem_iff.mp hd) ?_ ((h x).2.2.2.1 ▸ he)
      ((h x).2.2.2.2 ▸ hs) ((h x).2.1 ▸ hem)
    rw [← (h m).2.1]
    exact hns

theorem released_sameUpToOrder {N : Nat} {g g2 : Graph N} (h : SameUpToOrder g g2)
    {n x : Fin N} (hx : Released g n x) : Released g2 n x := by
  induction hx with
  | root he hs =>
    exact Released.root ((h n).2.2.2.1 ▸ he) ((h n).2.2.2.2 ▸ hs)
  | step d he hs hne _ hdeps ih =>
    refine Released.step d ((h d).2.2.2.1 ▸ he) ((h d).2.2.2.2 ▸ hs) ((h d).2.1 ▸ hne)
      ?_ ?_
    · intro m hm
      exact ih m ((h d).2.1 ▸ hm)
    · intro m hm
      have := hdeps m ((h d).2.1 ▸ hm)
      refine ⟨(h m).1.mem_iff.mp this.1, ?_⟩
      rw [← (h m).2.1]
      exact this.2

/-! ## Scanning the parameters from the end -/

theorem scanFromEnd_some {test : VariableData → Bool} :
    ∀ {l : List VariableData} {v : VariableData},
      CommandData.scanFromEnd test l = some v →
      ∃ pre post, l = pre ++ v :: post ∧ test v = true ∧ ∀ p ∈ pre, test p = false := by
  intro l
  induction l with
  | nil => intro v h; simp [CommandData.scanFromEnd] at h
  | cons a l ih =>
    intro v h
    simp only [CommandData.scanFromEnd] at h
    by_cases ha : test a = true
    · simp only [ha, if_true, Option.some.injEq] at h
      subst h
      exact ⟨[], l, rfl, ha, by simp⟩
    · simp only [ha] at h
      obtain ⟨pre, post, hl, hv, hpre⟩ := ih h
      refine ⟨a :: pre, post, by simp [hl], hv, ?_⟩
      intro p hp
      rcases List.mem_cons.mp hp with e | e
      · subst e; simpa using ha
      · exact hpre p e

theorem scanFromEnd_none {test : VariableData → Bool} :
    ∀ {l : List VariableData},
      CommandData.scanFromEnd test l = none ↔ ∀ p ∈ l, test p = false := by
  intro l
  induction l with
  | nil => simp [CommandData.scanFromEnd]
  | cons a l ih =>
    simp only [CommandData.scanFromEnd]
    by_cases ha : test a = true
    · simp [ha]
    · simp only [ha, List.mem_cons, forall_eq_or_imp]
      simp only [Bool.not_eq_true] at ha
      simp [ha, ih]

/-- The scan from the end returns the last parameter that passes the test:
the parameters split into those before it, itself, and those after it, none
of which passes. -/
theorem scanFromEnd_reverse_some {test : VariableData → Bool} {l : List VariableData}
    {v : VariableData} (h : CommandData.scanFromEnd test l.reverse = some v) :
    ∃ pre post, l = pre ++ v :: post ∧ test v = true ∧ ∀ p ∈ post, test p = false := by
  obtain ⟨a, b, hl, hv, ha⟩ := scanFromEnd_some h
  refine ⟨b.reverse, a.reverse, ?_, hv, ?_⟩
  · have := congrArg List.reverse hl
    simpa using this
  · intro p hp
    exact ha p (List.mem_reverse.mp hp)

theorem scanFromEnd_reverse_none (test : VariableData → Bool) {l : List VariableData} :
    CommandData.scanFromEnd test l.reverse = none ↔ ∀ p ∈ l, test p = false := by
  rw [scanFromEnd_none]
  simp

theorem scanFromEnd_exists (test : VariableData → Bool) {l : List VariableData}
    (h : ∃ p ∈ l, test p = true) : ∃ v, CommandData.scanFromEnd test l.reverse = some v := by
  cases hs : CommandData.scanFromEnd test l.reverse with
  | some v => exact ⟨v, rfl⟩
  | none =>
    obtain ⟨p, hp, ht⟩ := h
    have := (scanFromEnd_reverse_none test).mp hs p hp
    rw [ht] at this
    cases this

/-! ## Text: stripping a suffix, joining with a separator -/

theorem strStripSuffix_append (s suffix : String) :
    strStripSuffix (s ++ suffix) suffix = s := by
  unfold strStripSuffix
  have h : suffix.data.isSuffixOf (s ++ suffix).data = true := by
    rw [List.isSuffixOf_iff_suffix, String.data_append]
    exact List.suffix_append _ _
  rw [if_pos h]
  apply String.ext
  simp [String.data_append]

theorem strStripSuffix_empty (suffix : String) : strStripSuffix "" suffix = "" := by
  unfold strStripSuffix
  split
  · apply String.ext
    simp
  · rfl

theorem intercalate_go (sep : String) :
    ∀ (l : List String) (acc : String),
      String.intercalate.go acc sep l = acc ++ l.foldr (fun a r => sep ++ a ++ r) "" := by
  intro l
  induction l with
  | nil => intro acc; simp [String.intercalate.go]
  | cons a l ih =>
    intro acc
    simp only [String.intercalate.go, List.foldr_cons, ih, String.append_assoc]

theorem foldr_separator_shift (sep : String) :
    ∀ (l : List String) (a : String),
      (a :: l).foldr (fun t r => t ++ sep ++ r) "" =
        a ++ l.foldr (fun t r => sep ++ t ++ r) "" ++ sep := by
  intro l
  induction l with
  | nil => intro a; simp
  | cons b l ih =>
    intro a
    rw [List.foldr_cons, ih b]
    simp only [List.foldr_cons, String.append_assoc]

/-- Appending a separator after every entry and stripping the last separator
joins the entries with the separator. -/
theorem strStripSuffix_join (sep : String) (l : List String) :
    strStripSuffix (l.foldr (fun t r => t ++ sep ++ r) "") sep = sep.intercalate l := by
  cases l with
  | nil => simp [strStripSuffix_empty, String.intercalate]
  | cons a l =>
    rw [foldr_separator_shift, strStripSuffix_append]
    simp [String.intercalate, intercalate_go]

theorem foldl_append_kept {α : Type} (keep : α → Bool) (f : α → String) (sep : String) :
    ∀ (ps : List α) (acc : String),
      ps.foldl (fun out p => if keep p = true then out ++ f p ++ sep else out) acc =
        acc ++ ((ps.filter keep).map f).foldr (fun t r => t ++ sep ++ r) "" := by
  intro ps
  induction ps with
  | nil => intro acc; simp
  | cons p ps ih =>
    intro acc
    rw [List.foldl_cons, ih]
    by_cases hk : keep p = true
    · simp [hk, String.append_assoc]
    · simp [hk]

/-! ## The signature view -/

theorem argumentStep_proto (ext : External) (cfg : Config) (ctx : MemberContext)
    (f : VariableData → String) (out : String) (p : VariableData) :
    MemberContext.argumentStep ext cfg ctx MemberContext.filterProto f true out p =
      if ctx.protoVisible p = true then out ++ f p ++ ", " else out := by
  unfold MemberContext.argumentStep MemberContext.protoVisible MemberContext.filterProto
  by_cases h1 : (ctx.ns == Namespace.RAII && ctx.cls.isSubclass && !ctx.constructor &&
      p.originalType == ctx.cls.superclass.original) = true
  · simp [h1]
  · by_cases h2 : p.ignoreFlag = true
    · simp [h1, h2]
    · by_cases h3 : p.hasLengthVar = true
      · simp [h1, h2, h3]
      · by_cases h4 : (p.originalType == ctx.cls.name.original && !p.originalType.isEmpty) = true
        · simp [h1, h2, h3, h4]
        · simp [h1, h2, h3, h4]

/-! ## Comparing signatures -/

theorem split_at_separator {α : Type} (c : α) :
    ∀ (a a2 b b2 : List α), c ∉ a → c ∉ a2 → a ++ c :: b = a2 ++ c :: b2 →
      a = a2 ∧ b = b2 := by
  intro a
  induction a with
  | nil =>
    intro a2 b b2 _ h2 h
    cases a2 with
    | nil => simpa using h
    | cons x a2 =>
      simp only [List.nil_append, List.cons_append, List.cons.injEq] at h
      exact absurd (h.1 ▸ List.mem_cons_self _ _) h2
  | cons x a ih =>
    intro a2 b b2 h1 h2 h
    cases a2 with
    | nil =>
      simp only [List.nil_append, List.cons_append, List.cons.injEq] at h
      exact absurd (h.1 ▸ List.mem_cons_self _ _) h1
    | cons y a2 =>
      simp only [List.cons_append, List.cons.injEq] at h
      obtain ⟨hxy, hrest⟩ := h
      have := ih a2 b b2 (fun hc => h1 (List.mem_cons_of_mem _ hc))
        (fun hc => h2 (List.mem_cons_of_mem _ hc)) hrest
      exact ⟨by rw [hxy, this.1], this.2⟩

theorem space_not_mem_removeWhitespace (s : String) :
    ' ' ∉ (removeWhitespace s).data := by
  unfold removeWhitespace
  simp only [List.mem_filter, not_and]
  intro _
  decide

theorem getType_eq_iff (l r : VariableData) :
    MemberResolverBase.getType l = MemberResolverBase.getType r ↔
      removeWhitespace l.type = removeWhitespace r.type ∧
      removeWhitespace l.suffix = removeWhitespace r.suffix := by
  constructor
  · intro h
    have hd := congrArg String.data h
    simp only [MemberResolverBase.getType, String.data_append, List.append_assoc] at hd
    simp only [List.singleton_append] at hd
    have := split_at_separator ' ' _ _ _ _ (space_not_mem_removeWhitespace l.type)
      (space_not_mem_removeWhitespace r.type) hd
    exact ⟨String.ext this.1, String.ext this.2⟩
  · rintro ⟨h1, h2⟩
    simp [MemberResolverBase.getType, h1, h2]

theorem compareTypes_iff :
    ∀ (lhs rhs : List VariableData), lhs.length = rhs.length →
      (MemberResolverBase.compareTypes lhs rhs = true ↔
        lhs.map (fun v => (removeWhitespace v.type, removeWhitespace v.suffix)) =
          rhs.map (fun v => (removeWhitespace v.type, removeWhitespace v.suffix))) := by
  intro lhs
  induction lhs with
  | nil =>
    intro rhs hlen
    cases rhs with
    | nil => simp [MemberResolverBase.compareTypes]
    | cons r rs => simp at hlen
  | cons l ls ih =>
    intro rhs hlen
    cases rhs with
    | nil => simp at hlen
    | cons r rs =>
      have hlen2 : ls.length = rs.length := by simpa using hlen
      simp only [MemberResolverBase.compareTypes, List.map_cons, List.cons.injEq,
        Prod.mk.injEq]
      by_cases hg : MemberResolverBase.getType l = MemberResolverBase.getType r
      · have := (getType_eq_iff l r).mp hg
        simp [hg, this, ih rs hlen2]
      · have hne : ¬ (removeWhitespace l.type = removeWhitespace r.type ∧
            removeWhitespace l.suffix = removeWhitespace r.suffix) :=
          fun hc => hg ((getType_eq_iff l r).mpr hc)
        simp [hg, hne]

theorem compareSignature_iff (a b : MemberResolverBase) :
    a.compareSignature b = true ↔ a.signatureTypes = b.signatureTypes := by
  unfold MemberResolverBase.compareSignature MemberResolverBase.signatureTypes
  by_cases hlen : a.ctx.getFilteredProtoVars.length = b.ctx.getFilteredProtoVars.length
  · simp only [hlen, beq_self_eq_true, if_true]
    exact compareTypes_iff _ _ hlen
  · have hne : a.ctx.getFilteredProtoVars.map
        (fun v => (removeWhitespace v.type, removeWhitespace v.suffix)) ≠
        b.ctx.getFilteredProtoVars.map
          (fun v => (removeWhitespace v.type, removeWhitespace v.suffix)) := by
      intro hc
      apply hlen
      have := congrArg List.length hc
      simpa using this
    simp [hlen, hne]

theorem signatureTypes_withIdentifiers (rename : VariableData → String)
    (r : MemberResolverBase) :
    (r.withIdentifiers rename).signatureTypes = r.signatureTypes := by
  unfold MemberResolverBase.signatureTypes MemberResolverBase.withIdentifiers
    MemberContext.getFilteredProtoVars
  simp only [List.filter_map, List.map_map]
  rfl

/-! ## The code list of the status check -/

theorem foldl_append_all {α : Type} (f : α → String) (sep : String) :
    ∀ (ps : List α) (acc : String),
      ps.foldl (fun out p => out ++ f p ++ sep) acc =
        acc ++ (ps.map f).foldr (fun t r => t ++ sep ++ r) "" := by
  intro ps
  induction ps with
  | nil => intro acc; simp
  | cons p ps ih =>
    intro acc
    rw [List.foldl_cons, ih]
    simp [String.append_assoc]

theorem checkCodes_few (ext : External) (codes : List String) (h : codes.length ≤ 1) :
    MemberResolverBase.checkCodes ext codes = "" := by
  unfold MemberResolverBase.checkCodes
  have : ¬ codes.length > 1 := by omega
  simp [this]

theorem checkCodes_many (ext : External) (codes : List String) (h : 2 ≤ codes.length) :
    MemberResolverBase.checkCodes ext codes =
      ",\n                \x7b " ++
        codeSeparator.intercalate
          (codes.map (fun c => "Result::" ++ ext.enumConvertCamel "Result" c)) ++ "\x7d" := by
  unfold MemberResolverBase.checkCodes
  have hlen : codes.length > 1 := by omega
  simp only [hlen, if_true]
  have hfold := foldl_append_all
    (fun c => "Result::" ++ ext.enumConvertCamel "Result" c) codeSeparator codes
    ",\n                \x7b "
  simp only [← String.append_assoc] at hfold ⊢
  rw [hfold]
  cases codes with
  | nil => simp at h
  | cons a l =>
    rw [List.map_cons, foldr_separator_shift]
    simp only [← String.append_assoc]
    rw [strStripSuffix_append]
    simp only [String.intercalate, intercalate_go, String.append_assoc]

/-! ## The member body of the default resolver leaves `disableCheck` alone -/

theorem declareReturnVar_disableCheck (ext : External) (r : MemberResolverBase)
    (assignment : String) :
    (r.declareReturnVar ext assignment).2.disableCheck = r.disableCheck := by
  unfold MemberResolverBase.declareReturnVar
  split <;> rfl

theorem assignToResult_disableCheck (ext : External) (r : MemberResolverBase)
    (assignment : String) :
    (r.assignToResult ext assignment).2.disableCheck = r.disableCheck := by
  unfold MemberResolverBase.assignToResult
  split
  · exact declareReturnVar_disableCheck ext r assignment
  · rfl

theorem generatePFNcall_disableCheck (ext : External) (cfg : Config)
    (r : MemberResolverBase) (immediateReturn : Bool) :
    (r.generatePFNcall ext cfg immediateReturn).2.disableCheck = r.disableCheck := by
  unfold MemberResolverBase.generatePFNcall
  dsimp only
  split
  · split
    · exact assignToResult_disableCheck ext r _
    · rfl
  · rfl
  · rfl

theorem generateMemberBody_disableCheck (ext : External) (cfg : Config)
    (r : MemberResolverBase) :
    (MemberResolver.generateMemberBody ext cfg r).2.disableCheck = r.disableCheck := by
  unfold MemberResolver.generateMemberBody
  dsimp only
  split
  · exact generatePFNcall_disableCheck ext cfg r _
  · exact generatePFNcall_disableCheck ext cfg r _

/-! ## The array code: the context is left alone, the loop is an iteration -/

theorem declareReturnVar_ctx (ext : External) (r : MemberResolverBase)
    (assignment : String) :
    (r.declareReturnVar ext assignment).2.ctx = r.ctx := by
  unfold MemberResolverBase.declareReturnVar
  split <;> rfl

theorem assignToResult_ctx (ext : External) (r : MemberResolverBase)
    (assignment : String) :
    (r.assignToResult ext assignment).2.ctx = r.ctx := by
  unfold MemberResolverBase.assignToResult
  split
  · exact declareReturnVar_ctx ext r assignment
  · rfl

theorem generatePFNcall_ctx (ext : External) (cfg : Config)
    (r : MemberResolverBase) (immediateReturn : Bool) :
    (r.generatePFNcall ext cfg immediateReturn).2.ctx = r.ctx := by
  unfold MemberResolverBase.generatePFNcall
  dsimp only
  split
  · split
    · exact assignToResult_ctx ext r _
    · rfl
  · rfl
  · rfl

theorem arrayCodeParams_pfnReturn (ext : External) (r : MemberResolverBase) (vi : Nat)
    (useOriginal : Bool) :
    (r.arrayCodeParams ext vi useOriginal).ctx.pfnReturn = r.ctx.pfnReturn := by
  unfold MemberResolverBase.arrayCodeParams
  dsimp only
  split <;> split <;> rfl

theorem modifyParam_pfnReturn (r : MemberResolverBase) (i : Nat)
    (f : VariableData → VariableData) :
    (r.modifyParam i f).ctx.pfnReturn = r.ctx.pfnReturn := rfl

theorem callEntry_calls {σ : Type} (ep : EntryPoint σ) (st : ArrayRun σ)
    (buffer : Option Nat) :
    (callEntry ep st buffer).calls = st.calls ++ [buffer] := rfl

theorem callEntry_storage {σ : Type} (ep : EntryPoint σ) (st : ArrayRun σ)
    (buffer : Option Nat) :
    (callEntry ep st buffer).storage = st.storage := rfl

theorem arrayRound_fill {σ : Type} (ep : EntryPoint σ) (st : ArrayRun σ)
    (h : (ep st.entry none st.count).1 = Status.eSuccess ∧
      (ep st.entry none st.count).2.1 ≠ 0) :
    arrayRound ep st =
      callEntry ep { callEntry ep st none with storage := (ep st.entry none st.count).2.1 }
        (some (ep st.entry none st.count).2.1) := by
  unfold arrayRound
  have h1 : (callEntry ep st none).result = Status.eSuccess ∧
      (callEntry ep st none).count ≠ 0 := h
  simp only [h1, ne_eq, not_false_eq_true, and_self, if_true]
  rfl

theorem arrayRound_skip {σ : Type} (ep : EntryPoint σ) (st : ArrayRun σ)
    (h : ¬ ((ep st.entry none st.count).1 = Status.eSuccess ∧
      (ep st.entry none st.count).2.1 ≠ 0)) :
    arrayRound ep st = callEntry ep st none := by
  unfold arrayRound
  have h1 : ¬ ((callEntry ep st none).result = Status.eSuccess ∧
      (callEntry ep st none).count ≠ 0) := h
  simp only [h1, if_false]

theorem arrayLoop_iff {σ : Type} (ep : EntryPoint σ) (fuel : Nat) (st out : ArrayRun σ) :
    arrayLoop ep fuel st = some out ↔
      ∃ k, k < fuel ∧ out = (arrayRound ep)^[k + 1] st ∧
        out.result ≠ Status.eIncomplete ∧
        ∀ j, j < k → ((arrayRound ep)^[j + 1] st).result = Status.eIncomplete := by
  induction fuel generalizing st with
  | zero => simp [arrayLoop]
  | succ fuel ih =>
    unfold arrayLoop
    dsimp only
    by_cases hr : (arrayRound ep st).result = Status.eIncomplete
    · rw [if_pos hr, ih]
      constructor
      · rintro ⟨k, hk, ho, hres, hall⟩
        refine ⟨k + 1, by omega, ?_, hres, ?_⟩
        · exact ho
        · intro j hj
          cases j with
          | zero => exact hr
          | succ j => exact hall j (by omega)
      · rintro ⟨k, hk, ho, hres, hall⟩
        cases k with
        | zero =>
          exfalso
          apply hres
          rw [ho]
          exact hr
        | succ k =>
          refine ⟨k, by omega, ho, hres, ?_⟩
          intro j hj
          exact hall (j + 1) (by omega)
    · rw [if_neg hr]
      constructor
      · intro h
        have ho : out = arrayRound ep st := (Option.some.inj h).symm
        refine ⟨0, by omega, ho, by rw [ho]; exact hr, ?_⟩
        intro j hj
        omega
      · rintro ⟨k, _, ho, _, hall⟩
        cases k with
        | zero =>
          have : out = arrayRound ep st := ho
          rw [this]
        | succ k =>
          exfalso
          apply hr
          exact hall 0 (by omega)

theorem arrayShrink_storage {σ : Type} (st : ArrayRun σ) :
    (arrayShrink st).storage = min st.storage st.count := by
  unfold arrayShrink
  split
  · simp only
    omega
  · omega

theorem arrayShrink_rest {σ : Type} (st : ArrayRun σ) :
    (arrayShrink st).result = st.result ∧ (arrayShrink st).count = st.count ∧
      (arrayShrink st).entry = st.entry ∧ (arrayShrink st).calls = st.calls := by
  unfold arrayShrink
  split <;> exact ⟨rfl, rfl, rfl, rfl⟩

theorem exists_post (a t : String) : ∃ post : String, a ++ t = a ++ post := ⟨t, rfl⟩

theorem generateArrayCode_loop (ext : External) (cfg : Config) (r : MemberResolverBase)
    (vi : Nat) (useOriginal : Bool) :
    let r0 := r.arrayCodeParams ext vi useOriginal
    let var := r0.ctx.params.getD vi {}
    let lenVar := r0.ctx.params.getD (var.lengthVar.getD 0) {}
    let fill := (r0.declareReturnVar ext "").2.generatePFNcall ext cfg false
    let query := (fill.2.modifyParam vi
      (fun v => { v with altPFN := "nullptr" })).generatePFNcall ext cfg false
    r.ctx.pfnReturn = PFNReturnCategory.VK_RESULT →
    lenVar.originalIsPointer = true → lenVar.originalIsConst = false →
    ∃ pre post : String,
      (r.generateArrayCode ext cfg vi useOriginal).1 =
        pre ++
        ext.format arrayLoopTemplate [query.1, fill.1, lenVar.identifier, var.identifier] ++
        query.2.generateCheck ext cfg ++
        ext.format arrayShrinkTemplate [lenVar.identifier, var.identifier] ++
        post := by
  dsimp only
  intro hres hptr hconst
  have hres0 := (arrayCodeParams_pfnReturn ext r vi useOriginal).trans hres
  unfold MemberResolverBase.generateArrayCode
  generalize r.arrayCodeParams ext vi useOriginal = r0 at hres0 hptr hconst ⊢
  have hret : ((((r0.declareReturnVar ext "").2.generatePFNcall ext cfg false).2.modifyParam vi
      (fun v => { v with altPFN := "nullptr" })).generatePFNcall ext cfg false).2.ctx.pfnReturn
      = PFNReturnCategory.VK_RESULT := by
    rw [generatePFNcall_ctx, modifyParam_pfnReturn, generatePFNcall_ctx, declareReturnVar_ctx,
      hres0]
  simp only [hres0, hptr, hconst, hret, Bool.false_eq_true, if_false, beq_self_eq_true,
    if_true, Bool.not_false, Bool.and_self]
  refine ⟨"" ++ "    " ++ (r0.declareReturnVar ext "").1 ++
      "    " ++ ext.declaration (r0.ctx.params.getD vi {}) ++ ";\n" ++
      "    " ++ ext.declaration
        (r0.ctx.params.getD ((r0.ctx.params.getD vi {}).lengthVar.getD 0) {}) ++ ";\n", ?_⟩
  split
  · exact ⟨"", (String.append_empty _).symm⟩
  · exact exists_post _ _

theorem generateArrayCode_plain (ext : External) (cfg : Config) (r : MemberResolverBase)
    (vi : Nat) (useOriginal : Bool) :
    let r0 := r.arrayCodeParams ext vi useOriginal
    let var := r0.ctx.params.getD vi {}
    let lenVar := r0.ctx.params.getD (var.lengthVar.getD 0) {}
    let fill := r0.generatePFNcall ext cfg false
    let query := (fill.2.modifyParam vi
      (fun v => { v with altPFN := "nullptr" })).generatePFNcall ext cfg false
    r.ctx.pfnReturn ≠ PFNReturnCategory.VK_RESULT →
    lenVar.originalIsPointer = true → lenVar.originalIsConst = false →
    ∃ pre post : String,
      (r.generateArrayCode ext cfg vi useOriginal).1 =
        pre ++
        ext.format arrayPlainTemplate [query.1, fill.1, lenVar.identifier, var.identifier] ++
        query.2.generateCheck ext cfg ++
        ext.format arrayShrinkTemplate [lenVar.identifier, var.identifier] ++
        post := by
  dsimp only
  intro hres hptr hconst
  have hres0 : ((r.arrayCodeParams ext vi useOriginal).ctx.pfnReturn ==
      PFNReturnCategory.VK_RESULT) = false := by
    rw [arrayCodeParams_pfnReturn]
    simpa using hres
  unfold MemberResolverBase.generateArrayCode
  generalize r.arrayCodeParams ext vi useOriginal = r0 at hres0 hptr hconst ⊢
  have hret : ((((r0.generatePFNcall ext cfg false).2.modifyParam vi
      (fun v => { v with altPFN := "nullptr" })).generatePFNcall ext cfg false).2.ctx.pfnReturn
      == PFNReturnCategory.VK_RESULT) = false := by
    rw [generatePFNcall_ctx, modifyParam_pfnReturn, generatePFNcall_ctx, hres0]
  simp only [hres0, hptr, hconst, hret, Bool.false_eq_true, if_false,
    Bool.not_false, Bool.and_self, if_true]
  refine ⟨"" ++
      "    " ++ ext.declaration (r0.ctx.params.getD vi {}) ++ ";\n" ++
      "    " ++ ext.declaration
        (r0.ctx.params.getD ((r0.ctx.params.getD vi {}).lengthVar.getD 0) {}) ++ ";\n", ?_⟩
  split
  · exact ⟨"", (String.append_empty _).symm⟩
  · exact exists_post _ _

/-! ## The forwarding view and the call view -/

theorem argumentStep_call (ext : External) (cfg : Config) (ctx : MemberContext)
    (filter : VariableData → Bool → Bool) (f : VariableData → String) (out : String)
    (p : VariableData) :
    MemberContext.argumentStep ext cfg ctx filter f false out p =
      if (!ctx.skipsSuperclass p && filter p (ctx.sameType p)) = true then
        out ++ ctx.argumentText ext cfg f p ++ ", "
      else out := by
  unfold MemberContext.argumentStep MemberContext.argumentText MemberContext.skipsSuperclass
    MemberContext.sameType MemberContext.selfReference MemberContext.uniqueMatch
  by_cases h1 : (ctx.ns == Namespace.RAII && ctx.cls.isSubclass && !ctx.constructor &&
      p.originalType == ctx.cls.superclass.original) = true
  · simp [h1]
  · by_cases h2 : filter p (p.originalType == ctx.cls.name.original &&
        !p.originalType.isEmpty) = true
    · simp only [h1, h2, Bool.not_true, Bool.false_eq_true, if_false, Bool.not_false,
        Bool.true_and, if_true, Bool.and_true]
      split
      · rfl
      · split
        · split
          · simp only [String.append_assoc]
          · split
            · simp only [String.append_assoc]
            · simp only [String.append_assoc, String.empty_append]
        · split <;> simp only [String.append_assoc]
    · simp [h1, h2]

theorem createArguments_call (ext : External) (cfg : Config) (ctx : MemberContext)
    (filter : VariableData → Bool → Bool) (f : VariableData → String) :
    ctx.createArguments ext cfg filter f false =
      ", ".intercalate
        ((ctx.params.filter
            (fun p => !ctx.skipsSuperclass p && filter p (ctx.sameType p))).map
          (ctx.argumentText ext cfg f)) := by
  unfold MemberContext.createArguments
  have hstep : MemberContext.argumentStep ext cfg ctx filter f false =
      fun out p =>
        if (fun p => !ctx.skipsSuperclass p && filter p (ctx.sameType p)) p = true then
          out ++ ctx.argumentText ext cfg f p ++ ", "
        else out := by
    funext out p
    exact argumentStep_call ext cfg ctx filter f out p
  rw [hstep, foldl_append_kept, String.empty_append]
  exact strStripSuffix_join ", " _

/-- The substitutions of `argumentText`, in the order in which they are
tried. -/
theorem argumentText_cases (ext : External) (cfg : Config) (ctx : MemberContext)
    (f : VariableData → String) (p : VariableData) :
    (ctx.disableSubstitution = false ∧ p.type = "AllocationCallbacks" ∧
        cfg.allocatorParam = false →
      ctx.argumentText ext cfg f p = "nullptr") ∧
    (¬ (ctx.disableSubstitution = false ∧ p.type = "AllocationCallbacks" ∧
        cfg.allocatorParam = false) →
      (p.hasLengthVar = false ∧ ctx.sameType p = true →
        ctx.argumentText ext cfg f p = ctx.selfReference p) ∧
      (¬ (p.hasLengthVar = false ∧ ctx.sameType p = true) →
        (∀ v, ctx.uniqueMatch p = some v →
          ctx.argumentText ext cfg f p =
            ext.matchTypePointers v.suffix p.originalSuffix ++ v.identifier) ∧
        (ctx.uniqueMatch p = none → ctx.argumentText ext cfg f p = f p))) := by
  unfold MemberContext.argumentText
  refine ⟨?_, ?_⟩
  · rintro ⟨h1, h2, h3⟩
    simp [h1, h2, h3]
  · intro hn
    have hc1 : (!ctx.disableSubstitution && p.type == "AllocationCallbacks" &&
        !cfg.allocatorParam) = false := by
      cases hd : ctx.disableSubstitution <;> cases ha : cfg.allocatorParam <;>
        by_cases ht : p.type = "AllocationCallbacks" <;> simp_all
    refine ⟨?_, ?_⟩
    · rintro ⟨h1, h2⟩
      simp [hc1, h1, h2]
    · intro hn2
      have hc2 : (!p.hasLengthVar && ctx.sameType p) = false := by
        cases hl : p.hasLengthVar <;> cases hs : ctx.sameType p <;> simp_all
      refine ⟨?_, ?_⟩
      · intro v hv
        simp [hc1, hc2, hv]
      · intro hv
        simp [hc1, hc2, hv]

/-! ## Enabling and disabling again -/

theorem rooted_fresh {N : Nat} {g : Graph N} (x : Fin N) (h : Fresh g) : Rooted x g := by
  refine ⟨?_, ?_⟩
  · intro m s hs
    rw [(h m).2] at hs
    simp at hs
  · intro m hm
    rw [(h m).1] at hm
    cases hm

theorem forDependencies_rooted {N : Nat} (x : Fin N) (fuel : Nat) (n : Fin N)
    (hsub : ∀ (g r : Graph N) (d : Fin N), subscribe fuel g d n = some r →
      Rooted x g → d ∈ (g n).dependencies → Rooted x r) :
    ∀ (ds : List (Fin N)) (g r : Graph N),
      forDependencies (subscribe fuel) n ds g = some r →
      (∀ d ∈ ds, d ∈ (g n).dependencies) → Rooted x g → Rooted x r := by
  intro ds
  induction ds with
  | nil =>
    intro g r h _ hR
    simp only [forDependencies, Option.some.injEq] at h
    exact h ▸ hR
  | cons d ds ih =>
    intro g r h hds hR
    simp only [forDependencies] at h
    have hrest : ∀ e ∈ ds, e ∈ (g n).dependencies :=
      fun e he => hds e (List.mem_cons_of_mem _ he)
    split at h
    · exact ih g r h hrest hR
    · cases hc : subscribe fuel g d n with
      | none => simp [hc] at h
      | some g1 =>
        simp only [hc, Option.some_bind] at h
        have hT : Toward true g g1 := subscribe_toward hc
        refine ih g1 r h ?_ (hsub g g1 d hc hR (hds d (List.mem_cons_self _ _)))
        intro e he
        rw [(hT n).1]
        exact hrest e he

/-- An enabling cascade keeps `Rooted`. -/
theorem enable_rooted {N : Nat} (x : Fin N) :
    ∀ (fuel : Nat) (g r : Graph N) (n : Fin N),
      (setEnabled fuel g n true = some r → Rooted x g →
        (n = x ∨ (g n).subscribers ≠ ∅) → Rooted x r) ∧
      (∀ s, subscribe fuel g n s = some r → Rooted x g →
        n ∈ (g s).dependencies → Rooted x r) := by
  intro fuel
  induction fuel with
  | zero =>
    intro g r n
    simp [setEnabled_zero, subscribe_zero]
  | succ fuel ih =>
    intro g r n
    refine ⟨?_, ?_⟩
    · intro h hR hn
      by_cases hg : (g n).enabled = true ∨ (g n).supported = false
      · rw [setEnabled_guard fuel g n true hg] at h
        cases h; exact hR
      · have he : (g n).enabled = false := by
          cases hen : (g n).enabled
          · rfl
          · exact absurd (Or.inl hen) hg
        have hs : (g n).supported = true := by
          cases hsup : (g n).supported
          · exact absurd (Or.inr hsup) hg
          · rfl
        rw [setEnabled_true fuel g n he hs] at h
        have hR1 : Rooted x (g.writeEnabled n true) := by
          refine ⟨?_, ?_⟩
          · intro m s hm
            simp only [writeEnabled_subscribers] at hm
            simp only [writeEnabled_dependencies]
            exact hR.1 m s hm
          · intro m hm
            simp only [writeEnabled_enabled] at hm
            simp only [writeEnabled_subscribers]
            by_cases hmn : m = n
            · exact hmn ▸ hn
            · simp only [hmn, if_false] at hm
              exact hR.2 m hm
        refine forDependencies_rooted x fuel n
          (fun a b d hab ha hd => (ih a b d).2 n hab ha hd) _ _ _ h ?_ hR1
        intro d hd
        simp only [writeEnabled_dependencies]
        exact hd
    · intro s h hR hns
      by_cases hin : s ∈ (g n).subscribers
      · rw [subscribe_present fuel g n s hin] at h
        cases h; exact hR
      · have hR1 : Rooted x (g.emplace n s) := by
          refine ⟨?_, ?_⟩
          · intro m t hm
            simp only [emplace_subscribers] at hm
            simp only [emplace_dependencies]
            by_cases hmn : m = n
            · simp only [hmn, if_true, Finset.mem_insert] at hm
              rcases hm with e | e
              · rw [hmn, e]; exact hns
              · rw [hmn]; exact hR.1 n t e
            · simp only [hmn, if_false] at hm
              exact hR.1 m t hm
          · intro m hm
            simp only [emplace_enabled] at hm
            simp only [emplace_subscribers]
            by_cases hmn : m = n
            · right
              simp only [hmn, if_true]
              exact Finset.insert_ne_empty _ _
            · simp only [hmn, if_false]
              exact hR.2 m hm
        by_cases hem : (g n).subscribers = ∅
        · rw [subscribe_first fuel g n s hem] at h
          refine (ih _ r n).1 h hR1 (Or.inr ?_)
          simp only [emplace_subscribers, if_true]
          exact Finset.insert_ne_empty _ _
        · rw [subscribe_more fuel g n s hin hem] at h
          cases h; exact hR1

theorem oneWay_fresh {N : Nat} {g : Graph N} (h : Fresh g) : OneWay g := by
  intro m s hs
  rw [(h m).2] at hs
  simp at hs

theorem forDependencies_oneWay {N : Nat} (fuel : Nat) (n : Fin N)
    (hsub : ∀ (g r : Graph N) (d : Fin N), subscribe fuel g d n = some r →
      OneWay g → d ∉ (g n).subscribers → OneWay r) :
    ∀ (ds : List (Fin N)) (g r : Graph N),
      forDependencies (subscribe fuel) n ds g = some r → OneWay g → OneWay r := by
  intro ds
  induction ds with
  | nil =>
    intro g r h hR
    simp only [forDependencies, Option.some.injEq] at h
    exact h ▸ hR
  | cons d ds ih =>
    intro g r h hR
    simp only [forDependencies] at h
    split at h
    · exact ih g r h hR
    · rename_i hd
      cases hc : subscribe fuel g d n with
      | none => simp [hc] at h
      | some g1 =>
        simp only [hc, Option.some_bind] at h
        exact ih g1 r h (hsub g g1 d hc hR hd)

/-- An enabling cascade never makes two distinct nodes subscribe to each
other: a node subscribes to a dependency only when the dependency is not one
of its subscribers. -/
theorem enable_oneWay {N : Nat} :
    ∀ (fuel : Nat) (g r : Graph N) (n : Fin N),
      (setEnabled fuel g n true = some r → OneWay g → OneWay r) ∧
      (∀ s, subscribe fuel g n s = some r → OneWay g →
        n ∉ (g s).subscribers → OneWay r) := by
  intro fuel
  induction fuel with
  | zero =>
    intro g r n
    simp [setEnabled_zero, subscribe_zero]
  | succ fuel ih =>
    intro g r n
    refine ⟨?_, ?_⟩
    · intro h hR
      by_cases hg : (g n).enabled = true ∨ (g n).supported = false
      · rw [setEnabled_guard fuel g n true hg] at h
        cases h; exact hR
      · have he : (g n).enabled = false := by
          cases hen : (g n).enabled
          · rfl
          · exact absurd (Or.inl hen) hg
        have hs : (g n).supported = true := by
          cases hsup : (g n).supported
          · exact absurd (Or.inr hsup) hg
          · rfl
        rw [setEnabled_true fuel g n he hs] at h
        have hR1 : OneWay (g.writeEnabled n true) := by
          intro m s hm hb
          simp only [writeEnabled_subscribers] at hm hb
          exact hR m s hm hb
        exact forDependencies_oneWay fuel n
          (fun a b d hab ha hd => (ih a b d).2 n hab ha hd) _ _ _ h hR1
    · intro s h hR hns
      by_cases hin : s ∈ (g n).subscribers
      · rw [subscribe_present fuel g n s hin] at h
        cases h; exact hR
      · have hR1 : OneWay (g.emplace n s) := by
          intro m t hm hb
          simp only [emplace_subscribers] at hm hb
          by_cases hmn : m = n
          · by_cases htn : t = n
            · rw [hmn, htn]
            · simp only [hmn, if_true, Finset.mem_insert] at hm
              simp only [htn, if_false] at hb
              rcases hm with e | e
              · rw [hmn, e] at hb
                exact absurd hb hns
              · rw [hmn] at hb ⊢
                exact hR n t e hb
          · simp only [hmn, if_false] at hm
            by_cases htn : t = n
            · simp only [htn, if_true, Finset.mem_insert] at hb
              rw [htn] at hm ⊢
              rcases hb with e | e
              · rw [e] at hm
                exact absurd hm hns
              · exact hR m n hm e
            · simp only [htn, if_false] at hb
              exact hR m t hm hb
        by_cases hem : (g n).subscribers = ∅
        · rw [subscribe_first fuel g n s hem] at h
          exact (ih _ r n).1 h hR1
        · rw [subscribe_more fuel g n s hin hem] at h
          cases h; exact hR1

theorem chain_targets {α : Type} {R : α → α → Prop} {P : α → Prop}
    (hP : ∀ p q, R p q → P q) :
    ∀ (l : List α) (a : α), List.Chain R a l → ∀ q ∈ l, P q := by
  intro l
  induction l with
  | nil => intro a _ q hq; simp at hq
  | cons b l ih =>
    intro a hc q hq
    rw [List.chain_cons] at hc
    rcases List.mem_cons.mp hq with e | e
    · rw [e]; exact hP a b hc.1
    · exact ih b hc.2 q e

theorem chain_sources {α : Type} {R : α → α → Prop} :
    ∀ (l : List α) (a : α), List.Chain R a l → ∀ q ∈ l, ∃ p ∈ a :: l, R p q := by
  intro l
  induction l with
  | nil => intro a _ q hq; simp at hq
  | cons b l ih =>
    intro a hc q hq
    rw [List.chain_cons] at hc
    rcases List.mem_cons.mp hq with e | e
    · exact ⟨a, List.mem_cons_self _ _, e ▸ hc.1⟩
    · obtain ⟨p, hp, hr⟩ := ih b hc.2 q e
      exact ⟨p, List.mem_cons_of_mem _ hp, hr⟩

/-- A relation on the nodes without a ring has a numbering along which it
grows: a node is numbered by how many nodes it does not reach. -/
theorem exists_rank {N : Nat} (R : Fin N → Fin N → Prop)
    (hno : ∀ (a : Fin N) (rest : List (Fin N)), ¬ List.Chain R a (rest ++ [a])) :
    ∃ depth : Fin N → Nat, ∀ p q, R p q → depth p < depth q := by
  classical
  have hirr : ∀ a, ¬ Relation.TransGen R a a := by
    intro a h
    obtain ⟨c, hac1, hca⟩ := Relation.TransGen.head'_iff.mp h
    obtain ⟨l, hl, hlast⟩ := List.exists_chain_of_relationReflTransGen hca
    have hsplit : c :: l = (c :: l).dropLast ++ [a] := by
      rw [← hlast]
      exact (List.dropLast_append_getLast _).symm
    apply hno a (c :: l).dropLast
    rw [← hsplit]
    exact List.Chain.cons hac1 hl
  refine ⟨fun m => N - (Finset.univ.filter (fun x => Relation.TransGen R m x)).card, ?_⟩
  intro m d hd
  have hsub : Finset.univ.filter (fun x => Relation.TransGen R d x) ⊂
      Finset.univ.filter (fun x => Relation.TransGen R m x) := by
    rw [Finset.ssubset_iff_of_subset]
    · refine ⟨d, ?_, ?_⟩
      · simp only [Finset.mem_filter, Finset.mem_univ, true_and]
        exact Relation.TransGen.single hd
      · simp only [Finset.mem_filter, Finset.mem_univ, true_and]
        exact hirr d
    · intro x hx
      simp only [Finset.mem_filter, Finset.mem_univ, true_and] at hx ⊢
      exact Relation.TransGen.head hd hx
  have hcard := Finset.card_lt_card hsub
  have hle : (Finset.univ.filter (fun x => Relation.TransGen R m x)).card ≤ N := by
    have := Finset.card_le_univ (Finset.univ.filter (fun x => Relation.TransGen R m x))
    simpa using this
  show N - _ < N - _
  omega

/-- In the state an enabling cascade from the fresh state has left, when the
node the cascade started on is not its own subscriber and no ring of
subscriptions avoids it, the disabling cascade started on the same node
releases every enabled node. -/
theorem released_of_ringless {N : Nat} {g1 : Graph N} {x : Fin N}
    (hR : Rooted x g1) (hO : OneWay g1)
    (hsubs : ∀ m s, s ∈ (g1 m).subscribers → (g1 s).enabled = true)
    (hsup : ∀ m, (g1 m).supported = true)
    (hself : x ∉ (g1 x).subscribers)
    (hring : ∀ (a : Fin N) (rest : List (Fin N)), IsRing g1 a rest → x ∈ a :: rest) :
    (∀ m s, s ∈ (g1 m).subscribers → m ∉ (g1 s).subscribers) ∧
    ∀ m, (g1 m).enabled = true → Released g1 x m := by
  have hone : ∀ m s, s ∈ (g1 m).subscribers → m ∉ (g1 s).subscribers := by
    intro m s hs hb
    have e := hO m s hs hb
    subst e
    by_cases hmx : m = x
    · subst hmx
      exact hself hs
    · have := hring m [] (List.Chain.cons hs List.Chain.nil)
      simp only [List.mem_singleton] at this
      exact hmx this.symm
  refine ⟨hone, ?_⟩
  obtain ⟨depth, hdepth⟩ := exists_rank
    (fun s d => s ∈ (g1 d).subscribers ∧ s ≠ x ∧ d ≠ x) (by
      intro a rest hc
      have hra : IsRing g1 a rest := List.Chain.imp (fun _ _ h => h.1) hc
      have hmem := hring a rest hra
      have hall : ∀ q ∈ rest ++ [a], q ≠ x :=
        chain_targets (fun p q (h : p ∈ (g1 q).subscribers ∧ p ≠ x ∧ q ≠ x) => h.2.2)
          (rest ++ [a]) a hc
      rcases List.mem_cons.mp hmem with e | e
      · exact hall a (by simp) e.symm
      · exact hall x (by simp [e]) rfl)
  have key : ∀ (k : Nat) (m : Fin N), depth m ≤ k → (g1 m).enabled = true →
      Released g1 x m := by
    intro k
    induction k with
    | zero =>
      intro m hk hm
      by_cases hmx : m = x
      · subst hmx
        exact Released.root hm (hsup m)
      · rcases hR.2 m hm with e | hne
        · exact absurd e hmx
        · refine Released.step m hm (hsup m) hne ?_ ?_
          · intro s hs
            by_cases hsx : s = x
            · subst hsx
              exact Released.root (hsubs m s hs) (hsup s)
            · have := hdepth s m ⟨hs, hsx, hmx⟩
              omega
          · intro s hs
            exact ⟨hR.1 m s hs, hone m s hs⟩
    | succ k ih =>
      intro m hk hm
      by_cases hmx : m = x
      · subst hmx
        exact Released.root hm (hsup m)
      · rcases hR.2 m hm with e | hne
        · exact absurd e hmx
        · refine Released.step m hm (hsup m) hne ?_ ?_
          · intro s hs
            by_cases hsx : s = x
            · subst hsx
              exact Released.root (hsubs m s hs) (hsup s)
            · have := hdepth s m ⟨hs, hsx, hmx⟩
              exact ih s (by omega) (hsubs m s hs)
          · intro s hs
            exact ⟨hR.1 m s hs, hone m s hs⟩
  exact fun m hm => key (depth m) m (Nat.le_refl _) hm

/-- A disabling cascade releases no node of a ring of subscriptions that
avoids the node it starts on. -/
theorem ring_not_released {N : Nat} {g1 : Graph N} {x : Fin N} {a : Fin N}
    {rest : List (Fin N)} (hring : IsRing g1 a rest) (hx : x ∉ a :: rest) :
    ∀ m, Released g1 x m → m ∉ a :: rest := by
  intro m hm
  induction hm with
  | root _ _ => exact hx
  | step d _ _ _ _ _ ih =>
    intro hd
    have hd2 : d ∈ rest ++ [a] := by
      rcases List.mem_cons.mp hd with e | e
      · simp [e]
      · simp [e]
    obtain ⟨p, hp, hpd⟩ := chain_sources (rest ++ [a]) a hring d hd2
    have hp2 : p ∈ a :: rest := by
      rcases List.mem_cons.mp hp with e | e
      · simp [e]
      · rcases List.mem_append.mp e with e2 | e2
        · exact List.mem_cons_of_mem _ e2
        · simp only [List.mem_singleton] at e2
          simp [e2]
    exact ih p hpd hp2

theorem reached_reflTransGen {N : Nat} {g : Graph N} {x m : Fin N} (h : Reached g x m) :
    Relation.ReflTransGen (fun p q => q ∈ (g p).dependencies) x m := by
  induction h with
  | root _ _ => exact Relation.ReflTransGen.refl
  | step m y _ hd _ _ _ _ ih => exact Relation.ReflTransGen.tail ih hd

/-! ## One call of `transformToProxy` -/

theorem getD_modify (f : VariableData → VariableData) (l : List VariableData) (i k : Nat) :
    (l.modify f i).getD k {} =
      if i = k ∧ k < l.length then f (l.getD k {}) else l.getD k {} := by
  simp only [List.getD_eq_getElem?_getD, List.getElem?_modify]
  by_cases hk : k < l.length
  · rw [List.getElem?_eq_getElem hk]
    by_cases hik : i = k <;> simp [hik, hk]
  · rw [List.getElem?_eq_none (by omega)]
    simp [hk]

theorem transformToProxy_none (ext : External) (ps : List VariableData) (j : Nat)
    (h : (ps.getD j {}).lengthVar = none) :
    MemberResolver.transformToProxy ext ps j = ps := by
  unfold MemberResolver.transformToProxy
  simp only [h]

theorem transformToProxy_length (ext : External) (ps : List VariableData) (j : Nat) :
    (MemberResolver.transformToProxy ext ps j).length = ps.length := by
  unfold MemberResolver.transformToProxy
  dsimp only
  split
  · rfl
  · simp only [List.length_modify]
    split <;> split <;> split <;> simp only [List.length_modify]

theorem transformToProxy_far (ext : External) (ps : List VariableData) (j c k : Nat)
    (h : (ps.getD j {}).lengthVar = some c) (hkj : k ≠ j) (hkc : k ≠ c) :
    (MemberResolver.transformToProxy ext ps j).getD k {} = ps.getD k {} := by
  unfold MemberResolver.transformToProxy
  simp only [h]
  have hjk : ¬ (j = k ∧ k < ps.length) := fun e => hkj e.1.symm
  have hck : ¬ (c = k ∧ k < ps.length) := fun e => hkc e.1.symm
  split <;> split <;> split <;>
    simp only [getD_modify, List.length_modify, hjk, hck, if_false,
      (fun e => hkj e.1.symm : ¬ (j = k ∧ k < ps.length)),
      (fun e => hkc e.1.symm : ¬ (c = k ∧ k < ps.length))]

theorem transformToProxy_count (ext : External) (ps : List VariableData) (j c : Nat)
    (h : (ps.getD j {}).lengthVar = some c) (hcj : c ≠ j) (hc : c < ps.length) :
    (MemberResolver.transformToProxy ext ps j).getD c {} =
      { ps.getD c {} with
        arrayVar := if (ps.getD c {}).arrayVar.isNone then some j
          else (ps.getD c {}).arrayVar,
        ignoreFlag := MemberResolver.countHidden (ps.getD j {}) (ps.getD c {}) } := by
  unfold MemberResolver.transformToProxy MemberResolver.countHidden
  simp only [h]
  have hjc : ¬ (j = c ∧ c < ps.length) := fun e => hcj e.1.symm
  have hcc : (c = c ∧ c < ps.length) := ⟨rfl, hc⟩
  split <;> split <;> split <;>
    simp only [getD_modify, List.length_modify, hjc, hcc, if_true, if_false] <;>
    generalize ps.getD c {} = vc at * <;>
    generalize ps.getD j {} = vj at * <;>
    cases vc <;> cases vj <;> simp_all

theorem transformToProxy_self (ext : External) (ps : List VariableData) (j c : Nat)
    (h : (ps.getD j {}).lengthVar = some c) (hcj : c ≠ j) (hj : j < ps.length) :
    (MemberResolver.transformToProxy ext ps j).getD j {} =
      ext.convertToArrayProxy
        (MemberResolver.retype (ps.getD j {}) (ps.getD c {}).originalIsPointer) := by
  unfold MemberResolver.transformToProxy
  simp only [h]
  have hcj2 : ¬ (c = j ∧ j < ps.length) := fun e => hcj e.1
  have hjj : (j = j ∧ j < ps.length) := ⟨rfl, hj⟩
  split <;> split <;> split <;>
    simp only [getD_modify, List.length_modify, hcj2, hj, (hcj : ¬ c = j), and_self,
      and_true, if_true, if_false]

/-- A call of `transformToProxy` on another parameter writes at most the
ignore flag and the bound array of a parameter. -/
theorem transformToProxy_other (ext : External) (ps : List VariableData) (j k : Nat)
    (hkj : k ≠ j) :
    ∃ (a : Option Nat) (f : Bool),
      (MemberResolver.transformToProxy ext ps j).getD k {} =
        { ps.getD k {} with arrayVar := a, ignoreFlag := f } := by
  cases h : (ps.getD j {}).lengthVar with
  | none =>
    rw [transformToProxy_none ext ps j h]
    exact ⟨_, _, rfl⟩
  | some c =>
    by_cases hkc : k = c
    · subst hkc
      by_cases hk : k < ps.length
      · rw [transformToProxy_count ext ps j k h hkj hk]
        exact ⟨_, _, rfl⟩
      · have h1 : (MemberResolver.transformToProxy ext ps j).getD k {} = {} := by
          apply List.getD_eq_default
          rw [transformToProxy_length]
          omega
        have h2 : ps.getD k {} = {} := List.getD_eq_default _ _ (by omega)
        rw [h1, h2]
        exact ⟨none, false, rfl⟩
    · rw [transformToProxy_far ext ps j c k h hkj hkc]
      exact ⟨_, _, rfl⟩
/-! ## The first loop of `transformMemberArguments` -/

theorem foldl_range_invariant {α : Type} (step : α → Nat → α) (P : Nat → α → Prop)
    (a : α) (n : Nat) (h0 : P 0 a)
    (hstep : ∀ j x, j < n → P j x → P (j + 1) (step x j)) :
    P n ((List.range n).foldl step a) := by
  have h : ∀ m, m ≤ n → P m ((List.range m).foldl step a) := by
    intro m
    induction m with
    | zero => intro _; simpa using h0
    | succ m ih =>
      intro hm
      rw [List.range_succ, List.foldl_append]
      exact hstep m _ (by omega) (ih (by omega))
  exact h n (Nat.le_refl n)

theorem proxyBase_zero (ps0 : List VariableData) : ProxyBase ps0 0 ps0 :=
  ⟨rfl, fun _ _ => ⟨_, _, rfl⟩⟩

theorem proxyBase_step (ext : External) (ps0 ps : List VariableData) (j : Nat)
    (h : ProxyBase ps0 j ps) :
    ProxyBase ps0 (j + 1) (MemberResolver.transformToProxy ext ps j) := by
  refine ⟨(transformToProxy_length ext ps j).trans h.1, ?_⟩
  intro k hk
  obtain ⟨a, f, hkf⟩ := h.2 k (by omega)
  obtain ⟨a2, f2, hk2⟩ := transformToProxy_other ext ps j k (by omega)
  rw [hk2, hkf]
  exact ⟨a2, f2, rfl⟩

theorem proxyBase_lengthVar {ps0 ps : List VariableData} {j : Nat}
    (h : ProxyBase ps0 j ps) :
    (ps.getD j {}).lengthVar = (ps0.getD j {}).lengthVar ∧
    (ps.getD j {}).originalType = (ps0.getD j {}).originalType ∧
    (ps.getD j {}).lenAttribIndirect = (ps0.getD j {}).lenAttribIndirect := by
  obtain ⟨a, f, hkf⟩ := h.2 j (Nat.le_refl j)
  rw [hkf]
  exact ⟨rfl, rfl, rfl⟩

/-- A parameter that has no bound length and is not the bound length of a
parameter comes out of the first loop as it went in. -/
theorem proxyLoop_untouched (ext : External) (ps0 : List VariableData) (k : Nat)
    (hk : (ps0.getD k {}).lengthVar = none)
    (hfree : ∀ j, (ps0.getD j {}).lengthVar ≠ some k) :
    (MemberResolver.proxyLoop ext ps0).getD k {} = ps0.getD k {} := by
  unfold MemberResolver.proxyLoop
  have h := foldl_range_invariant (MemberResolver.transformToProxy ext)
    (fun j ps => ProxyBase ps0 j ps ∧ ps.getD k {} = ps0.getD k {}) ps0 ps0.length
    ⟨proxyBase_zero ps0, rfl⟩ ?_
  · exact h.2
  · intro j ps _ hP
    refine ⟨proxyBase_step ext ps0 ps j hP.1, ?_⟩
    have hL := (proxyBase_lengthVar hP.1).1
    cases hl : (ps0.getD j {}).lengthVar with
    | none =>
      rw [transformToProxy_none ext ps j (hL.trans hl)]
      exact hP.2
    | some c =>
      have hkc : k ≠ c := fun e => hfree j (e ▸ hl)
      have hkj : k ≠ j := by
        intro e
        rw [← e, hk] at hl
        cases hl
      rw [transformToProxy_far ext ps j c k (hL.trans hl) hkj hkc]
      exact hP.2

theorem map_modify_of_keeps {β : Type} (f : VariableData → β)
    (g : VariableData → VariableData) (hg : ∀ v, f (g v) = f v) :
    ∀ (l : List VariableData) (i : Nat), (l.modify g i).map f = l.map f := by
  intro l
  induction l with
  | nil => intro i; simp
  | cons a l ih =>
    intro i
    cases i with
    | zero => simp [hg]
    | succ i => simp [ih]

theorem retype_ignoreFlag (v : VariableData) (b : Bool) :
    (MemberResolver.retype v b).ignoreFlag = v.ignoreFlag := by
  unfold MemberResolver.retype
  split
  · split <;> rfl
  · rfl

theorem retype_originalIsPointer (v : VariableData) (b : Bool) :
    (MemberResolver.retype v b).originalIsPointer = v.originalIsPointer := by
  unfold MemberResolver.retype
  split
  · split <;> rfl
  · rfl

theorem retype_flags (v : VariableData) (b : Bool) (a : Option Nat) (f : Bool) :
    { MemberResolver.retype v b with arrayVar := a, ignoreFlag := f } =
      MemberResolver.retype { v with arrayVar := a, ignoreFlag := f } b := by
  unfold MemberResolver.retype
  dsimp only
  split
  · split <;> rfl
  · rfl

theorem getD_of_map_eq {β : Type} (f : VariableData → β) (l1 l2 : List VariableData)
    (h : l1.map f = l2.map f) (k : Nat) : f (l1.getD k {}) = f (l2.getD k {}) := by
  have hlen : l1.length = l2.length := by
    have := congrArg List.length h
    simpa using this
  by_cases hk : k < l2.length
  · have h1 : (l1.map f)[k]? = (l2.map f)[k]? := by rw [h]
    simp only [List.getElem?_map, List.getElem?_eq_getElem hk,
      List.getElem?_eq_getElem (hlen ▸ hk), Option.map_some', Option.some.injEq] at h1
    simp only [List.getD_eq_getElem?_getD, List.getElem?_eq_getElem hk,
      List.getElem?_eq_getElem (hlen ▸ hk), Option.getD_some]
    exact h1
  · rw [List.getD_eq_default _ _ (by omega), List.getD_eq_default _ _ (by omega)]

/-- A call of `transformToProxy` leaves what the registry says of every
parameter being a pointer, when the conversion to an array proxy does. -/
theorem transformToProxy_originalIsPointer (ext : External)
    (horig : ∀ v, (ext.convertToArrayProxy v).originalIsPointer = v.originalIsPointer)
    (ps : List VariableData) (j k : Nat) :
    ((MemberResolver.transformToProxy ext ps j).getD k {}).originalIsPointer =
      (ps.getD k {}).originalIsPointer := by
  apply getD_of_map_eq (fun v => v.originalIsPointer)
  unfold MemberResolver.transformToProxy
  dsimp only
  have h1 : ∀ (l : List VariableData) (i : Nat) (a : Option Nat),
      (l.modify (fun v => { v with arrayVar := a }) i).map (fun v => v.originalIsPointer) =
        l.map (fun v => v.originalIsPointer) :=
    fun l i a => map_modify_of_keeps (fun v => v.originalIsPointer)
      (fun v => { v with arrayVar := a }) (fun _ => rfl) l i
  have h2 : ∀ (l : List VariableData) (i : Nat) (b : Bool),
      (l.modify (fun v => { v with ignoreFlag := b }) i).map (fun v => v.originalIsPointer) =
        l.map (fun v => v.originalIsPointer) :=
    fun l i b => map_modify_of_keeps (fun v => v.originalIsPointer)
      (fun v => { v with ignoreFlag := b }) (fun _ => rfl) l i
  have h3 : ∀ (l : List VariableData) (i : Nat) (b : Bool),
      (l.modify (fun v => MemberResolver.retype v b) i).map (fun v => v.originalIsPointer) =
        l.map (fun v => v.originalIsPointer) :=
    fun l i b => map_modify_of_keeps (fun v => v.originalIsPointer)
      (fun v => MemberResolver.retype v b) (fun v => retype_originalIsPointer v b) l i
  have h4 : ∀ (l : List VariableData) (i : Nat),
      (l.modify ext.convertToArrayProxy i).map (fun v => v.originalIsPointer) =
        l.map (fun v => v.originalIsPointer) :=
    fun l i => map_modify_of_keeps (fun v => v.originalIsPointer)
      ext.convertToArrayProxy horig l i
  split
  · rfl
  · split <;> split <;> split <;> simp only [h1, h2, h3, h4]

/-- A call of `transformToProxy` on a parameter that is its own bound length. -/
theorem transformToProxy_own (ext : External) (ps : List VariableData) (j : Nat)
    (h : (ps.getD j {}).lengthVar = some j) (hj : j < ps.length) :
    (MemberResolver.transformToProxy ext ps j).getD j {} =
      ext.convertToArrayProxy
        (MemberResolver.retype
          { ps.getD j {} with
            arrayVar := if (ps.getD j {}).arrayVar.isNone then some j
              else (ps.getD j {}).arrayVar,
            ignoreFlag := MemberResolver.countHidden (ps.getD j {}) (ps.getD j {}) }
          (ps.getD j {}).originalIsPointer) := by
  unfold MemberResolver.transformToProxy MemberResolver.countHidden
  simp only [h]
  have hjj : (j = j ∧ j < ps.length) := ⟨rfl, hj⟩
  split <;> split <;> split <;>
    simp only [getD_modify, List.length_modify, hjj, hj, and_self, if_true] <;>
    congr 1 <;>
    unfold MemberResolver.retype <;>
    generalize ps.getD j {} = vj at * <;>
    cases vj <;> simp_all

/-- The ignore flag of the parameter at position `c` after a call of
`transformToProxy` on a parameter bound to `c`. -/
theorem transformToProxy_bound_flag (ext : External) (hk : ext.KeepsFlags)
    (ps : List VariableData) (j c : Nat)
    (h : (ps.getD j {}).lengthVar = some c) (hc : c < ps.length) :
    ((MemberResolver.transformToProxy ext ps j).getD c {}).ignoreFlag =
      MemberResolver.countHidden (ps.getD j {}) (ps.getD c {}) := by
  by_cases hcj : c = j
  · subst hcj
    rw [transformToProxy_own ext ps c h hc, (hk.proxy _).1, retype_ignoreFlag]
  · rw [transformToProxy_count ext ps j c h hcj hc]

/-- The ignore flag of the parameter at position `c` after a call of
`transformToProxy` on a parameter not bound to `c`. -/
theorem transformToProxy_unbound_flag (ext : External) (hk : ext.KeepsFlags)
    (ps : List VariableData) (j c : Nat)
    (h : (ps.getD j {}).lengthVar ≠ some c) :
    ((MemberResolver.transformToProxy ext ps j).getD c {}).ignoreFlag =
      (ps.getD c {}).ignoreFlag := by
  cases hl : (ps.getD j {}).lengthVar with
  | none => rw [transformToProxy_none ext ps j hl]
  | some cj =>
    have hne : c ≠ cj := fun e => h (e ▸ hl)
    by_cases hcj : c = j
    · subst hcj
      by_cases hcl : c < ps.length
      · rw [transformToProxy_self ext ps c cj hl (Ne.symm hne) hcl, (hk.proxy _).1,
          retype_ignoreFlag]
      · rw [List.getD_eq_default _ _ (by rw [transformToProxy_length]; omega),
          List.getD_eq_default _ _ (by omega)]
    · rw [transformToProxy_far ext ps j cj c hl hcj hne]

/-- The ignore flag of a parameter after the first loop. -/
theorem proxyLoop_flag (ext : External) (hk : ext.KeepsFlags)
    (horig : ∀ v, (ext.convertToArrayProxy v).originalIsPointer = v.originalIsPointer)
    (ps0 : List VariableData) (c : Nat) (hc : c < ps0.length) :
    ((MemberResolver.proxyLoop ext ps0).getD c {}).ignoreFlag =
      MemberResolver.hiddenAfter ps0 c := by
  unfold MemberResolver.proxyLoop MemberResolver.hiddenAfter
  have h := foldl_range_invariant (MemberResolver.transformToProxy ext)
    (fun j ps => ProxyBase ps0 j ps ∧
      (ps.getD c {}).originalIsPointer = (ps0.getD c {}).originalIsPointer ∧
      (ps.getD c {}).ignoreFlag =
        (List.range j).foldl
          (fun f j =>
            if (ps0.getD j {}).lengthVar = some c then
              MemberResolver.countHidden (ps0.getD j {})
                { ps0.getD c {} with ignoreFlag := f }
            else f)
          (ps0.getD c {}).ignoreFlag) ps0 ps0.length
    ⟨proxyBase_zero ps0, rfl, by simp⟩ ?_
  · exact h.2.2
  · intro j ps _ hP
    obtain ⟨hB, hptr, hflag⟩ := hP
    have hL := proxyBase_lengthVar hB
    refine ⟨proxyBase_step ext ps0 ps j hB, ?_, ?_⟩
    · rw [transformToProxy_originalIsPointer ext horig]
      exact hptr
    · rw [List.range_succ, List.foldl_append]
      simp only [List.foldl_cons, List.foldl_nil]
      by_cases hb : (ps0.getD j {}).lengthVar = some c
      · rw [if_pos hb,
          transformToProxy_bound_flag ext hk ps j c (hL.1.trans hb) (by rw [hB.1]; exact hc)]
        unfold MemberResolver.countHidden
        dsimp only
        rw [hL.2.1, hL.2.2, hptr, hflag]
        rfl
      · rw [if_neg hb, transformToProxy_unbound_flag ext hk ps j c (by rw [hL.1]; exact hb)]
        exact hflag

/-- A parameter with a bound length comes out of the first loop converted to
an array proxy, after an array of `void` has got its type; the ignore flag and
the bound array it carries are those that calls of `transformToProxy` on
other parameters have written. -/
theorem proxyLoop_view (ext : External)
    (horig : ∀ v, (ext.convertToArrayProxy v).originalIsPointer = v.originalIsPointer)
    (ps0 : List VariableData) (i c : Nat) (hil : i < ps0.length)
    (hi : (ps0.getD i {}).lengthVar = some c) :
    ∃ (a0 : Option Nat) (f0 : Bool) (a : Option Nat) (f : Bool),
      (MemberResolver.proxyLoop ext ps0).getD i {} =
        { ext.convertToArrayProxy
            (MemberResolver.retype { ps0.getD i {} with arrayVar := a0, ignoreFlag := f0 }
              (ps0.getD c {}).originalIsPointer) with
          arrayVar := a, ignoreFlag := f } := by
  unfold MemberResolver.proxyLoop
  have h := foldl_range_invariant (MemberResolver.transformToProxy ext)
    (fun j ps => ProxyBase ps0 j ps ∧
      (ps.getD c {}).originalIsPointer = (ps0.getD c {}).originalIsPointer ∧
      (i < j → ∃ (a0 : Option Nat) (f0 : Bool) (a : Option Nat) (f : Bool),
        ps.getD i {} =
          { ext.convertToArrayProxy
              (MemberResolver.retype { ps0.getD i {} with arrayVar := a0, ignoreFlag := f0 }
                (ps0.getD c {}).originalIsPointer) with
            arrayVar := a, ignoreFlag := f })) ps0 ps0.length
    ⟨proxyBase_zero ps0, rfl, fun h => absurd h (Nat.not_lt_zero _)⟩ ?_
  · exact h.2.2 hil
  · intro j ps _ hP
    obtain ⟨hB, hptr, hafter⟩ := hP
    have hL := proxyBase_lengthVar hB
    refine ⟨proxyBase_step ext ps0 ps j hB, ?_, ?_⟩
    · rw [transformToProxy_originalIsPointer ext horig]
      exact hptr
    · intro hlt
      by_cases hji : j = i
      · subst hji
        have hjl : j < ps.length := by rw [hB.1]; exact hil
        obtain ⟨a1, f1, hv⟩ := hB.2 j (Nat.le_refl j)
        by_cases hcj : c = j
        · subst hcj
          rw [transformToProxy_own ext ps c (hL.1.trans hi) hjl, hv]
          exact ⟨_, _, _, _, rfl⟩
        · rw [transformToProxy_self ext ps j c (hL.1.trans hi) hcj hjl, hptr, hv]
          exact ⟨_, _, _, _, rfl⟩
      · obtain ⟨a0, f0, a, f, hv⟩ := hafter (by omega)
        obtain ⟨a2, f2, h2⟩ := transformToProxy_other ext ps j i (Ne.symm hji)
        rw [h2, hv]
        exact ⟨a0, f0, a2, f2, rfl⟩

/-- The array parameter `i`, when it is not the bound length of a parameter,
comes out of the first loop retyped, if it is an array of `void`, and
converted to an array proxy. -/
theorem proxyLoop_plain_view (ext : External)
    (horig : ∀ v, (ext.convertToArrayProxy v).originalIsPointer = v.originalIsPointer)
    (ps0 : List VariableData) (i c : Nat)
    (hil : i < ps0.length)
    (hi : (ps0.getD i {}).lengthVar = some c)
    (hfree : ∀ j, (ps0.getD j {}).lengthVar ≠ some i) :
    (MemberResolver.proxyLoop ext ps0).getD i {} =
      ext.convertToArrayProxy
        (MemberResolver.retype (ps0.getD i {}) (ps0.getD c {}).originalIsPointer) := by
  have hci : c ≠ i := fun e => hfree i (e ▸ hi)
  unfold MemberResolver.proxyLoop
  have h := foldl_range_invariant (MemberResolver.transformToProxy ext)
    (fun j ps => ProxyBase ps0 j ps ∧
      (ps.getD c {}).originalIsPointer = (ps0.getD c {}).originalIsPointer ∧
      (i < j → ps.getD i {} =
        ext.convertToArrayProxy
          (MemberResolver.retype (ps0.getD i {}) (ps0.getD c {}).originalIsPointer)) ∧
      (j ≤ i → ps.getD i {} = ps0.getD i {})) ps0 ps0.length
    ⟨proxyBase_zero ps0, rfl, fun h => absurd h (Nat.not_lt_zero _), fun _ => rfl⟩ ?_
  · exact h.2.2.1 hil
  · intro j ps _ hP
    obtain ⟨hB, hptr, hafter, hbefore⟩ := hP
    have hL := proxyBase_lengthVar hB
    refine ⟨proxyBase_step ext ps0 ps j hB, ?_, ?_⟩
    · rw [transformToProxy_originalIsPointer ext horig]
      exact hptr
    · by_cases hji : j = i
      · subst hji
        have hjl : j < ps.length := by rw [hB.1]; exact hil
        refine ⟨fun _ => ?_, fun hle => absurd hle (by omega)⟩
        rw [transformToProxy_self ext ps j c (hL.1.trans hi) hci hjl,
          hbefore (Nat.le_refl j), hptr]
      · have hkeep : (MemberResolver.transformToProxy ext ps j).getD i {} = ps.getD i {} := by
          cases hl : (ps0.getD j {}).lengthVar with
          | none => rw [transformToProxy_none ext ps j (hL.1.trans hl)]
          | some cj =>
            have hicj : i ≠ cj := fun e => hfree j (e ▸ hl)
            exact transformToProxy_far ext ps j cj i (hL.1.trans hl) (Ne.symm hji) hicj
        refine ⟨fun hlt => ?_, fun hle => ?_⟩
        · rw [hkeep]
          exact hafter (by omega)
        · rw [hkeep]
          exact hbefore (by omega)

/-- When no parameter bound to `c` is an array of `void` with a by-value
length, the flag comes out set exactly when it was set before or a parameter
bound to `c` has a direct length relationship. -/
theorem hiddenAfter_direct (ps0 : List VariableData) (c : Nat)
    (hvoid : ∀ j, j < ps0.length → (ps0.getD j {}).lengthVar = some c →
      ¬ ((ps0.getD j {}).originalType = "void" ∧
        (ps0.getD c {}).originalIsPointer = false)) :
    MemberResolver.hiddenAfter ps0 c = true ↔
      (ps0.getD c {}).ignoreFlag = true ∨
      ∃ j, j < ps0.length ∧ (ps0.getD j {}).lengthVar = some c ∧
        (ps0.getD j {}).lenAttribIndirect = false := by
  unfold MemberResolver.hiddenAfter
  have h := foldl_range_invariant
    (fun f j =>
      if (ps0.getD j {}).lengthVar = some c then
        MemberResolver.countHidden (ps0.getD j {}) { ps0.getD c {} with ignoreFlag := f }
      else f)
    (fun n f => f = true ↔ (ps0.getD c {}).ignoreFlag = true ∨
      ∃ j, j < n ∧ (ps0.getD j {}).lengthVar = some c ∧
        (ps0.getD j {}).lenAttribIndirect = false)
    (ps0.getD c {}).ignoreFlag ps0.length (by simp) ?_
  · exact h
  · intro j f hj hP
    dsimp only
    by_cases hb : (ps0.getD j {}).lengthVar = some c
    · rw [if_pos hb]
      have hv := hvoid j hj hb
      unfold MemberResolver.countHidden
      dsimp only
      have hv2 : ((ps0.getD j {}).originalType == "void" &&
          !(ps0.getD c {}).originalIsPointer) = false := by
        cases h1 : ((ps0.getD j {}).originalType == "void")
        · rfl
        · cases h2 : (ps0.getD c {}).originalIsPointer
          · exact absurd ⟨by simpa using h1, h2⟩ hv
          · rfl
      rw [hv2]
      simp only [Bool.false_eq_true, if_false]
      cases hind : (ps0.getD j {}).lenAttribIndirect
      · simp only [Bool.not_false, if_true, true_iff]
        exact Or.inr ⟨j, Nat.lt_succ_self j, hb, hind⟩
      · simp only [Bool.not_true, Bool.false_eq_true, if_false]
        rw [hP]
        constructor
        · rintro (h0 | ⟨k, hk, hkb, hki⟩)
          · exact Or.inl h0
          · exact Or.inr ⟨k, by omega, hkb, hki⟩
        · rintro (h0 | ⟨k, hk, hkb, hki⟩)
          · exact Or.inl h0
          · by_cases hkj : k = j
            · rw [hkj, hind] at hki
              cases hki
            · exact Or.inr ⟨k, by omega, hkb, hki⟩
    · rw [if_neg hb, hP]
      constructor
      · rintro (h0 | ⟨k, hk, hkb, hki⟩)
        · exact Or.inl h0
        · exact Or.inr ⟨k, by omega, hkb, hki⟩
      · rintro (h0 | ⟨k, hk, hkb, hki⟩)
        · exact Or.inl h0
        · by_cases hkj : k = j
          · rw [hkj] at hkb
            exact absurd hkb hb
          · exact Or.inr ⟨k, by omega, hkb, hki⟩

/-- When the last parameter bound to `c` is an array of `void` and `c` is
passed by value, the flag comes out clear. -/
theorem hiddenAfter_void (ps0 : List VariableData) (i c : Nat) (hil : i < ps0.length)
    (hi : (ps0.getD i {}).lengthVar = some c)
    (hlast : ∀ j, i < j → (ps0.getD j {}).lengthVar ≠ some c)
    (hvoid : (ps0.getD i {}).originalType = "void")
    (hval : (ps0.getD c {}).originalIsPointer = false) :
    MemberResolver.hiddenAfter ps0 c = false := by
  unfold MemberResolver.hiddenAfter
  have h := foldl_range_invariant
    (fun f j =>
      if (ps0.getD j {}).lengthVar = some c then
        MemberResolver.countHidden (ps0.getD j {}) { ps0.getD c {} with ignoreFlag := f }
      else f)
    (fun n f => i < n → f = false)
    (ps0.getD c {}).ignoreFlag ps0.length (fun h => absurd h (Nat.not_lt_zero _)) ?_
  · exact h hil
  · intro j f _ hP hlt
    dsimp only
    by_cases hji : j = i
    · subst hji
      rw [if_pos hi]
      unfold MemberResolver.countHidden
      dsimp only
      simp only [hvoid, hval, beq_self_eq_true, Bool.not_false, Bool.and_self, if_true]
    · rw [if_neg (hlast j (by omega))]
      exact hP (by omega)

theorem proxyLoop_length (ext : External) (ps0 : List VariableData) :
    (MemberResolver.proxyLoop ext ps0).length = ps0.length := by
  unfold MemberResolver.proxyLoop
  exact foldl_range_invariant (MemberResolver.transformToProxy ext)
    (fun _ ps => ps.length = ps0.length) ps0 ps0.length rfl
    (fun j ps _ h => (transformToProxy_length ext ps j).trans h)

theorem getD_map_lt (f : VariableData → VariableData) (l : List VariableData) (k : Nat)
    (hk : k < l.length) : (l.map f).getD k {} = f (l.getD k {}) := by
  simp only [List.getD_eq_getElem?_getD, List.getElem?_map, List.getElem?_eq_getElem hk,
    Option.map_some', Option.getD_some]
/-! ## The second loop of `transformMemberArguments` -/

/-- With `strFirstLower` lowering the first character, the lambda
`convertName` renames as `stripStartingP` does. -/
theorem convertName_identifier (ext : External)
    (hlower : ∀ s, ext.strFirstLower s = strFirstLower s) (v : VariableData) :
    (MemberResolver.convertName ext v).identifier = stripStartingP v.identifier := by
  unfold MemberResolver.convertName stripStartingP isPointerToCArray
  cases hd : v.identifier.data with
  | nil => simp
  | cons c0 t =>
    cases t with
    | nil => simp
    | cons c1 rest =>
      simp only
      split
      · simp only [hlower, strFirstLower]
      · rfl

theorem convertName_ignoreFlag (ext : External) (v : VariableData) :
    (MemberResolver.convertName ext v).ignoreFlag = v.ignoreFlag := by
  unfold MemberResolver.convertName
  split
  · split <;> rfl
  · rfl

theorem raiiStep_ignoreFlag (ext : External) (hk : ext.KeepsFlags) (handles : Handles)
    (ctx : MemberContext) (q : VariableData) :
    (MemberResolver.raiiStep ext handles ctx q).ignoreFlag = q.ignoreFlag := by
  unfold MemberResolver.raiiStep
  split
  · split
    · rw [convertName_ignoreFlag, (hk.raii q).1]
    · rfl
  · rfl

theorem transformParam_ignoreFlag (ext : External) (hk : ext.KeepsFlags)
    (handles : Handles) (ctx : MemberContext) (q : VariableData) :
    (MemberResolver.transformParam ext handles ctx q).ignoreFlag = q.ignoreFlag := by
  unfold MemberResolver.transformParam
  dsimp only
  split
  · rw [convertName_ignoreFlag, raiiStep_ignoreFlag ext hk]
  · split
    · rw [convertName_ignoreFlag, (hk.const _ _).1, (hk.reference _).1,
        raiiStep_ignoreFlag ext hk]
    · exact raiiStep_ignoreFlag ext hk handles ctx q

theorem raiiStep_identifier (ext : External) (hk : ext.KeepsFlags)
    (hlower : ∀ s, ext.strFirstLower s = strFirstLower s) (handles : Handles)
    (ctx : MemberContext) (q : VariableData) :
    (MemberResolver.raiiStep ext handles ctx q).identifier =
      stripStartingP^[if MemberResolver.raiiCreates ctx && handles.isHandle q.originalType
        then 1 else 0] q.identifier := by
  unfold MemberResolver.raiiStep
  cases h1 : MemberResolver.raiiCreates ctx
  · simp
  · cases h2 : handles.isHandle q.originalType
    · simp
    · simp [convertName_identifier ext hlower, (hk.raii q).2]

theorem transformParam_identifier (ext : External) (hk : ext.KeepsFlags)
    (hlower : ∀ s, ext.strFirstLower s = strFirstLower s) (handles : Handles)
    (ctx : MemberContext) (q : VariableData) :
    (MemberResolver.transformParam ext handles ctx q).identifier =
      stripStartingP^[MemberResolver.renameCount ext handles ctx q] q.identifier := by
  unfold MemberResolver.transformParam MemberResolver.renameCount
  dsimp only
  rw [Nat.add_comm, Function.iterate_add_apply, ← raiiStep_identifier ext hk hlower]
  cases h1 : ext.isArray (MemberResolver.raiiStep ext handles ctx q)
  · cases h2 : ext.isStructOrUnion (MemberResolver.raiiStep ext handles ctx q).originalType
    · simp
    · simp [convertName_identifier ext hlower, (hk.const _ _).2, (hk.reference _).2]
  · simp [convertName_identifier ext hlower]

theorem transformToProxy_identifiers (ext : External) (hk : ext.KeepsFlags)
    (ps : List VariableData) (j : Nat) :
    (MemberResolver.transformToProxy ext ps j).map (fun v => v.identifier) =
      ps.map (fun v => v.identifier) := by
  unfold MemberResolver.transformToProxy
  dsimp only
  have hretype : ∀ (b : Bool) (v : VariableData),
      (MemberResolver.retype v b).identifier = v.identifier := by
    intro b v
    unfold MemberResolver.retype
    split
    · split <;> rfl
    · rfl
  have h1 : ∀ (l : List VariableData) (i : Nat) (a : Option Nat),
      (l.modify (fun v => { v with arrayVar := a }) i).map (fun v => v.identifier) =
        l.map (fun v => v.identifier) :=
    fun l i a => map_modify_of_keeps (fun v => v.identifier)
      (fun v => { v with arrayVar := a }) (fun _ => rfl) l i
  have h2 : ∀ (l : List VariableData) (i : Nat) (b : Bool),
      (l.modify (fun v => { v with ignoreFlag := b }) i).map (fun v => v.identifier) =
        l.map (fun v => v.identifier) :=
    fun l i b => map_modify_of_keeps (fun v => v.identifier)
      (fun v => { v with ignoreFlag := b }) (fun _ => rfl) l i
  have h3 : ∀ (l : List VariableData) (i : Nat) (b : Bool),
      (l.modify (fun v => MemberResolver.retype v b) i).map (fun v => v.identifier) =
        l.map (fun v => v.identifier) :=
    fun l i b => map_modify_of_keeps (fun v => v.identifier)
      (fun v => MemberResolver.retype v b) (hretype b) l i
  have h4 : ∀ (l : List VariableData) (i : Nat),
      (l.modify ext.convertToArrayProxy i).map (fun v => v.identifier) =
        l.map (fun v => v.identifier) :=
    fun l i => map_modify_of_keeps (fun v => v.identifier)
      ext.convertToArrayProxy (fun v => (hk.proxy v).2) l i
  split
  · rfl
  · split <;> split <;> split <;> simp only [h1, h2, h3, h4]

theorem proxyLoop_identifiers (ext : External) (hk : ext.KeepsFlags)
    (ps0 : List VariableData) :
    (MemberResolver.proxyLoop ext ps0).map (fun v => v.identifier) =
      ps0.map (fun v => v.identifier) := by
  unfold MemberResolver.proxyLoop
  exact foldl_range_invariant (MemberResolver.transformToProxy ext)
    (fun _ ps => ps.map (fun v => v.identifier) = ps0.map (fun v => v.identifier))
    ps0 ps0.length rfl
    (fun j ps _ h => (transformToProxy_identifiers ext hk ps j).trans h)

theorem plainExternal_keepsFlags : plainExternal.KeepsFlags :=
  ⟨fun _ => ⟨rfl, rfl⟩, fun _ => ⟨rfl, rfl⟩, fun _ => ⟨rfl, rfl⟩, fun _ _ => ⟨rfl, rfl⟩⟩

theorem getD_identifier_of_map_eq (l1 l2 : List VariableData)
    (h : l1.map (fun v => v.identifier) = l2.map (fun v => v.identifier)) (k : Nat)
    (hk : k < l2.length) :
    (l1.getD k {}).identifier = (l2.getD k {}).identifier := by
  have hlen : l1.length = l2.length := by
    have := congrArg List.length h
    simpa using this
  have h1 : (l1.map (fun v => v.identifier))[k]? = (l2.map (fun v => v.identifier))[k]? := by
    rw [h]
  simp only [List.getElem?_map, List.getElem?_eq_getElem hk,
    List.getElem?_eq_getElem (hlen ▸ hk), Option.map_some', Option.some.injEq] at h1
  simp only [List.getD_eq_getElem?_getD, List.getElem?_eq_getElem hk,
    List.getElem?_eq_getElem (hlen ▸ hk), Option.getD_some]
  exact h1

theorem stripStartingP_cases :
    (∀ id : String, isPointerToCArray id = false → stripStartingP id = id) ∧
    (∀ (c1 : Char) (rest : List Char), c1.isUpper = true →
      stripStartingP (String.mk ('p' :: c1 :: rest)) = String.mk (c1.toLower :: rest)) ∧
    (∀ id : String, isPointerToCArray id = true ↔
      ∃ (c1 : Char) (rest : List Char), c1.isUpper = true ∧
        id = String.mk ('p' :: c1 :: rest)) := by
  refine ⟨?_, ?_, ?_⟩
  · intro id h
    simp [stripStartingP, h]
  · intro c1 rest h
    simp [stripStartingP, isPointerToCArray, h]
  · intro id
    unfold isPointerToCArray
    constructor
    · intro h
      cases hd : id.data with
      | nil => simp [hd] at h
      | cons c0 t =>
        cases t with
        | nil => simp [hd] at h
        | cons c1 rest =>
          simp only [hd, Bool.and_eq_true, beq_iff_eq] at h
          refine ⟨c1, rest, h.2, ?_⟩
          apply String.ext
          rw [hd, h.1]
    · rintro ⟨c1, rest, hc, rfl⟩
      simp [hc]

/-! ## The claims -/

/-- C1: for every node in every state, `canGenerate()` equals
`supported && (enabled || !subscribers.empty() || forceRequired)` and
`isRequired()` equals `!subscribers.empty() || forceRequired`. -/
theorem canGenerate_isRequired_formula {N : Nat} (g : Graph N) (n : Fin N) :
    (g n).canGenerate =
      ((g n).supported &&
        ((g n).enabled || !decide ((g n).subscribers = ∅) || (g n).forceRequired)) ∧
    (g n).isRequired = (!decide ((g n).subscribers = ∅) || (g n).forceRequired) := by
  simp [BaseType.canGenerate, BaseType.isRequired, Bool.or_assoc]

/-- C2, as stated, fails: in the chain 0 → 1 → 2, freshly parsed and without
forced nodes, `setEnabled(true)` on node 1, `setEnabled(true)` on node 0 and
`setEnabled(false)` on node 1 lead to a state where node 1 can be generated
(node 0 still subscribes to it) while its supported dependency node 2 cannot. -/
theorem generated_node_loses_dependency :
    Fresh chain3 ∧ (∀ m, (chain3 m).forceRequired = false) ∧
    ∃ g, runCalls 8 [.setEnabled 1 true, .setEnabled 0 true, .setEnabled 1 false] chain3
        = some g ∧
      g = chain3Released ∧ (g 1).canGenerate = true ∧ 2 ∈ (g 1).dependencies ∧
      (g 2).supported = true ∧ (g 2).canGenerate = false :=
  ⟨by decide, by decide, (endsIn_iff _ _).mp (by decide)⟩

/-- C2, amended: in every state reached from a freshly parsed registry without
forced nodes by a sequence of `setEnabled(true)` calls, whenever a node can be
generated every supported dependency of it can be generated too. -/
theorem enabling_keeps_dependencies_generated {N : Nat} (g : Graph N)
    (xs : List (Fin N)) (fuel : Nat) (hfresh : Fresh g)
    (hforce : ∀ m, (g m).forceRequired = false) (hfuel : 2 * N + 2 ≤ fuel) :
    ∃ g2, runCalls fuel (xs.map (fun x => Call.setEnabled x true)) g = some g2 ∧
      ∀ n d, (g2 n).canGenerate = true → d ∈ (g2 n).dependencies →
        (g2 d).supported = true → (g2 d).canGenerate = true := by
  obtain ⟨g2, h2, hS, hT⟩ := runEnables_settled fuel hfuel xs g (settled_fresh hfresh)
  refine ⟨g2, h2, ?_⟩
  intro n d hc hd hsd
  have hf : (g2 n).forceRequired = false := ((hT n).2.2.1).trans (hforce n)
  have hen := (settled_canGenerate hS).1 n hf hc
  have hsn : (g2 n).supported = true := by
    simp only [BaseType.canGenerate, Bool.and_eq_true] at hc
    exact hc.1
  exact (settled_canGenerate hS).2 n d hen hsn hd hsd

/-- An instance on the chain 0 → 1 → 2, enabling node 1 and then node 0. -/
theorem enabling_keeps_dependencies_generated_witness :
    Fresh chain3 ∧ (∀ m, (chain3 m).forceRequired = false) ∧ 2 * 3 + 2 ≤ 8 ∧
    ∃ g2, runCalls 8 ([1, 0].map (fun x => Call.setEnabled x true)) chain3 = some g2 ∧
      ∀ n d, (g2 n).canGenerate = true → d ∈ (g2 n).dependencies →
        (g2 d).supported = true → (g2 d).canGenerate = true :=
  ⟨by decide, by decide, by decide,
    enabling_keeps_dependencies_generated chain3 [1, 0] 8 (by decide) (by decide)
      (by decide)⟩

/-- C3: in a freshly parsed registry of supported nodes, `setEnabled(true)` on
a node `x` of a dependency cycle `a :: rest` returns, and afterwards every
node of the cycle can be generated. -/
theorem enabling_cycle_member_generates_cycle {N : Nat} (g : Graph N)
    (a : Fin N) (rest : List (Fin N)) (x : Fin N) (fuel : Nat)
    (hfresh : Fresh g) (hsup : ∀ m, (g m).supported = true)
    (hcycle : IsCycle g a rest) (hx : x ∈ a :: rest) (hfuel : 2 * N + 2 ≤ fuel) :
    ∃ g2, setEnabled fuel g x true = some g2 ∧
      ∀ y ∈ a :: rest, (g2 y).canGenerate = true := by
  obtain ⟨g2, h2⟩ := setEnabled_some fuel g x true hfuel
  refine ⟨g2, h2, ?_⟩
  have hT := setEnabled_toward h2
  have hS0 : Settled g (fun m => m = x) (fun _ _ => False) :=
    ⟨(settled_fresh hfresh).subs_enabled,
      fun m p q => ((settled_fresh hfresh).req_enabled m p q).imp (fun f => f.elim) id,
      (settled_fresh hfresh).deps_done⟩
  have hS := (enable_settled fuel g g2 x _).1 h2 hS0
  have hsup2 : ∀ m, (g2 m).supported = true := fun m => ((hT m).2.1).trans (hsup m)
  have hx2 : (g2 x).enabled = true := setEnabled_enabled h2 (hsup x)
  have hstep : ∀ p q, q ∈ (g p).dependencies → (g2 p).enabled = true →
      (g2 q).enabled = true := by
    intro p q hq hp
    have hq2 : q ∈ (g2 p).dependencies := by rw [(hT p).1]; exact hq
    rcases hS.deps_done p q hp (hsup2 p) hq2 with hf | hm | hm
    · exact hf.elim
    · rcases hS.req_enabled q (hsup2 q) (Finset.ne_empty_of_mem hm) with hf | he
      · exact hf.elim
      · exact he
    · exact hS.subs_enabled p q hm
  intro y hy
  have hey := cycle_all g (fun m => (g2 m).enabled = true) hstep a rest hcycle x hx hx2 y hy
  simp [BaseType.canGenerate, hsup2 y, hey]

/-- An instance on the ring 0 → 1 → 2 → 0, enabling node 1. -/
theorem enabling_cycle_member_generates_cycle_witness :
    Fresh ring3 ∧ (∀ m, (ring3 m).supported = true) ∧ IsCycle ring3 0 [1, 2] ∧
    (1 : Fin 3) ∈ [0, 1, 2] ∧ 2 * 3 + 2 ≤ 8 ∧
    ∃ g2, setEnabled 8 ring3 1 true = some g2 ∧
      ∀ y ∈ [(0 : Fin 3), 1, 2], (g2 y).canGenerate = true :=
  ⟨by decide, by decide, by simp [IsCycle, ring3, freshNode], by decide, by decide,
    enabling_cycle_member_generates_cycle ring3 0 [1, 2] 1 8 (by decide) (by decide)
      (by simp [IsCycle, ring3, freshNode]) (by decide) (by decide)⟩

/-- C4: on every registry, in any state, `setEnabled(n, v)`, `subscribe(n, r)`
and `unsubscribe(n, r)` return once the stack may be `2 * N + 2` calls deep.
Every `enabled` flag a call changes ends at the value of its cascade (`v`,
`true` for `subscribe`, `false` for `unsubscribe`), and every `setEnabled`
that passes its guard leaves one node fewer on which the guard can pass. -/
theorem cascades_terminate {N : Nat} (g : Graph N) (n r : Fin N) (v : Bool)
    (fuel : Nat) (hfuel : 2 * N + 2 ≤ fuel) :
    (∃ g2, setEnabled fuel g n v = some g2 ∧
      ∀ m, (g2 m).enabled = (g m).enabled ∨ (g2 m).enabled = v) ∧
    (∃ g2, subscribe fuel g n r = some g2 ∧
      ∀ m, (g2 m).enabled = (g m).enabled ∨ (g2 m).enabled = true) ∧
    (∃ g2, unsubscribe fuel g n r = some g2 ∧
      ∀ m, (g2 m).enabled = (g m).enabled ∨ (g2 m).enabled = false) ∧
    (∀ (a : Graph N) (m : Fin N), ¬((a m).enabled = v ∨ (a m).supported = false) →
      (pending v (a.writeEnabled m v)).card < (pending v a).card) := by
  refine ⟨?_, ?_, ?_, ?_⟩
  · obtain ⟨g2, h2⟩ := setEnabled_some fuel g n v hfuel
    exact ⟨g2, h2, fun m => (setEnabled_toward h2 m).2.2.2.1⟩
  · obtain ⟨g2, h2⟩ := subscribe_some fuel g n r hfuel
    exact ⟨g2, h2, fun m => (subscribe_toward h2 m).2.2.2.1⟩
  · obtain ⟨g2, h2⟩ := unsubscribe_some fuel g n r hfuel
    exact ⟨g2, h2, fun m => (unsubscribe_toward h2 m).2.2.2.1⟩
  · intro a m hg
    have he : (a m).enabled ≠ v := fun e => hg (Or.inl e)
    have hs : (a m).supported = true := by
      cases hsup : (a m).supported
      · exact absurd (Or.inr hsup) hg
      · rfl
    have := pending_writeEnabled v a m he hs
    omega

/-- An instance on the ring of three nodes, with a stack eight calls deep. -/
theorem cascades_terminate_witness :
    2 * 3 + 2 ≤ 8 ∧
    (∃ g2, setEnabled 8 ring3 0 true = some g2 ∧
      ∀ m, (g2 m).enabled = (ring3 m).enabled ∨ (g2 m).enabled = true) ∧
    (∃ g2, subscribe 8 ring3 0 2 = some g2 ∧
      ∀ m, (g2 m).enabled = (ring3 m).enabled ∨ (g2 m).enabled = true) ∧
    (∃ g2, unsubscribe 8 ring3 0 2 = some g2 ∧
      ∀ m, (g2 m).enabled = (ring3 m).enabled ∨ (g2 m).enabled = false) ∧
    (∀ (a : Graph 3) (m : Fin 3), ¬((a m).enabled = true ∨ (a m).supported = false) →
      (pending true (a.writeEnabled m true)).card < (pending true a).card) :=
  ⟨by decide, cascades_terminate ring3 0 2 true 8 (by decide)⟩

/-- C5: after `setUnsuppored()` on node `n`, every later sequence of
`setEnabled`, `subscribe`, `unsubscribe` and `setUnsuppored` calls returns and
leaves `n.canGenerate()`, `n.isEnabled()` and `n.supported` false; and a second
`setUnsuppored()` changes nothing. -/
theorem unsupported_is_permanent {N : Nat} (g : Graph N) (n : Fin N)
    (cs : List (Call N)) (fuel : Nat) (hfuel : 2 * N + 2 ≤ fuel) :
    (∃ g2, runCalls fuel cs (setUnsuppored g n) = some g2 ∧
      (g2 n).canGenerate = false ∧ (g2 n).isEnabled = false ∧
      (g2 n).supported = false) ∧
    setUnsuppored (setUnsuppored g n) n = setUnsuppored g n := by
  refine ⟨?_, ?_⟩
  · have h0 : (setUnsuppored g n n).supported = false := by
      simp [setUnsuppored, Graph.store]
    obtain ⟨g2, h2, hs⟩ := runCalls_unsupported fuel hfuel n cs _ h0
    exact ⟨g2, h2, by simp [BaseType.canGenerate, hs], by simp [BaseType.isEnabled, hs], hs⟩
  · funext m
    simp only [setUnsuppored, Graph.store]
    split <;> simp

/-- An instance on the ring of three nodes, node 1 marked unsupported. -/
theorem unsupported_is_permanent_witness :
    2 * 3 + 2 ≤ 8 ∧
    (∃ g2, runCalls 8 [.setEnabled 1 true, .subscribe 1 0, .setEnabled 0 true,
        .unsubscribe 1 0, .setUnsuppored 1] (setUnsuppored ring3 1) = some g2 ∧
      (g2 1).canGenerate = false ∧ (g2 1).isEnabled = false ∧
      (g2 1).supported = false) ∧
    setUnsuppored (setUnsuppored ring3 1) 1 = setUnsuppored ring3 1 :=
  ⟨by decide, unsupported_is_permanent ring3 1 _ 8 (by decide)⟩

/-- C6, as stated, fails: in the two-node cycle, after `setEnabled(true)` on
node 0 and `setEnabled(false)` on node 1, node 1 is supported and disabled and
node 0 is both its dependency and its subscriber; `setEnabled(true)` on node 1
then skips node 0, and node 1 is not among the subscribers of node 0. -/
theorem enabled_node_skips_subscribed_dependency :
    (∃ g, runCalls 6 [.setEnabled 0 true, .setEnabled 1 false] pair2 = some g ∧
      g = pair2Held) ∧
    (pair2Held 1).supported = true ∧ (pair2Held 1).enabled = false ∧
    0 ∈ (pair2Held 1).dependencies ∧
    ∃ g2, setEnabled 6 pair2Held 1 true = some g2 ∧ 1 ∉ (g2 0).subscribers :=
  ⟨(endsIn_iff _ _).mp (by decide), by decide, by decide, by decide,
    (endsIn_iff _ _).mp (by decide)⟩

/-- C6, amended: when `setEnabled(n, true)` is called on a supported, disabled
node `n`, it returns, and afterwards every `d` in `n.dependencies` has `n`
among its subscribers unless `d` is itself among the subscribers of `n`. -/
theorem enabled_node_linked_to_dependencies {N : Nat} (g : Graph N) (n : Fin N)
    (fuel : Nat) (hs : (g n).supported = true) (he : (g n).enabled = false)
    (hfuel : 2 * N + 2 ≤ fuel) :
    ∃ g2, setEnabled fuel g n true = some g2 ∧
      ∀ d ∈ (g n).dependencies, n ∈ (g2 d).subscribers ∨ d ∈ (g2 n).subscribers := by
  obtain ⟨g2, h2⟩ := setEnabled_some fuel g n true hfuel
  refine ⟨g2, h2, ?_⟩
  cases fuel with
  | zero => simp [setEnabled_zero] at h2
  | succ fuel =>
    rw [setEnabled_true fuel g n he hs] at h2
    exact forDependencies_linked fuel n _ _ _ h2

/-- An instance on the two-node cycle, enabling node 1 again. -/
theorem enabled_node_linked_to_dependencies_witness :
    (pair2Held 1).supported = true ∧ (pair2Held 1).enabled = false ∧ 2 * 2 + 2 ≤ 6 ∧
    ∃ g2, setEnabled 6 pair2Held 1 true = some g2 ∧
      ∀ d ∈ (pair2Held 1).dependencies,
        1 ∈ (g2 d).subscribers ∨ d ∈ (g2 1).subscribers :=
  ⟨by decide, by decide, by decide,
    enabled_node_linked_to_dependencies pair2Held 1 6 (by decide) (by decide)
      (by decide)⟩

/-- C7: `subscribe(n, r)` returns and leaves `r` in `n.subscribers`.  It calls
`setEnabled(n, true)` exactly when `n.subscribers` was empty: a stack one call
deep is too shallow exactly then, and the result is then that of
`setEnabled(n, true)` after the emplace, which leaves a supported `n` enabled.
When `n` already had a subscriber, no `enabled` flag changes and the only
subscriber set that changes is that of `n`, which gains `r`. -/
theorem subscribe_effect {N : Nat} (g : Graph N) (n r : Fin N) (fuel : Nat)
    (hfuel : 2 * N + 2 ≤ fuel) :
    ∃ g2, subscribe fuel g n r = some g2 ∧ r ∈ (g2 n).subscribers ∧
      (subscribe 1 g n r = none ↔ (g n).subscribers = ∅) ∧
      ((g n).subscribers = ∅ →
        setEnabled (fuel - 1) (g.emplace n r) n true = some g2 ∧
        ((g n).supported = true → (g2 n).enabled = true)) ∧
      ((g n).subscribers ≠ ∅ → ∀ m, (g2 m).enabled = (g m).enabled ∧
        (g2 m).subscribers =
          if m = n then insert r (g m).subscribers else (g m).subscribers) := by
  obtain ⟨g2, h2⟩ := subscribe_some fuel g n r hfuel
  refine ⟨g2, h2, subscribe_mem h2, ?_, ?_, ?_⟩
  · by_cases hm : r ∈ (g n).subscribers
    · rw [subscribe_present 0 g n r hm]
      simp [Finset.ne_empty_of_mem hm]
    · by_cases hem : (g n).subscribers = ∅
      · rw [subscribe_first 0 g n r hem, setEnabled_zero]
        simp [hem]
      · rw [subscribe_more 0 g n r hm hem]
        simp [hem]
  · intro hem
    cases fuel with
    | zero => omega
    | succ fuel =>
      rw [subscribe_first fuel g n r hem] at h2
      refine ⟨h2, fun hs => ?_⟩
      exact setEnabled_enabled h2 (by simpa using hs)
  · intro hne m
    cases fuel with
    | zero => omega
    | succ fuel =>
      by_cases hm : r ∈ (g n).subscribers
      · rw [subscribe_present fuel g n r hm] at h2
        cases h2
        refine ⟨rfl, ?_⟩
        split
        · next e => subst e; exact (Finset.insert_eq_of_mem hm).symm
        · rfl
      · rw [subscribe_more fuel g n r hm hne] at h2
        cases h2
        simp

/-- An instance on the ring of three nodes, node 2 subscribing to node 0. -/
theorem subscribe_effect_witness :
    2 * 3 + 2 ≤ 8 ∧
    ∃ g2, subscribe 8 ring3 0 2 = some g2 ∧ 2 ∈ (g2 0).subscribers ∧
      (subscribe 1 ring3 0 2 = none ↔ (ring3 0).subscribers = ∅) ∧
      ((ring3 0).subscribers = ∅ →
        setEnabled (8 - 1) (ring3.emplace 0 2) 0 true = some g2 ∧
        ((ring3 0).supported = true → (g2 0).enabled = true)) ∧
      ((ring3 0).subscribers ≠ ∅ → ∀ m, (g2 m).enabled = (ring3 m).enabled ∧
        (g2 m).subscribers =
          if m = 0 then insert 2 (ring3 m).subscribers else (ring3 m).subscribers) :=
  ⟨by decide, subscribe_effect ring3 0 2 8 (by decide)⟩

/-- C8, as stated, fails: node 0 of `chain2On` has node 1 as its only
subscriber; `subscribe(0, 1)` followed by `unsubscribe(0, 1)` turns
`isRequired()` of node 0 from true to false, and no subscriber remains. -/
theorem resubscribe_then_unsubscribe_releases :
    (∃ g, runCalls 6 [.setEnabled 1 true] chain2 = some g ∧ g = chain2On) ∧
    (chain2On 0).isRequired = true ∧
    ∃ g2, runCalls 6 [.subscribe 0 1, .unsubscribe 0 1] chain2On = some g2 ∧
      (g2 0).isRequired = false ∧ (g2 0).subscribers = ∅ :=
  ⟨(endsIn_iff _ _).mp (by decide), by decide, (endsIn_iff _ _).mp (by decide)⟩

/-- C8, amended: for a requester `r` that is not yet in `n.subscribers`,
`subscribe(n, r)` followed immediately by `unsubscribe(n, r)` returns and
leaves `n.isRequired()` equal to its value before the `subscribe`, unless a
subscriber other than `r` remains in `n.subscribers`. -/
theorem subscribe_unsubscribe_isRequired {N : Nat} (g : Graph N) (n r : Fin N)
    (fuel : Nat) (hr : r ∉ (g n).subscribers) (hfuel : 2 * N + 2 ≤ fuel) :
    ∃ g1 g2, subscribe fuel g n r = some g1 ∧ unsubscribe fuel g1 n r = some g2 ∧
      ((g2 n).isRequired = (g n).isRequired ∨
        ∃ s, s ≠ r ∧ s ∈ (g2 n).subscribers) := by
  obtain ⟨g1, h1⟩ := subscribe_some fuel g n r hfuel
  obtain ⟨g2, h2⟩ := unsubscribe_some fuel g1 n r hfuel
  refine ⟨g1, g2, h1, h2, ?_⟩
  by_cases hex : ∃ s, s ≠ r ∧ s ∈ (g2 n).subscribers
  · exact Or.inr hex
  · left
    have hempty : (g2 n).subscribers = ∅ := by
      apply Finset.eq_empty_of_forall_not_mem
      intro s hs
      by_cases e : s = r
      · exact unsubscribe_not_mem h2 (e ▸ hs)
      · exact hex ⟨s, e, hs⟩
    have hfr : (g2 n).forceRequired = (g n).forceRequired :=
      ((unsubscribe_toward h2 n).2.2.1).trans (subscribe_toward h1 n).2.2.1
    by_cases hem : (g n).subscribers = ∅
    · simp [BaseType.isRequired, hempty, hem, hfr]
    · exfalso
      cases fuel with
      | zero => omega
      | succ fuel =>
        rw [subscribe_more fuel g n r hr hem] at h1
        cases h1
        have hm : r ∈ ((g.emplace n r) n).subscribers := by simp
        have he : ((g.emplace n r) n).subscribers.erase r ≠ ∅ := by
          simp [Finset.erase_insert hr, hem]
        rw [unsubscribe_more fuel _ n r hm he] at h2
        cases h2
        simp [Finset.erase_insert hr, hem] at hempty

/-- An instance on the ring of three nodes, node 2 subscribing to node 0. -/
theorem subscribe_unsubscribe_isRequired_witness :
    (2 : Fin 3) ∉ (ring3 0).subscribers ∧ 2 * 3 + 2 ≤ 8 ∧
    ∃ g1 g2, subscribe 8 ring3 0 2 = some g1 ∧ unsubscribe 8 g1 0 2 = some g2 ∧
      ((g2 0).isRequired = (ring3 0).isRequired ∨
        ∃ s, s ≠ 2 ∧ s ∈ (g2 0).subscribers) :=
  ⟨by decide, by decide,
    subscribe_unsubscribe_isRequired ring3 0 2 8 (by decide) (by decide)⟩

/-- C9: for a requester `r` that is not in `n.subscribers`, `unsubscribe(n, r)`
returns the registry unchanged, and does so on a stack one call deep, that is
without calling `setEnabled`. -/
theorem unsubscribe_absent_noop {N : Nat} (g : Graph N) (n r : Fin N) (fuel : Nat)
    (hr : r ∉ (g n).subscribers) (hfuel : 1 ≤ fuel) :
    unsubscribe fuel g n r = some g := by
  cases fuel with
  | zero => omega
  | succ fuel => exact unsubscribe_absent fuel g n r hr

/-- An instance on `chain2On`: node 0 is no subscriber of itself. -/
theorem unsubscribe_absent_noop_witness :
    (0 : Fin 2) ∉ (chain2On 0).subscribers ∧ 1 ≤ 1 ∧
    unsubscribe 1 chain2On 0 0 = some chain2On :=
  ⟨by decide, by decide, unsubscribe_absent_noop chain2On 0 0 1 (by decide) (by decide)⟩

/-- C10: `setEnabled(n, v)` with `v` equal to the `enabled` flag of `n`, or on
a node whose `supported` flag is cleared, returns the registry unchanged. -/
theorem setEnabled_guard_noop {N : Nat} (g : Graph N) (n : Fin N) (v : Bool)
    (fuel : Nat) (h : (g n).enabled = v ∨ (g n).supported = false)
    (hfuel : 1 ≤ fuel) : setEnabled fuel g n v = some g := by
  cases fuel with
  | zero => omega
  | succ fuel => exact setEnabled_guard fuel g n v h

/-- An instance on `chain2On`: node 1 is already enabled. -/
theorem setEnabled_guard_noop_witness :
    ((chain2On 1).enabled = true ∨ (chain2On 1).supported = false) ∧ 1 ≤ 1 ∧
    setEnabled 1 chain2On 1 true = some chain2On :=
  ⟨by decide, by decide, setEnabled_guard_noop chain2On 1 true 1 (by decide) (by decide)⟩

/-- C11: for every registry state, node `n` and value `v`, on two registries
that differ only in the order in which the dependency sets are iterated,
`setEnabled(n, v)` returns on both and leaves `canGenerate()` true on the same
nodes. -/
theorem canGenerate_order_independent {N : Nat} (g g2 : Graph N) (n : Fin N)
    (v : Bool) (fuel : Nat) (hsame : SameUpToOrder g g2) (hfuel : 2 * N + 2 ≤ fuel) :
    ∃ r r2, setEnabled fuel g n v = some r ∧ setEnabled fuel g2 n v = some r2 ∧
      ∀ x, (r x).canGenerate = (r2 x).canGenerate := by
  obtain ⟨r, hr⟩ := setEnabled_some fuel g n v hfuel
  obtain ⟨r2, hr2⟩ := setEnabled_some fuel g2 n v hfuel
  refine ⟨r, r2, hr, hr2, ?_⟩
  intro x
  cases v with
  | true =>
    have h1 := enable_canGenerate hr x
    have h2 := enable_canGenerate hr2 x
    have hiff : (r x).canGenerate = true ↔ (r2 x).canGenerate = true := by
      rw [h1, h2, (hsame x).2.2.2.2, (hsame x).2.2.2.1, (hsame x).2.1, (hsame x).2.2.1]
      constructor
      · rintro ⟨hs, hc⟩
        exact ⟨hs, hc.imp_right (Or.imp_right (Or.imp_right (reached_sameUpToOrder hsame)))⟩
      · rintro ⟨hs, hc⟩
        exact ⟨hs, hc.imp_right (Or.imp_right (Or.imp_right
          (reached_sameUpToOrder (sameUpToOrder_symm hsame))))⟩
    exact Bool.eq_iff_iff.mpr hiff
  | false =>
    have h1 := disable_state hr x
    have h2 := disable_state hr2 x
    have hT1 := setEnabled_toward hr x
    have hT2 := setEnabled_toward hr2 x
    have hen : (r x).enabled = (r2 x).enabled := by
      apply Bool.eq_iff_iff.mpr
      rw [h1.1, h2.1, (hsame x).2.2.2.1]
      constructor
      · rintro ⟨he, hn⟩
        exact ⟨he, fun hc => hn (released_sameUpToOrder (sameUpToOrder_symm hsame) hc)⟩
      · rintro ⟨he, hn⟩
        exact ⟨he, fun hc => hn (released_sameUpToOrder hsame hc)⟩
    have hsub : (r x).subscribers = (r2 x).subscribers := by
      ext m
      rw [h1.2 m, h2.2 m, (hsame x).2.1]
      constructor
      · rintro ⟨hm, hn⟩
        refine ⟨hm, ?_⟩
        rintro ⟨hc, hd, hs⟩
        refine hn ⟨released_sameUpToOrder (sameUpToOrder_symm hsame) hc,
          (hsame m).1.mem_iff.mpr hd, ?_⟩
        rw [(hsame m).2.1]
        exact hs
      · rintro ⟨hm, hn⟩
        refine ⟨hm, ?_⟩
        rintro ⟨hc, hd, hs⟩
        refine hn ⟨released_sameUpToOrder hsame hc, (hsame m).1.mem_iff.mp hd, ?_⟩
        rw [← (hsame m).2.1]
        exact hs
    have hsup : (r x).supported = (r2 x).supported := by
      rw [hT1.2.1, hT2.2.1]
      exact (hsame x).2.2.2.2
    have hfr : (r x).forceRequired = (r2 x).forceRequired := by
      rw [hT1.2.2.1, hT2.2.2.1]
      exact (hsame x).2.2.1
    simp only [BaseType.canGenerate, BaseType.isRequired, hen, hsub, hsup, hfr]

/-- An instance on `fan3` and `fan3Swapped`, enabling node 0. -/
theorem canGenerate_order_independent_witness :
    SameUpToOrder fan3 fan3Swapped ∧ 2 * 3 + 2 ≤ 8 ∧
    ∃ r r2, setEnabled 8 fan3 0 true = some r ∧
      setEnabled 8 fan3Swapped 0 true = some r2 ∧
      ∀ x, (r x).canGenerate = (r2 x).canGenerate :=
  have hsame : SameUpToOrder fan3 fan3Swapped := by
    intro m
    fin_cases m
    · exact ⟨List.Perm.swap _ _ _, rfl, rfl, rfl, rfl⟩
    · exact ⟨List.Perm.refl _, rfl, rfl, rfl, rfl⟩
    · exact ⟨List.Perm.refl _, rfl, rfl, rfl, rfl⟩
  ⟨hsame, by decide, canGenerate_order_independent fan3 fan3Swapped 0 true 8 hsame
    (by decide)⟩

/-- C12: `getsObject()`, `createsObject()` and `destroysObject()` are decided by
`nameCat` alone: the first is true exactly for GET and ACQUIRE, the second
exactly for ALLOCATE and CREATE, the third exactly for DESTROY and FREE; no
two of them are true together and all three are false for ENUMERATE, WRITE
and UNKNOWN. -/
theorem object_roles_by_category (c : CommandData) :
    (c.getsObject = true ↔
      c.nameCat = MemberNameCategory.GET ∨ c.nameCat = MemberNameCategory.ACQUIRE) ∧
    (c.createsObject = true ↔
      c.nameCat = MemberNameCategory.ALLOCATE ∨ c.nameCat = MemberNameCategory.CREATE) ∧
    (c.destroysObject = true ↔
      c.nameCat = MemberNameCategory.DESTROY ∨ c.nameCat = MemberNameCategory.FREE) ∧
    c.getsObject = ({ nameCat := c.nameCat } : CommandData).getsObject ∧
    c.createsObject = ({ nameCat := c.nameCat } : CommandData).createsObject ∧
    c.destroysObject = ({ nameCat := c.nameCat } : CommandData).destroysObject ∧
    (c.getsObject && c.createsObject) = false ∧
    (c.getsObject && c.destroysObject) = false ∧
    (c.createsObject && c.destroysObject) = false ∧
    ({ c with nameCat := MemberNameCategory.ENUMERATE }.getsObject = false ∧
      { c with nameCat := MemberNameCategory.ENUMERATE }.createsObject = false ∧
      { c with nameCat := MemberNameCategory.ENUMERATE }.destroysObject = false) ∧
    ({ c with nameCat := MemberNameCategory.WRITE }.getsObject = false ∧
      { c with nameCat := MemberNameCategory.WRITE }.createsObject = false ∧
      { c with nameCat := MemberNameCategory.WRITE }.destroysObject = false) ∧
    ({ c with nameCat := MemberNameCategory.UNKNOWN }.getsObject = false ∧
      { c with nameCat := MemberNameCategory.UNKNOWN }.createsObject = false ∧
      { c with nameCat := MemberNameCategory.UNKNOWN }.destroysObject = false) := by
  cases hc : c.nameCat <;>
    simp [CommandData.getsObject, CommandData.createsObject,
      CommandData.destroysObject, hc]

/-- C13: when some parameter is a pointer in its original declaration,
`getLastPointerVar()` returns the last such parameter: the parameter list is
`pre ++ v :: post` with `v` the result, `v` a pointer and no pointer in `post`.
`getLastHandleVar()` does the same for handle parameters.  On
`[a:value, b:pointer, c:value, d:pointer]` the result is `d`. -/
theorem getLastVar_returns_last (c : CommandData) :
    ((∃ p ∈ c.params, p.originalIsPointer = true) →
      ∃ pre v post, c.params = pre ++ v :: post ∧ c.getLastPointerVar = .ok v ∧
        v.originalIsPointer = true ∧ ∀ p ∈ post, p.originalIsPointer = false) ∧
    ((∃ p ∈ c.params, p.isHandle = true) →
      ∃ pre v post, c.params = pre ++ v :: post ∧ c.getLastHandleVar = .ok v ∧
        v.isHandle = true ∧ ∀ p ∈ post, p.isHandle = false) ∧
    cmdAbcd.getLastPointerVar = .ok (pointerParam "d") := by
  refine ⟨?_, ?_, rfl⟩
  · intro h
    obtain ⟨v, hv⟩ := scanFromEnd_exists (fun p => p.originalIsPointer) h
    obtain ⟨pre, post, hl, ht, hpost⟩ := scanFromEnd_reverse_some hv
    exact ⟨pre, v, post, hl, by simp [CommandData.getLastPointerVar, hv], ht, hpost⟩
  · intro h
    obtain ⟨v, hv⟩ := scanFromEnd_exists (fun p => p.isHandle) h
    obtain ⟨pre, post, hl, ht, hpost⟩ := scanFromEnd_reverse_some hv
    exact ⟨pre, v, post, hl, by simp [CommandData.getLastHandleVar, hv], ht, hpost⟩

/-- An instance on `cmdAbcd` (last pointer `d`) and on `cmdHandles` (last
handle `pool`, followed by a by-value parameter). -/
theorem getLastVar_returns_last_witness :
    (∃ pre v post, cmdAbcd.params = pre ++ v :: post ∧
      cmdAbcd.getLastPointerVar = .ok v ∧ v.originalIsPointer = true ∧
      ∀ p ∈ post, p.originalIsPointer = false) ∧
    (∃ pre v post, cmdHandles.params = pre ++ v :: post ∧
      cmdHandles.getLastHandleVar = .ok v ∧ v.isHandle = true ∧
      ∀ p ∈ post, p.isHandle = false) :=
  ⟨(getLastVar_returns_last cmdAbcd).1 ⟨pointerParam "d", by decide, by decide⟩,
    (getLastVar_returns_last cmdHandles).2.1
      ⟨handleParam "pool" "VkCommandPool", by decide, by decide⟩⟩

/-- C14: `getLastPointerVar()` raises the lookup error exactly when no
parameter is a pointer, which is exactly when `containsPointerVariable()` is
false, and in particular on the empty parameter list; `getLastHandleVar()`
raises it exactly when no parameter is a handle. -/
theorem lookup_error_iff_no_match (c : CommandData) :
    ((∃ e, c.getLastPointerVar = .error e) ↔
      ∀ p ∈ c.params, p.originalIsPointer = false) ∧
    ((∃ e, c.getLastPointerVar = .error e) ↔ c.containsPointerVariable = false) ∧
    ((∃ e, c.getLastHandleVar = .error e) ↔ ∀ p ∈ c.params, p.isHandle = false) ∧
    (∃ e, ({ c with params := [] } : CommandData).getLastPointerVar = .error e) ∧
    (∃ e, ({ c with params := [] } : CommandData).getLastHandleVar = .error e) := by
  refine ⟨?_, ?_, ?_, ⟨_, rfl⟩, ⟨_, rfl⟩⟩
  · rw [← scanFromEnd_reverse_none (fun p => p.originalIsPointer)]
    unfold CommandData.getLastPointerVar
    cases CommandData.scanFromEnd (fun p => p.originalIsPointer) c.params.reverse <;> simp
  · unfold CommandData.getLastPointerVar CommandData.containsPointerVariable
    cases CommandData.scanFromEnd (fun p => p.originalIsPointer) c.params.reverse <;> simp
  · rw [← scanFromEnd_reverse_none (fun p => p.isHandle)]
    unfold CommandData.getLastHandleVar
    cases CommandData.scanFromEnd (fun p => p.isHandle) c.params.reverse <;> simp

/-- C15: `isIndirectCandidate(hostType)` always returns a value, never the
lookup error.  For a command that gets or creates an object (GET, ACQUIRE,
ALLOCATE, CREATE) the value says whether the original type of the last
pointer parameter differs from `hostType`; for one that destroys an object
(DESTROY, FREE), whether the original type of the last handle parameter
differs; it is `true` when that parameter does not exist and for every other
category. -/
theorem isIndirectCandidate_fail_open (c : CommandData) (hostType : String) :
    (∃ b, c.isIndirectCandidate hostType = .ok b) ∧
    ((c.getsObject || c.createsObject) = true →
      (∀ v, c.getLastPointerVar = .ok v →
        c.isIndirectCandidate hostType = .ok (v.originalType != hostType)) ∧
      ((∃ e, c.getLastPointerVar = .error e) →
        c.isIndirectCandidate hostType = .ok true)) ∧
    ((c.getsObject || c.createsObject) = false → c.destroysObject = true →
      (∀ v, c.getLastHandleVar = .ok v →
        c.isIndirectCandidate hostType = .ok (v.originalType != hostType)) ∧
      ((∃ e, c.getLastHandleVar = .error e) →
        c.isIndirectCandidate hostType = .ok true)) ∧
    ((c.getsObject || c.createsObject) = false → c.destroysObject = false →
      c.isIndirectCandidate hostType = .ok true) := by
  refine ⟨?_, ?_, ?_, ?_⟩
  · unfold CommandData.isIndirectCandidate
    cases c.isIndirectCandidateTry hostType with
    | error e => exact ⟨true, rfl⟩
    | ok o =>
      cases o with
      | none => exact ⟨true, rfl⟩
      | some b => exact ⟨b, rfl⟩
  · intro hcat
    refine ⟨?_, ?_⟩
    · intro v hv
      simp [CommandData.isIndirectCandidate, CommandData.isIndirectCandidateTry, hcat, hv]
    · rintro ⟨e, he⟩
      simp [CommandData.isIndirectCandidate, CommandData.isIndirectCandidateTry, hcat, he]
  · intro hcat hd
    refine ⟨?_, ?_⟩
    · intro v hv
      simp [CommandData.isIndirectCandidate, CommandData.isIndirectCandidateTry, hcat, hd, hv]
    · rintro ⟨e, he⟩
      simp [CommandData.isIndirectCandidate, CommandData.isIndirectCandidateTry, hcat, hd, he]
  · intro hcat hd
    simp [CommandData.isIndirectCandidate, CommandData.isIndirectCandidateTry, hcat, hd]

/-- An instance on `cmdAbcd` (a GET command whose last pointer has type
`uint32_t`) and on `cmdHandles` (a DESTROY command whose last handle has
type `VkCommandPool`), both hosted by `VkDevice`. -/
theorem isIndirectCandidate_fail_open_witness :
    (cmdAbcd.getsObject || cmdAbcd.createsObject) = true ∧
    cmdAbcd.getLastPointerVar = .ok (pointerParam "d") ∧
    cmdAbcd.isIndirectCandidate "VkDevice" = .ok true ∧
    (cmdHandles.getsObject || cmdHandles.createsObject) = false ∧
    cmdHandles.destroysObject = true ∧
    cmdHandles.isIndirectCandidate "VkCommandPool" = .ok false :=
  ⟨by decide, rfl,
    ((isIndirectCandidate_fail_open cmdAbcd "VkDevice").2.1 (by decide)).1
      (pointerParam "d") rfl,
    by decide, by decide,
    ((isIndirectCandidate_fail_open cmdHandles "VkCommandPool").2.2.1 (by decide)
      (by decide)).1 (handleParam "pool" "VkCommandPool") rfl⟩


set_option maxRecDepth 100000

/-- C16, as stated, fails: for `waitIdle`, which returns a status code, has its
result variable declared and has exactly one success code, `generateCheck()`
still emits a `resultCheck` call on the result; only the code list is left
out. -/
theorem single_success_code_is_still_checked :
    resolverOneCode.ctx.pfnReturn = PFNReturnCategory.VK_RESULT ∧
    resolverOneCode.resultVar.isInvalid = false ∧
    resolverOneCode.ctx.successCodes = ["VK_SUCCESS"] ∧
    resolverOneCode.generateCheck plainExternal plainConfig =
      "\n    resultCheck(result,\n                VULKAN_HPP_NAMESPACE_STRING \"::Device::waitIdle\");\n" :=
  ⟨by decide, by decide, by decide, by rfl⟩

/-- C16, amended: for a callable that returns a status code and whose result
variable has been declared, `generateCheck()` emits the `resultCheck` template
on the result variable and the message; its code list is empty when at most
one success code is declared, and when two or more are declared it is the
bracketed list naming every declared success code, each once and in declared
order. -/
theorem generateCheck_code_list (ext : External) (cfg : Config) (r : MemberResolverBase)
    (hres : r.ctx.pfnReturn = PFNReturnCategory.VK_RESULT)
    (hdecl : r.resultVar.isInvalid = false) :
    r.generateCheck ext cfg =
      ext.format checkTemplate
        [r.resultVar.identifier, r.checkMessage cfg,
          MemberResolverBase.checkCodes ext r.ctx.successCodes] ∧
    (r.ctx.successCodes.length ≤ 1 →
      MemberResolverBase.checkCodes ext r.ctx.successCodes = "") ∧
    (2 ≤ r.ctx.successCodes.length →
      MemberResolverBase.checkCodes ext r.ctx.successCodes =
        ",\n                \x7b " ++
          codeSeparator.intercalate
            (r.ctx.successCodes.map
              (fun c => "Result::" ++ ext.enumConvertCamel "Result" c)) ++ "\x7d") := by
  refine ⟨?_, checkCodes_few ext _, checkCodes_many ext _⟩
  simp [MemberResolverBase.generateCheck, hres, hdecl]

/-- An instance on `getFenceStatus`, which has two success codes. -/
theorem generateCheck_code_list_witness :
    resolverTwoCodesDeclared.ctx.pfnReturn = PFNReturnCategory.VK_RESULT ∧
    resolverTwoCodesDeclared.resultVar.isInvalid = false ∧
    2 ≤ resolverTwoCodesDeclared.ctx.successCodes.length ∧
    MemberResolverBase.checkCodes plainExternal resolverTwoCodesDeclared.ctx.successCodes =
      ",\n                \x7b " ++
        codeSeparator.intercalate
          (resolverTwoCodesDeclared.ctx.successCodes.map
            (fun c => "Result::" ++ plainExternal.enumConvertCamel "Result" c)) ++ "\x7d" :=
  ⟨by decide, by decide, by decide,
    (generateCheck_code_list plainExternal plainConfig resolverTwoCodesDeclared
      (by decide) (by decide)).2.2 (by decide)⟩

/-- C17, as stated, fails: the default `MemberResolver` for `getFenceStatus`,
which returns a status code and has two success codes, produces a definition
that returns the result right after the call, with no status check, although
`generateCheck()` has a check to give. -/
theorem default_definition_lacks_check :
    resolverTwoCodes.ctx.pfnReturn = PFNReturnCategory.VK_RESULT ∧
    resolverTwoCodes.ctx.successCodes.length = 2 ∧
    (MemberResolverBase.definitionText plainExternal plainConfig
      (MemberResolver.generateMemberBody plainExternal plainConfig)
      resolverTwoCodes false "").1 =
      "  inline Result Device::getFenceStatus(VkFence fence) const \x7b\n    Result result = static_cast<Result>(::vkGetFenceStatus(m_device, fence));\n\n    return result;\n  \x7d\n" ∧
    resolverTwoCodesDeclared.generateCheck plainExternal plainConfig =
      "\n    resultCheck(result,\n                VULKAN_HPP_NAMESPACE_STRING \"::Device::getFenceStatus\",\n                \x7b Result::eVK_SUCCESS,\n                  Result::eVK_NOT_READY\x7d);\n" :=
  ⟨by decide, by decide, by rfl, by rfl⟩

/-- C17, amended: outside the forwarding definition of the RAII namespace,
the definition is the prototype, the size comments, the member body, then the
status check exactly when the resolver has cleared `disableCheck` and the
callable returns a status code, then the return statement.  The constructor
of `MemberResolverBase` sets `disableCheck`, the constructor and the member
body of the default `MemberResolver` leave it set, so the definition of the
default `MemberResolver` has no status check after the member body. -/
theorem definition_check_is_gated (ext : External) (cfg : Config)
    (body : MemberResolverBase → String × MemberResolverBase) (r : MemberResolverBase)
    (genInline : Bool) (output : String)
    (hdirect : (r.ctx.ns == Namespace.RAII && r.ctx.isIndirect && !r.ctx.constructor) = false) :
    (MemberResolverBase.definitionText ext cfg body r genInline output).1 =
      output ++ r.getProto ext cfg (if genInline then "    " else "  ") genInline ++ " \x7b\n" ++
        r.sizeComments ++ (body r).1 ++
        (if !(body r).2.disableCheck &&
            (body r).2.ctx.pfnReturn == PFNReturnCategory.VK_RESULT
          then (body r).2.generateCheck ext cfg else "") ++
        (if (body r).2.generateReturnType cfg != "void" && !(body r).2.returnValue.isEmpty
          then "    return " ++ (body r).2.returnValue ++ ";\n" else "") ++
        "  \x7d\n" ∧
    (∀ refCtx, (MemberResolverBase.new ext cfg refCtx).disableCheck = true) ∧
    (∀ transform refCtx, (MemberResolver.new ext cfg transform refCtx).disableCheck = true) ∧
    (MemberResolver.generateMemberBody ext cfg r).2.disableCheck = r.disableCheck ∧
    (r.disableCheck = true →
      (MemberResolverBase.definitionText ext cfg (MemberResolver.generateMemberBody ext cfg)
        r genInline output).1 =
        output ++ r.getProto ext cfg (if genInline then "    " else "  ") genInline ++
          " \x7b\n" ++ r.sizeComments ++ (MemberResolver.generateMemberBody ext cfg r).1 ++
          (if (MemberResolver.generateMemberBody ext cfg r).2.generateReturnType cfg != "void" &&
              !(MemberResolver.generateMemberBody ext cfg r).2.returnValue.isEmpty
            then "    return " ++
              (MemberResolver.generateMemberBody ext cfg r).2.returnValue ++ ";\n"
            else "") ++
          "  \x7d\n") := by
  have hgen : ∀ (b : MemberResolverBase → String × MemberResolverBase),
      (MemberResolverBase.definitionText ext cfg b r genInline output).1 =
      output ++ r.getProto ext cfg (if genInline then "    " else "  ") genInline ++ " \x7b\n" ++
        r.sizeComments ++ (b r).1 ++
        (if !(b r).2.disableCheck &&
            (b r).2.ctx.pfnReturn == PFNReturnCategory.VK_RESULT
          then (b r).2.generateCheck ext cfg else "") ++
        (if (b r).2.generateReturnType cfg != "void" && !(b r).2.returnValue.isEmpty
          then "    return " ++ (b r).2.returnValue ++ ";\n" else "") ++
        "  \x7d\n" := by
    intro b
    unfold MemberResolverBase.definitionText
    simp only [hdirect]
    cases h1 : (!(b r).2.disableCheck &&
        (b r).2.ctx.pfnReturn == PFNReturnCategory.VK_RESULT) <;>
      cases h2 : ((b r).2.generateReturnType cfg != "void" && !(b r).2.returnValue.isEmpty) <;>
      simp [String.append_assoc]
  have hbody := generateMemberBody_disableCheck ext cfg r
  refine ⟨hgen body, ?_, ?_, hbody, ?_⟩
  · intro refCtx
    rfl
  · intro transform refCtx
    unfold MemberResolver.new
    dsimp only
    split <;> rfl
  · intro hd
    rw [hgen (MemberResolver.generateMemberBody ext cfg)]
    have : (!(MemberResolver.generateMemberBody ext cfg r).2.disableCheck &&
        (MemberResolver.generateMemberBody ext cfg r).2.ctx.pfnReturn ==
          PFNReturnCategory.VK_RESULT) = false := by
      rw [hbody, hd]
      simp
    rw [this]
    simp [String.append_assoc]

/-- An instance on the default resolver of `getFenceStatus`. -/
theorem definition_check_is_gated_witness :
    (resolverTwoCodes.ctx.ns == Namespace.RAII && resolverTwoCodes.ctx.isIndirect &&
      !resolverTwoCodes.ctx.constructor) = false ∧
    resolverTwoCodes.disableCheck = true ∧
    (MemberResolverBase.definitionText plainExternal plainConfig
      (MemberResolver.generateMemberBody plainExternal plainConfig)
      resolverTwoCodes false "").1 =
      "" ++ resolverTwoCodes.getProto plainExternal plainConfig
          (if false then "    " else "  ") false ++
        " \x7b\n" ++ resolverTwoCodes.sizeComments ++
        (MemberResolver.generateMemberBody plainExternal plainConfig resolverTwoCodes).1 ++
        (if (MemberResolver.generateMemberBody plainExternal plainConfig
                resolverTwoCodes).2.generateReturnType plainConfig != "void" &&
            !(MemberResolver.generateMemberBody plainExternal plainConfig
                resolverTwoCodes).2.returnValue.isEmpty
          then "    return " ++
            (MemberResolver.generateMemberBody plainExternal plainConfig
              resolverTwoCodes).2.returnValue ++ ";\n"
          else "") ++
        "  \x7d\n" :=
  ⟨by decide, by decide,
    (definition_check_is_gated plainExternal plainConfig
      (MemberResolver.generateMemberBody plainExternal plainConfig) resolverTwoCodes false ""
      (by decide)).2.2.2.2 (by decide)⟩

/-- C19: `compareSignature(a, b)` is true exactly when the two resolvers have
the same number of signature parameters and, at every position in declared
order, the types without whitespace are equal and the suffixes without
whitespace are equal.  The signature parameters are those of
`getFilteredProtoVars`: the parameters, in declared order, that are not hidden
and that have a bound length or are not of the hosting handle's type; a text
without whitespace, as `removeWhitespace` gives it, keeps in order every
character other than tab, line feed, vertical tab, form feed, carriage return
and space.  The comparison is reflexive, symmetric and transitive, and
replacing the identifiers of the parameters of either resolver does not change
it. -/
theorem compareSignature_compares_types :
    (∀ a b : MemberResolverBase, a.compareSignature b = true ↔
      (a.ctx.params.filter (fun p => decide (p.ignoreFlag = false ∧
          (p.lengthVar.isSome = true ∨ p.originalType ≠ a.ctx.cls.name.original)))).length =
        (b.ctx.params.filter (fun p => decide (p.ignoreFlag = false ∧
          (p.lengthVar.isSome = true ∨ p.originalType ≠ b.ctx.cls.name.original)))).length ∧
      ∀ (i : Nat) (v w : VariableData),
        (a.ctx.params.filter (fun p => decide (p.ignoreFlag = false ∧
          (p.lengthVar.isSome = true ∨ p.originalType ≠ a.ctx.cls.name.original))))[i]? =
            some v →
        (b.ctx.params.filter (fun p => decide (p.ignoreFlag = false ∧
          (p.lengthVar.isSome = true ∨ p.originalType ≠ b.ctx.cls.name.original))))[i]? =
            some w →
        v.type.data.filter (fun c => decide (c.toNat ∉ [9, 10, 11, 12, 13, 32])) =
          w.type.data.filter (fun c => decide (c.toNat ∉ [9, 10, 11, 12, 13, 32])) ∧
        v.suffix.data.filter (fun c => decide (c.toNat ∉ [9, 10, 11, 12, 13, 32])) =
          w.suffix.data.filter (fun c => decide (c.toNat ∉ [9, 10, 11, 12, 13, 32]))) ∧
    (∀ ctx : MemberContext, ctx.getFilteredProtoVars =
      ctx.params.filter (fun p => decide (p.ignoreFlag = false ∧
        (p.lengthVar.isSome = true ∨ p.originalType ≠ ctx.cls.name.original)))) ∧
    (∀ s : String, (removeWhitespace s).data =
      s.data.filter (fun c => decide (c.toNat ∉ [9, 10, 11, 12, 13, 32]))) ∧
    (∀ a : MemberResolverBase, a.compareSignature a = true) ∧
    (∀ a b : MemberResolverBase, a.compareSignature b = true →
      b.compareSignature a = true) ∧
    (∀ a b c : MemberResolverBase, a.compareSignature b = true →
      b.compareSignature c = true → a.compareSignature c = true) ∧
    (∀ (rename : VariableData → String) (a b : MemberResolverBase),
      (a.withIdentifiers rename).compareSignature b = a.compareSignature b ∧
      a.compareSignature (b.withIdentifiers rename) = a.compareSignature b) := by
  have hshown : ∀ ctx : MemberContext, ctx.getFilteredProtoVars =
      ctx.params.filter (fun p => decide (p.ignoreFlag = false ∧
        (p.lengthVar.isSome = true ∨ p.originalType ≠ ctx.cls.name.original))) := by
    intro ctx
    unfold MemberContext.getFilteredProtoVars MemberContext.filterProto
      VariableData.hasLengthVar
    congr 1
    funext p
    rw [Bool.eq_iff_iff]
    cases p.ignoreFlag <;> cases p.lengthVar.isSome <;> simp
  have hstrip : ∀ s : String, (removeWhitespace s).data =
      s.data.filter (fun c => decide (c.toNat ∉ [9, 10, 11, 12, 13, 32])) := by
    intro s
    unfold removeWhitespace isRegexSpace
    show s.data.filter _ = _
    congr 1
    funext c
    rw [Bool.eq_iff_iff]
    simp only [Bool.not_eq_true', Bool.or_eq_false_iff, Bool.and_eq_false_iff,
      decide_eq_false_iff_not, decide_eq_true_eq, List.mem_cons, List.mem_singleton,
      List.not_mem_nil, or_false, not_or, not_le]
    omega
  refine ⟨?_, hshown, hstrip, ?_, ?_, ?_, ?_⟩
  · intro a b
    rw [compareSignature_iff]
    unfold MemberResolverBase.signatureTypes
    simp only [← hshown, ← hstrip]
    constructor
    · intro h
      refine ⟨by simpa using congrArg List.length h, ?_⟩
      intro i v w hv hw
      have hi := congrArg (fun l => l[i]?) h
      simp only [List.getElem?_map, hv, hw, Option.map_some', Option.some.injEq,
        Prod.mk.injEq] at hi
      exact ⟨congrArg String.data hi.1, congrArg String.data hi.2⟩
    · rintro ⟨hlen, hall⟩
      apply List.ext_getElem?
      intro i
      simp only [List.getElem?_map]
      cases hv : a.ctx.getFilteredProtoVars[i]? with
      | none =>
        have : b.ctx.getFilteredProtoVars[i]? = none := by
          rw [List.getElem?_eq_none_iff] at hv ⊢
          omega
        simp [this]
      | some v =>
        cases hw : b.ctx.getFilteredProtoVars[i]? with
        | none =>
          rw [List.getElem?_eq_none_iff] at hw
          have := (List.getElem?_eq_some_iff.mp hv).1
          omega
        | some w =>
          have := hall i v w hv hw
          simp [String.ext this.1, String.ext this.2]
  · intro a
    exact (compareSignature_iff a a).mpr rfl
  · intro a b h
    exact (compareSignature_iff b a).mpr ((compareSignature_iff a b).mp h).symm
  · intro a b c h1 h2
    exact (compareSignature_iff a c).mpr
      (((compareSignature_iff a b).mp h1).trans ((compareSignature_iff b c).mp h2))
  · intro rename a b
    refine ⟨?_, ?_⟩
    · apply Bool.eq_iff_iff.mpr
      rw [compareSignature_iff, compareSignature_iff, signatureTypes_withIdentifiers]
    · apply Bool.eq_iff_iff.mpr
      rw [compareSignature_iff, compareSignature_iff, signatureTypes_withIdentifiers]

/-- An instance on the default resolvers of `getFenceStatus` and of the same
member with other identifiers and whitespace in a type: the comparison holds
one way by evaluation, hence the other way by symmetry; it fails against the
member that takes an event in place of the fence, and against `waitIdle`,
which has no signature parameter. -/
theorem compareSignature_compares_types_witness :
    resolverTwoCodes.compareSignature
      (MemberResolver.new plainExternal plainConfig id ctxTwoCodesSpaced) = true ∧
    (MemberResolver.new plainExternal plainConfig id ctxTwoCodesSpaced).compareSignature
      resolverTwoCodes = true ∧
    resolverTwoCodes.compareSignature
      (MemberResolver.new plainExternal plainConfig id ctxTwoCodesEvent) = false ∧
    resolverTwoCodes.compareSignature resolverOneCode = false :=
  ⟨by decide,
    compareSignature_compares_types.2.2.2.2.1 resolverTwoCodes
      (MemberResolver.new plainExternal plainConfig id ctxTwoCodesSpaced) (by decide),
    by decide, by decide⟩

/-- C20, as stated, fails: `reset` of `CommandPool` in the RAII namespace takes
the device, which is neither hidden nor of the hosting handle's type, and the
signature view omits it. -/
theorem signature_view_omits_superclass :
    ctxRaiiReset.createProtoArguments plainExternal plainConfig false false =
      "uint32_t flags" ∧
    ", ".intercalate
      ((ctxRaiiReset.params.filter
          (fun p => !p.ignoreFlag &&
            !(p.originalType == ctxRaiiReset.cls.name.original && !p.hasLengthVar))).map
        plainExternal.toString) = "VkDevice device, uint32_t flags" :=
  ⟨by rfl, by rfl⟩

/-- C20, amended: the signature view lists, in declared order and joined by
`", "` with no trailing separator, exactly the parameters that are not hidden
(ignore flag clear), not self-referential (original type non-empty and equal
to the hosting handle's type, with no bound length) and, when generating in
the RAII namespace for a subclass outside a constructor, not of the
superclass's type; every other parameter is omitted. -/
theorem signature_view_lists_visible (ext : External) (cfg : Config) (ctx : MemberContext)
    (useOriginal declaration : Bool) :
    ctx.createProtoArguments ext cfg useOriginal declaration =
      ", ".intercalate
        ((ctx.params.filter ctx.protoVisible).map
          (fun v =>
            if useOriginal then ext.originalToString v
            else if declaration then ext.toStringWithAssignment v
            else ext.toString v)) ∧
    ∀ p, ctx.protoVisible p = true ↔
      ¬ (ctx.ns = Namespace.RAII ∧ ctx.cls.isSubclass = true ∧ ctx.constructor = false ∧
          p.originalType = ctx.cls.superclass.original) ∧
      p.ignoreFlag = false ∧
      (p.hasLengthVar = true ∨
        ¬ (p.originalType = ctx.cls.name.original ∧ p.originalType ≠ "")) := by
  refine ⟨?_, ?_⟩
  · unfold MemberContext.createProtoArguments MemberContext.createArguments
    have hstep : MemberContext.argumentStep ext cfg ctx MemberContext.filterProto
        (fun v =>
          if useOriginal then ext.originalToString v
          else if declaration then ext.toStringWithAssignment v
          else ext.toString v) true =
        fun out p => if ctx.protoVisible p = true then
          out ++ (fun v =>
            if useOriginal then ext.originalToString v
            else if declaration then ext.toStringWithAssignment v
            else ext.toString v) p ++ ", " else out := by
      funext out p
      exact argumentStep_proto ext cfg ctx _ out p
    rw [hstep, foldl_append_kept]
    rw [String.empty_append]
    exact strStripSuffix_join ", " _
  · intro p
    unfold MemberContext.protoVisible
    have hE : p.originalType = "" ↔ p.originalType.isEmpty = true :=
      (String.isEmpty_iff _).symm
    have hA : ctx.ns = Namespace.RAII ↔ (ctx.ns == Namespace.RAII) = true := by simp
    have hD : p.originalType = ctx.cls.superclass.original ↔
        (p.originalType == ctx.cls.superclass.original) = true := by simp
    have hS : p.originalType = ctx.cls.name.original ↔
        (p.originalType == ctx.cls.name.original) = true := by simp
    rw [ne_eq, hE, hA, hD, hS]
    generalize (ctx.ns == Namespace.RAII) = A
    generalize (p.originalType == ctx.cls.superclass.original) = D
    generalize (p.originalType == ctx.cls.name.original) = S
    generalize p.originalType.isEmpty = E
    generalize ctx.cls.isSubclass = B
    generalize ctx.constructor = C
    generalize p.ignoreFlag = I
    generalize p.hasLengthVar = L
    cases A <;> cases B <;> cases C <;> cases D <;> cases I <;> cases L <;> cases S <;>
      cases E <;> simp


/-- C18, as stated, fails: for the member `enumeratePhysicalDevices`, whose
count parameter is a non-const pointer, the emitted body is the `do`/`while`
loop of `arrayLoopTemplate`, and it guards the resize and the second call by
`result == Result::eSuccess && physicalDeviceCount`.  Against an entry point
that reports success and a count of zero, the body calls the entry point once,
with the null buffer, and never with the storage. -/
theorem empty_count_makes_one_call :
    (ctxEnumerate.params.getD 1 {}).originalIsPointer = true ∧
    (ctxEnumerate.params.getD 1 {}).originalIsConst = false ∧
    (MemberResolverBase.generateArrayCode plainExternal plainConfig
      (MemberResolver.new plainExternal plainConfig id ctxEnumerate) 2 false).1 =
      "    Result result;\n    std::vector<PhysicalDevice> physicalDevices;\n    uint32_t physicalDeviceCount;\n\n    do \x7b\n      result = static_cast<Result>(::vkEnumeratePhysicalDevices(m_instance, physicalDeviceCount, nullptr));\n      if (result == Result::eSuccess && physicalDeviceCount) \x7b\n        physicalDevices.resize(physicalDeviceCount);\n        result = static_cast<Result>(::vkEnumeratePhysicalDevices(m_instance, physicalDeviceCount, physicalDevices));\n        //VULKAN_HPP_ASSERT(physicalDeviceCount <= physicalDevices.size());\n      \x7d\n    \x7d while (result == Result::eIncomplete);\n\n    resultCheck(result,\n                VULKAN_HPP_NAMESPACE_STRING \"::Instance::enumeratePhysicalDevices\",\n                \x7b Result::eVK_SUCCESS,\n                  Result::eVK_INCOMPLETE\x7d);\n\n    if (physicalDeviceCount < physicalDevices.size()) \x7b\n      physicalDevices.resize(physicalDeviceCount);\n    \x7d\n" ∧
    emptyEntry () none 0 = (Status.eSuccess, 0, ()) ∧
    runStatusBody emptyEntry (fun _ => true) 1 (freshRun ()) =
      some (.ok { result := Status.eSuccess, count := 0, storage := 0, entry := (),
                  calls := [none] }) :=
  ⟨by rfl, by rfl, by rfl, by rfl, by rfl⟩

/-- C18, amended: for an output array whose count parameter is a non-const
pointer, `generateArrayCode` emits, between a prefix of declarations and a
suffix, the text of the loop `arrayLoopProgram` when the callable returns a
status code and of the statements `arrayPlainProgram` when it does not, then
the status check, then the text of `arrayShrinkProgram`; the slot marked
`query` holds the call generated with the array argument replaced by
`nullptr`, the slot marked `fill` the call generated with the array itself,
the other two the identifiers of the count and of the array.  Run over any
entry point `ep` and any state `st` of the variables, the slots holding what
`format` puts in them: a round first calls with the null buffer and obtains a
count N; only when that call reports success and N is not zero is the storage
resized to exactly N and a second call made with the storage, otherwise the
round ends after the first call with the storage untouched; the loop returns
after the first round whose status is not incomplete, which it reaches
whenever `fuel` exceeds the number of incomplete rounds before it; after the
loop the body throws when the status does not pass the check and otherwise
leaves the storage at the smaller of its size and the count; without a status
code the two calls are made once, unconditionally, and the storage is shrunk
in the same way. -/
theorem generateArrayCode_two_call_rounds (ext : External) (cfg : Config)
    (r : MemberResolverBase) (vi : Nat) (useOriginal : Bool)
    {σ : Type} (ep : EntryPoint σ) (st : ArrayRun σ) :
    let r0 := r.arrayCodeParams ext vi useOriginal
    let var := r0.ctx.params.getD vi {}
    let lenVar := r0.ctx.params.getD (var.lengthVar.getD 0) {}
    let fill := (r0.declareReturnVar ext "").2.generatePFNcall ext cfg false
    let query := (fill.2.modifyParam vi
      (fun v => { v with altPFN := "nullptr" })).generatePFNcall ext cfg false
    let fillPlain := r0.generatePFNcall ext cfg false
    let queryPlain := (fillPlain.2.modifyParam vi
      (fun v => { v with altPFN := "nullptr" })).generatePFNcall ext cfg false
    let first := ep st.entry none st.count
    let second := ep first.2.2 (some first.2.1) first.2.1
    lenVar.originalIsPointer = true → lenVar.originalIsConst = false →
    (r.ctx.pfnReturn = PFNReturnCategory.VK_RESULT →
      ∃ pre post : String,
        (r.generateArrayCode ext cfg vi useOriginal).1 =
          pre ++
          ext.format ("\n" ++ arrayLoopProgram.render "    ")
            (loopSlots.map
              (Operand.text query.1 fill.1 lenVar.identifier var.identifier)) ++
          query.2.generateCheck ext cfg ++
          ext.format ("\n" ++ arrayShrinkProgram.render "    ")
            (shrinkSlots.map
              (Operand.text query.1 fill.1 lenVar.identifier var.identifier)) ++
          post) ∧
    (r.ctx.pfnReturn ≠ PFNReturnCategory.VK_RESULT →
      ∃ pre post : String,
        (r.generateArrayCode ext cfg vi useOriginal).1 =
          pre ++
          ext.format ("\n" ++ arrayPlainProgram.render "    ")
            (loopSlots.map
              (Operand.text queryPlain.1 fillPlain.1 lenVar.identifier var.identifier)) ++
          queryPlain.2.generateCheck ext cfg ++
          ext.format ("\n" ++ arrayShrinkProgram.render "    ")
            (shrinkSlots.map
              (Operand.text queryPlain.1 fillPlain.1 lenVar.identifier var.identifier)) ++
          post) ∧
    (∀ (fuel : Nat) (s : ArrayRun σ),
      arrayRoundProgram.exec ep loopSlots fuel s = some (arrayRound ep s)) ∧
    (first.1 = Status.eSuccess ∧ first.2.1 ≠ 0 →
      ∀ fuel : Nat, arrayRoundProgram.exec ep loopSlots fuel st =
        some { result := second.1, count := second.2.1, storage := first.2.1,
               entry := second.2.2, calls := st.calls ++ [none, some first.2.1] }) ∧
    (¬ (first.1 = Status.eSuccess ∧ first.2.1 ≠ 0) →
      ∀ fuel : Nat, arrayRoundProgram.exec ep loopSlots fuel st =
        some { result := first.1, count := first.2.1, storage := st.storage,
               entry := first.2.2, calls := st.calls ++ [none] }) ∧
    (∀ (fuel : Nat) (out : ArrayRun σ),
      arrayLoopProgram.exec ep loopSlots fuel st = some out ↔
        ∃ k, k < fuel ∧ out = (arrayRound ep)^[k + 1] st ∧
          out.result ≠ Status.eIncomplete ∧
          ∀ j, j < k → ((arrayRound ep)^[j + 1] st).result = Status.eIncomplete) ∧
    (∀ (fuel : Nat) (out : ArrayRun σ),
      arrayShrinkProgram.exec ep shrinkSlots fuel out =
        some { out with storage := min out.storage out.count }) ∧
    (∀ (check : Status → Bool) (fuel : Nat),
      runStatusBody ep check fuel st =
        (arrayLoopProgram.exec ep loopSlots fuel st).map (fun out =>
          if check out.result then
            .ok { out with storage := min out.storage out.count }
          else .error out.result)) ∧
    ∀ fuel : Nat, runPlainBody ep fuel st =
      some { result := second.1, count := second.2.1, storage := min first.2.1 second.2.1,
             entry := second.2.2, calls := st.calls ++ [none, some first.2.1] } := by
  dsimp only
  intro hptr hconst
  have hloopText : arrayLoopTemplate = "\n" ++ arrayLoopProgram.render "    " := by decide
  have hplainText : arrayPlainTemplate = "\n" ++ arrayPlainProgram.render "    " := by decide
  have hshrinkText : arrayShrinkTemplate = "\n" ++ arrayShrinkProgram.render "    " := by
    decide
  have hround : ∀ (fuel : Nat) (s : ArrayRun σ),
      arrayRoundProgram.exec ep loopSlots fuel s = some (arrayRound ep s) := by
    intro fuel s
    unfold arrayRound
    simp only [arrayRoundProgram, Stmt.exec, Cond.eval, loopSlots, Status.named]
    simp only [List.getElem?_cons_zero, List.getElem?_cons_succ, Option.some_bind,
      Option.map_some', String.reduceEq, if_true, if_false]
    by_cases h1 : (callEntry ep s none).result = Status.eSuccess
    · by_cases h2 : (callEntry ep s none).count = 0
      · simp [h1, h2]
      · simp [h1, h2]
    · simp [h1]
  have hloop : ∀ (fuel : Nat) (s : ArrayRun σ),
      arrayLoopProgram.exec ep loopSlots fuel s = arrayLoop ep fuel s := by
    intro fuel s
    show repeatWhile (fun st1 => arrayRoundProgram.exec ep loopSlots fuel st1)
      (fun x => Cond.eval loopSlots x (Cond.resultIs "eIncomplete")) fuel s =
        arrayLoop ep fuel s
    have hbody : (fun st1 => arrayRoundProgram.exec ep loopSlots fuel st1) =
        fun st1 => some (arrayRound ep st1) := by
      funext st1
      exact hround fuel st1
    have hcond :
        (fun x : ArrayRun σ => Cond.eval loopSlots x (Cond.resultIs "eIncomplete")) =
          fun x => some (decide (x.result = Status.eIncomplete)) := by
      funext x
      simp only [Cond.eval, Status.named, String.reduceEq, if_false, if_true,
        Option.map_some']
    rw [hbody, hcond]
    have h : ∀ (n : Nat) (t : ArrayRun σ),
        repeatWhile (fun st1 => some (arrayRound ep st1))
          (fun x => some (decide (x.result = Status.eIncomplete))) n t =
            arrayLoop ep n t := by
      intro n
      induction n with
      | zero => intro t; rfl
      | succ n ih =>
        intro t
        simp only [repeatWhile, arrayLoop, Option.some_bind]
        by_cases hr : (arrayRound ep t).result = Status.eIncomplete
        · simp only [hr, decide_True, if_true]
          exact ih (arrayRound ep t)
        · simp only [hr, decide_False, if_false, Bool.false_eq_true]
    exact h fuel s
  have hshrink : ∀ (fuel : Nat) (out : ArrayRun σ),
      arrayShrinkProgram.exec ep shrinkSlots fuel out =
        some { out with storage := min out.storage out.count } := by
    intro fuel out
    simp only [arrayShrinkProgram, Stmt.exec, Cond.eval, shrinkSlots]
    simp only [List.getElem?_cons_zero, List.getElem?_cons_succ, Option.some_bind]
    by_cases h : out.count < out.storage
    · have hm : min out.storage out.count = out.count := by omega
      simp [h, hm]
    · have hm : min out.storage out.count = out.storage := by omega
      simp [h, hm]
  have hplain : ∀ (fuel : Nat) (s : ArrayRun σ),
      arrayPlainProgram.exec ep loopSlots fuel s =
        some (callEntry ep
          { callEntry ep s none with storage := (callEntry ep s none).count }
          (some (callEntry ep s none).count)) := by
    intro fuel s
    simp only [arrayPlainProgram, Stmt.exec, loopSlots]
    simp only [List.getElem?_cons_zero, List.getElem?_cons_succ, Option.some_bind]
  refine ⟨?_, ?_, hround, ?_, ?_, ?_, hshrink, ?_, ?_⟩
  · intro hres
    obtain ⟨pre, post, h⟩ := generateArrayCode_loop ext cfg r vi useOriginal hres hptr hconst
    refine ⟨pre, post, ?_⟩
    rw [← hloopText, ← hshrinkText]
    exact h
  · intro hres
    obtain ⟨pre, post, h⟩ := generateArrayCode_plain ext cfg r vi useOriginal hres hptr hconst
    refine ⟨pre, post, ?_⟩
    rw [← hplainText, ← hshrinkText]
    exact h
  · intro h fuel
    rw [hround, arrayRound_fill ep st h]
    simp only [callEntry, List.append_assoc, List.singleton_append]
  · intro h fuel
    rw [hround, arrayRound_skip ep st h]
    rfl
  · intro fuel out
    rw [hloop]
    exact arrayLoop_iff ep fuel st out
  · intro check fuel
    unfold runStatusBody
    cases arrayLoopProgram.exec ep loopSlots fuel st with
    | none => rfl
    | some out =>
      simp only [Option.some_bind, Option.map_some', hshrink]
      split <;> rfl
  · intro fuel
    unfold runPlainBody
    rw [hplain]
    simp only [Option.some_bind, hshrink]
    simp only [callEntry, List.append_assoc, List.singleton_append]

/-- An instance on `enumeratePhysicalDevices` and an entry point whose number
of elements grows between the rounds: the first round resizes to three and
ends incomplete, the second resizes to five and ends the loop. -/
theorem generateArrayCode_two_call_rounds_witness :
    (((MemberResolver.new plainExternal plainConfig id ctxEnumerate).arrayCodeParams
      plainExternal 2 false).ctx.params.getD 1 {}).originalIsPointer = true ∧
    (((MemberResolver.new plainExternal plainConfig id ctxEnumerate).arrayCodeParams
      plainExternal 2 false).ctx.params.getD 1 {}).originalIsConst = false ∧
    arrayRoundProgram.exec growingEntry loopSlots 2 (freshRun 0) =
      some { result := Status.eIncomplete, count := 3, storage := 3, entry := 2,
             calls := [none, some 3] } ∧
    arrayLoopProgram.exec growingEntry loopSlots 2 (freshRun 0) =
      some { result := Status.eSuccess, count := 4, storage := 5, entry := 4,
             calls := [none, some 3, none, some 5] } :=
  have h := generateArrayCode_two_call_rounds plainExternal plainConfig
    (MemberResolver.new plainExternal plainConfig id ctxEnumerate) 2 false
    growingEntry (freshRun 0) (by rfl) (by rfl)
  ⟨by rfl, by rfl, h.2.2.2.1 ⟨by rfl, by decide⟩ 2,
    (h.2.2.2.2.2.1 2 _).mpr ⟨1, by decide, by rfl, by decide, by decide⟩⟩


/-- C21, as stated, fails: `waitIdle` of `Device` takes the device, which is
not hidden, and the forwarding view holds the handle member `m_device` in its
place, not the bare identifier `device`. -/
theorem forwarding_view_substitutes_self :
    (ctxOneCode.params.map (fun p => p.ignoreFlag)) = [false] ∧
    ctxOneCode.createPassArguments plainExternal plainConfig true = "m_device" ∧
    ", ".intercalate
      ((ctxOneCode.params.filter (fun p => !p.ignoreFlag)).map (fun p => p.identifier)) =
      "device" :=
  ⟨by rfl, by rfl, by rfl⟩

/-- C21, amended: the forwarding view has one entry for every parameter that
is not hidden and that, in the RAII namespace for a subclass outside a
constructor, is not of the superclass's type; the entries are in declared
order and joined by `", "`.  An entry is the bare identifier of its parameter
unless a substitution applies, tried in this order: `nullptr` for a parameter
of type `AllocationCallbacks` when the allocator argument is disabled and
substitution is not; the self reference for a parameter of the hosting
handle's type without bound length; the member variable of the same type of
the unique wrapper. -/
theorem forwarding_view_entries (ext : External) (cfg : Config) (ctx : MemberContext)
    (hasAllocVar : Bool) :
    ctx.createPassArguments ext cfg hasAllocVar =
      ", ".intercalate
        ((ctx.params.filter (fun p => !ctx.skipsSuperclass p && !p.ignoreFlag)).map
          (ctx.argumentText ext cfg (fun v => v.identifier))) ∧
    ∀ p : VariableData,
      (ctx.disableSubstitution = false ∧ p.type = "AllocationCallbacks" ∧
          cfg.allocatorParam = false →
        ctx.argumentText ext cfg (fun v => v.identifier) p = "nullptr") ∧
      (¬ (ctx.disableSubstitution = false ∧ p.type = "AllocationCallbacks" ∧
          cfg.allocatorParam = false) →
        (p.hasLengthVar = false ∧ ctx.sameType p = true →
          ctx.argumentText ext cfg (fun v => v.identifier) p = ctx.selfReference p) ∧
        (¬ (p.hasLengthVar = false ∧ ctx.sameType p = true) →
          (∀ v, ctx.uniqueMatch p = some v →
            ctx.argumentText ext cfg (fun v => v.identifier) p =
              ext.matchTypePointers v.suffix p.originalSuffix ++ v.identifier) ∧
          (ctx.uniqueMatch p = none →
            ctx.argumentText ext cfg (fun v => v.identifier) p = p.identifier))) :=
  ⟨createArguments_call ext cfg ctx MemberContext.filterPass (fun v => v.identifier),
    fun p => argumentText_cases ext cfg ctx (fun v => v.identifier) p⟩

/-- An instance on `getFenceStatus` of `Device`: no substitution applies to
the fence, and its entry is its identifier. -/
theorem forwarding_view_entries_witness :
    ¬ (ctxTwoCodes.disableSubstitution = false ∧
        (handleParam "fence" "VkFence").type = "AllocationCallbacks" ∧
        plainConfig.allocatorParam = false) ∧
    ¬ ((handleParam "fence" "VkFence").hasLengthVar = false ∧
        ctxTwoCodes.sameType (handleParam "fence" "VkFence") = true) ∧
    ctxTwoCodes.uniqueMatch (handleParam "fence" "VkFence") = none ∧
    ctxTwoCodes.argumentText plainExternal plainConfig (fun v => v.identifier)
      (handleParam "fence" "VkFence") = "fence" :=
  ⟨by decide, by decide, by rfl,
    ((((forwarding_view_entries plainExternal plainConfig ctxTwoCodes true).2
      (handleParam "fence" "VkFence")).2 (by decide)).2 (by decide)).2 (by rfl)⟩

/-- C22, as stated, fails: `reset` of `CommandPool` in the RAII namespace wraps
an entry point with three parameters, none of them flagged as left out of the
call, and the call view has two entries: the device is skipped. -/
theorem call_view_skips_superclass :
    ctxRaiiReset.params.map (fun p => (p.identifier, p.ignorePFN)) =
      [("device", false), ("commandPool", false), ("flags", false)] ∧
    ctxRaiiReset.createPFNArguments plainExternal plainConfig false =
      "m_commandPool, flags" :=
  ⟨by rfl, by rfl⟩

/-- C22, amended: the call view has one entry for every parameter that is not
flagged as left out of the call (`getIgnorePFN()`) and that, in the RAII
namespace for a subclass outside a constructor, is not of the superclass's
type; the entries are in declared order and joined by `", "`.  An entry is the
parameter's own argument text unless a substitution applies, tried in this
order: `nullptr` for a parameter of type `AllocationCallbacks` when the
allocator argument is disabled and substitution is not; the self reference for
a parameter of the hosting handle's type (not empty) without bound length,
which is `*this` with `useThis` and otherwise the handle member, with `&` before
it for an original pointer; inside a unique wrapper with substitution on, for a
parameter without bound length, the first member variable of the wrapper with
the parameter's type. -/
theorem call_view_entries (ext : External) (cfg : Config) (ctx : MemberContext)
    (useOriginal : Bool) :
    ctx.createPFNArguments ext cfg useOriginal =
      ", ".intercalate
        ((ctx.params.filter (fun p => !ctx.skipsSuperclass p && !p.ignorePFN)).map
          (ctx.argumentText ext cfg (fun v => ext.toArgument v useOriginal))) ∧
    (∀ p : VariableData,
      (ctx.disableSubstitution = false ∧ p.type = "AllocationCallbacks" ∧
          cfg.allocatorParam = false →
        ctx.argumentText ext cfg (fun v => ext.toArgument v useOriginal) p = "nullptr") ∧
      (¬ (ctx.disableSubstitution = false ∧ p.type = "AllocationCallbacks" ∧
          cfg.allocatorParam = false) →
        (p.hasLengthVar = false ∧ ctx.sameType p = true →
          ctx.argumentText ext cfg (fun v => ext.toArgument v useOriginal) p =
            ctx.selfReference p) ∧
        (¬ (p.hasLengthVar = false ∧ ctx.sameType p = true) →
          (∀ v, ctx.uniqueMatch p = some v →
            ctx.argumentText ext cfg (fun v => ext.toArgument v useOriginal) p =
              ext.matchTypePointers v.suffix p.originalSuffix ++ v.identifier) ∧
          (ctx.uniqueMatch p = none →
            ctx.argumentText ext cfg (fun v => ext.toArgument v useOriginal) p =
              ext.toArgument p useOriginal)))) ∧
    (∀ p : VariableData,
      (ctx.sameType p = true ↔
        p.originalType = ctx.cls.name.original ∧ p.originalType ≠ "") ∧
      (ctx.useThis = true → ctx.selfReference p = "*this") ∧
      (ctx.useThis = false → p.originalIsPointer = true →
        ctx.selfReference p = "&" ++ ctx.cls.vkhandle) ∧
      (ctx.useThis = false → p.originalIsPointer = false →
        ctx.selfReference p = ctx.cls.vkhandle) ∧
      (∀ v, ctx.uniqueMatch p = some v →
        ctx.inUnique = true ∧ ctx.disableSubstitution = false ∧ p.hasLengthVar = false ∧
        v ∈ ctx.cls.uniqueVars ∧ p.type = v.type)) := by
  refine ⟨createArguments_call ext cfg ctx MemberContext.filterPFN
      (fun v => ext.toArgument v useOriginal),
    fun p => argumentText_cases ext cfg ctx (fun v => ext.toArgument v useOriginal) p, ?_⟩
  intro p
  refine ⟨?_, ?_, ?_, ?_, ?_⟩
  · unfold MemberContext.sameType
    have hE : p.originalType = "" ↔ p.originalType.isEmpty = true :=
      (String.isEmpty_iff _).symm
    rw [ne_eq, hE]
    cases p.originalType.isEmpty <;> simp
  · intro h
    simp [MemberContext.selfReference, h]
  · intro h hp
    simp [MemberContext.selfReference, h, hp]
  · intro h hp
    simp [MemberContext.selfReference, h, hp]
  · intro v hv
    unfold MemberContext.uniqueMatch at hv
    split at hv
    · next hc =>
      simp only [Bool.and_eq_true, Bool.not_eq_true'] at hc
      refine ⟨hc.1.1, hc.1.2, hc.2, List.mem_of_find?_eq_some hv, ?_⟩
      have := List.find?_some hv
      simpa using this
    · cases hv

/-- An instance on `getFenceStatus` of `Device`: the device is of the hosting
handle's type and has no bound length, and its entry is the handle member. -/
theorem call_view_entries_witness :
    ¬ (ctxTwoCodes.disableSubstitution = false ∧
        (handleParam "device" "VkDevice").type = "AllocationCallbacks" ∧
        plainConfig.allocatorParam = false) ∧
    ((handleParam "device" "VkDevice").hasLengthVar = false ∧
        ctxTwoCodes.sameType (handleParam "device" "VkDevice") = true) ∧
    ctxTwoCodes.argumentText plainExternal plainConfig
      (fun v => plainExternal.toArgument v false) (handleParam "device" "VkDevice") =
      ctxTwoCodes.selfReference (handleParam "device" "VkDevice") ∧
    ctxTwoCodes.selfReference (handleParam "device" "VkDevice") = "m_device" :=
  ⟨by decide, by decide,
    (((call_view_entries plainExternal plainConfig ctxTwoCodes false).2.1
      (handleParam "device" "VkDevice")).2 (by decide)).1 (by decide),
    by rfl⟩


/-- C23, as stated, fails: `generate()` of the resolver `MemberResolverDbg`
appends a commented-out declaration to the declaration buffer and nothing
else; the ledger of the hosting handle gets no entry. -/
theorem disabled_resolver_registers_nothing :
    (MemberResolverDbg.generate plainExternal fullConfig
      (MemberResolverDbg.new plainExternal fullConfig id ctxDestroy) {}).1.generated.length
      = 0 ∧
    (MemberResolverDbg.generate plainExternal fullConfig
      (MemberResolverDbg.new plainExternal fullConfig id ctxDestroy) {}).1.decl =
      "/*\n    void destroy(const AllocationCallbacks * pAllocator, Dispatch const & d = VULKAN_HPP_DEFAULT_DISPATCHER) const;\n*/\n" ∧
    (MemberResolverDbg.generate plainExternal fullConfig
      (MemberResolverDbg.new plainExternal fullConfig id ctxDestroy) {}).1.defn = "" :=
  ⟨by rfl, by rfl, by rfl⟩

/-- C23, amended: `generate()` of `MemberResolverBase`, and of `MemberResolver`
after `finalizeArguments()`, leaves what the buffers hold in place and appends
to the declaration buffer the declaration, or the inline definition when the
context asks for it, to the definition buffer the definition, or nothing when
it is inline, and to the ledger exactly one entry, the context of the
resolver as the call leaves it.  `generate()` of `MemberResolverDbg` appends the
declaration between comment marks to the declaration buffer and leaves the
definition buffer and the ledger as they are. -/
theorem generate_appends (ext : External) (cfg : Config)
    (body : MemberResolverBase → String × MemberResolverBase) (r : MemberResolverBase)
    (out : GenOutput) :
    ((r.generate ext cfg body out).1.decl =
        out.decl ++ (if r.ctx.generateInline then r.generateDefinition ext cfg body true
          else r.generateDeclaration ext cfg) ∧
      (r.generate ext cfg body out).1.defn =
        out.defn ++ (if r.ctx.generateInline then ""
          else r.generateDefinition ext cfg body false) ∧
      (r.generate ext cfg body out).1.generated =
        out.generated ++ [(r.generate ext cfg body out).2.ctx]) ∧
    ((MemberResolver.generate ext cfg r out).1.decl =
        out.decl ++
          (if r.ctx.generateInline then
            (MemberResolver.finalizeArguments ext cfg r).generateDefinition ext cfg
              (MemberResolver.generateMemberBody ext cfg) true
          else (MemberResolver.finalizeArguments ext cfg r).generateDeclaration ext cfg) ∧
      (MemberResolver.generate ext cfg r out).1.defn =
        out.defn ++
          (if r.ctx.generateInline then ""
          else (MemberResolver.finalizeArguments ext cfg r).generateDefinition ext cfg
            (MemberResolver.generateMemberBody ext cfg) false) ∧
      (MemberResolver.generate ext cfg r out).1.generated =
        out.generated ++ [(MemberResolver.generate ext cfg r out).2.ctx]) ∧
    ((MemberResolverDbg.generate ext cfg r out).1.decl =
        out.decl ++ ("/*\n" ++ r.generateDeclaration ext cfg ++ "*/\n") ∧
      (MemberResolverDbg.generate ext cfg r out).1.defn = out.defn ∧
      (MemberResolverDbg.generate ext cfg r out).1.generated = out.generated) := by
  have hbase : ∀ (b : MemberResolverBase → String × MemberResolverBase)
      (q : MemberResolverBase),
      (q.generate ext cfg b out).1.decl =
        out.decl ++ (if q.ctx.generateInline then q.generateDefinition ext cfg b true
          else q.generateDeclaration ext cfg) ∧
      (q.generate ext cfg b out).1.defn =
        out.defn ++ (if q.ctx.generateInline then ""
          else q.generateDefinition ext cfg b false) ∧
      (q.generate ext cfg b out).1.generated =
        out.generated ++ [(q.generate ext cfg b out).2.ctx] := by
    intro b q
    unfold MemberResolverBase.generate
    cases hq : q.ctx.generateInline <;> simp
  refine ⟨hbase body r, ?_, ?_⟩
  · have h := hbase (MemberResolver.generateMemberBody ext cfg)
      (MemberResolver.finalizeArguments ext cfg r)
    exact h
  · unfold MemberResolverDbg.generate
    simp only [String.append_assoc, and_self]

/-- C24: with the help flag set, `main` writes the usage text to standard
output and returns 0, and that is all it does: the destination is not opened
and the registry is not read.  With the help flag clear and one of the
registry, source-directory or destination options missing, it writes the
error message to standard error, closes the file handle it never opened, and
returns 0: the destination is not opened, the registry is not read and
`generateFile` does not run. -/
theorem main_help_and_missing_arguments (w : Surroundings)
    (helpOption xmlOption sourceOption destOpton : ArgOption) :
    (helpOption.set = true →
      main w helpOption xmlOption sourceOption destOpton =
        ([Event.stdout HELP_TEXT], 0)) ∧
    (helpOption.set = false →
      (xmlOption.set = false ∨ sourceOption.set = false ∨ destOpton.set = false) →
      main w helpOption xmlOption sourceOption destOpton =
        ([Event.stderr "Error: Missing arguments. See usage.\n", Event.closeFile], 0)) ∧
    ((helpOption.set = true ∨
        xmlOption.set = false ∨ sourceOption.set = false ∨ destOpton.set = false) →
      (∀ path, Event.openFile path ∉
        (main w helpOption xmlOption sourceOption destOpton).1) ∧
      (∀ path, Event.loadFile path ∉
        (main w helpOption xmlOption sourceOption destOpton).1) ∧
      Event.generateFile ∉ (main w helpOption xmlOption sourceOption destOpton).1) := by
  have h1 : helpOption.set = true →
      main w helpOption xmlOption sourceOption destOpton =
        ([Event.stdout HELP_TEXT], 0) := by
    intro h
    simp [main, mainTry, h]
  have h2 : helpOption.set = false →
      (xmlOption.set = false ∨ sourceOption.set = false ∨ destOpton.set = false) →
      main w helpOption xmlOption sourceOption destOpton =
        ([Event.stderr "Error: Missing arguments. See usage.\n", Event.closeFile], 0) := by
    intro h hm
    have hc : (!destOpton.set || !xmlOption.set || !sourceOption.set) = true := by
      rcases hm with e | e | e <;> simp [e]
    simp only [main, mainTry, h, hc, Bool.false_eq_true, if_false, if_true,
      List.nil_append]
    rfl
  refine ⟨h1, h2, ?_⟩
  intro h
  cases hh : helpOption.set with
  | true =>
    rw [h1 hh]
    simp
  | false =>
    have hm : xmlOption.set = false ∨ sourceOption.set = false ∨ destOpton.set = false := by
      rcases h with e | e
      · rw [hh] at e; cases e
      · exact e
    rw [h2 hh hm]
    simp

/-- Instances: the help flag with every path given, and a missing
destination. -/
theorem main_help_and_missing_arguments_witness :
    main calmSurroundings { set := true } { set := true, value := "vk.xml" }
        { set := true, value := "src" } { set := true, value := "out.hpp" } =
      ([Event.stdout HELP_TEXT], 0) ∧
    main calmSurroundings {} { set := true, value := "vk.xml" }
        { set := true, value := "src" } {} =
      ([Event.stderr "Error: Missing arguments. See usage.\n", Event.closeFile], 0) ∧
    Event.generateFile ∉
      (main calmSurroundings {} { set := true, value := "vk.xml" }
        { set := true, value := "src" } {}).1 :=
  ⟨(main_help_and_missing_arguments calmSurroundings { set := true }
      { set := true, value := "vk.xml" } { set := true, value := "src" }
      { set := true, value := "out.hpp" }).1 rfl,
    (main_help_and_missing_arguments calmSurroundings {}
      { set := true, value := "vk.xml" } { set := true, value := "src" } {}).2.1 rfl
      (Or.inr (Or.inr rfl)),
    ((main_help_and_missing_arguments calmSurroundings {}
      { set := true, value := "vk.xml" } { set := true, value := "src" } {}).2.2
      (Or.inr (Or.inr (Or.inr rfl)))).2.2⟩


/-- C30 fails on the code: with the allocator argument enabled,
`finalizeArguments` updates `hasAssignment` on the allocator parameter itself
before it looks at its type, so an allocator without a default value clears
the flag and `setAssignment(" = nullptr")` is not reached.  For `destroy` of
`Device` with the allocator as the last visible parameter, and for every
implementation of the conversions, the allocator is converted to an optional
and that is all; with the dispatch argument after it, which has a default
value, the allocator is still left without one. -/
theorem allocator_default_not_assigned (ext : External) :
    allocatorConfig.allocatorParam = true ∧
    (MemberResolver.new ext allocatorConfig id ctxDestroy).ctx.params =
      [handleParam "device" "VkDevice", allocatorVar] ∧
    (MemberResolver.finalizeArguments ext allocatorConfig
      (MemberResolver.new ext allocatorConfig id ctxDestroy)).ctx.params =
      [handleParam "device" "VkDevice", ext.convertToOptional allocatorVar] ∧
    (MemberResolver.new plainExternal fullConfig id ctxDestroy).ctx.params.map
        (fun p => (p.identifier, p.ignoreFlag, p.assignment)) =
      [("device", false, ""), ("pAllocator", false, ""),
        ("d", false, " = VULKAN_HPP_DEFAULT_DISPATCHER")] ∧
    (MemberResolver.finalizeArguments plainExternal fullConfig
      (MemberResolver.new plainExternal fullConfig id ctxDestroy)).ctx.params.map
        (fun p => (p.identifier, p.ignoreFlag, p.assignment)) =
      [("device", false, ""), ("pAllocator", false, ""),
        ("d", false, " = VULKAN_HPP_DEFAULT_DISPATCHER")] :=
  ⟨by rfl, by rfl, by rfl, by rfl, by rfl⟩


/-- C29, as stated, fails: node 0 of `solo2` is supported, enabled and has no
subscribers; `subscribe(0, 1)` followed by `unsubscribe(0, 1)` leaves it
disabled, and `canGenerate()` false. -/
theorem released_node_loses_enablement :
    (solo2 0).supported = true ∧ (solo2 0).enabled = true ∧
    (solo2 0).subscribers = ∅ ∧
    ∃ g2, runCalls 6 [.subscribe 0 1, .unsubscribe 0 1] solo2 = some g2 ∧
      (g2 0).enabled = false ∧ (g2 0).canGenerate = false :=
  ⟨by decide, by decide, by decide, (endsIn_iff _ _).mp (by decide)⟩

/-- C29, amended: for a supported node `n` with `enabled == true` and no
subscribers, `subscribe(n, r)` followed by `unsubscribe(n, r)` returns and
leaves `n` disabled and without subscribers: the release of the last
subscriber calls `setEnabled(false)`, whoever had enabled the node.  Afterwards
`n.canGenerate()` is true exactly when `n` is force-required. -/
theorem subscribe_unsubscribe_disables {N : Nat} (g : Graph N) (n r : Fin N)
    (fuel : Nat) (hs : (g n).supported = true) (he : (g n).enabled = true)
    (hsub : (g n).subscribers = ∅) (hfuel : 2 * N + 2 ≤ fuel) :
    ∃ g1 g2, subscribe fuel g n r = some g1 ∧ unsubscribe fuel g1 n r = some g2 ∧
      (g1 n).enabled = true ∧ (g1 n).subscribers = {r} ∧
      (g2 n).enabled = false ∧ (g2 n).subscribers = ∅ ∧
      (g2 n).canGenerate = (g n).forceRequired := by
  obtain ⟨f, rfl⟩ : ∃ f, fuel = f + 2 := ⟨fuel - 2, by omega⟩
  have h1 : subscribe (f + 1 + 1) g n r = some (g.emplace n r) := by
    rw [subscribe_first (f + 1) g n r hsub]
    exact setEnabled_guard f _ n true (Or.inl (by simpa using he))
  obtain ⟨g2, h2⟩ := unsubscribe_some (f + 2) (g.emplace n r) n r hfuel
  refine ⟨g.emplace n r, g2, h1, h2, by simpa using he, by simp [hsub], ?_⟩
  have hm : r ∈ ((g.emplace n r) n).subscribers := by simp
  have hlast : ((g.emplace n r) n).subscribers.erase r = ∅ := by simp [hsub]
  have h2b := h2
  rw [show f + 2 = f + 1 + 1 from rfl, unsubscribe_last (f + 1) _ n r hm hlast] at h2b
  have hT : Toward false ((g.emplace n r).erase n r) g2 := setEnabled_toward h2b
  have hen : (g2 n).enabled = false :=
    setEnabled_enabled h2b (by simpa using hs)
  have hsubs : (g2 n).subscribers = ∅ := by
    apply Finset.eq_empty_of_forall_not_mem
    intro s hs2
    have := (hT n).2.2.2.2.2 rfl hs2
    simp [hsub] at this
  have hsup : (g2 n).supported = true := by
    rw [(hT n).2.1]; simpa using hs
  have hfr : (g2 n).forceRequired = (g n).forceRequired := by
    rw [(hT n).2.2.1]; simp
  refine ⟨hen, hsubs, ?_⟩
  simp [BaseType.canGenerate, BaseType.isRequired, hen, hsubs, hsup, hfr]

/-- An instance on `solo2`, node 1 subscribing to node 0. -/
theorem subscribe_unsubscribe_disables_witness :
    (solo2 0).supported = true ∧ (solo2 0).enabled = true ∧
    (solo2 0).subscribers = ∅ ∧ 2 * 2 + 2 ≤ 6 ∧
    ∃ g1 g2, subscribe 6 solo2 0 1 = some g1 ∧ unsubscribe 6 g1 0 1 = some g2 ∧
      (g1 0).enabled = true ∧ (g1 0).subscribers = {1} ∧
      (g2 0).enabled = false ∧ (g2 0).subscribers = ∅ ∧
      (g2 0).canGenerate = (solo2 0).forceRequired :=
  ⟨by decide, by decide, by decide, by decide,
    subscribe_unsubscribe_disables solo2 0 1 6 (by decide) (by decide) (by decide)
      (by decide)⟩


/-- C28, as stated, fails: in `lasso4` node 0 depends on node 1, which lies on
the ring 1 → 2 → 3 → 1.  From the freshly parsed state, `setEnabled(0, true)`
makes node 3 subscribe to node 1 as well, so `setEnabled(0, false)` takes away
only one of the two subscribers of node 1, and the ring stays enabled.  In
`self1` the node depends on itself: enabling it makes it its own subscriber,
and disabling it skips the dependency that is among its subscribers, so the
subscription stays. -/
theorem ring_behind_node_stays_enabled :
    Fresh lasso4 ∧ (∀ m, (lasso4 m).supported = true) ∧
    (∀ m, (lasso4 m).forceRequired = false) ∧
    (∃ g2, runCalls 10 [.setEnabled 0 true, .setEnabled 0 false] lasso4 = some g2 ∧
      (g2 1).enabled = true ∧ (g2 1).subscribers = {3} ∧ (g2 1).canGenerate = true ∧
      (g2 2).enabled = true ∧ (g2 3).enabled = true) ∧
    Fresh self1 ∧ (∀ m, (self1 m).supported = true) ∧
    (∀ m, (self1 m).forceRequired = false) ∧
    ∃ g2, runCalls 4 [.setEnabled 0 true, .setEnabled 0 false] self1 = some g2 ∧
      (g2 0).enabled = false ∧ (g2 0).subscribers = {0} ∧ (g2 0).canGenerate = true :=
  ⟨by decide, by decide, by decide, (endsIn_iff _ _).mp (by decide),
    by decide, by decide, by decide, (endsIn_iff _ _).mp (by decide)⟩

/-- C28, amended: for every finite registry of supported nodes in its freshly
parsed state (all disabled, no subscribers, no `forceRequired`) and every node
`x`, `setEnabled(x, true)` followed by `setEnabled(x, false)` returns, and it
leaves the registry in the freshly parsed state it started from exactly when
the enabling has not made `x` its own subscriber and has left no ring of
subscriptions that avoids `x`.  That is so whenever `x` does not depend on
itself and every dependency cycle that `x` reaches passes through `x`.  The
registry is then as the claim says: every node is disabled, every subscriber
set is empty and `canGenerate()` is false on every node. -/
theorem enable_disable_round_trip {N : Nat} (g : Graph N) (x : Fin N) (fuel : Nat)
    (hfresh : Fresh g) (hsup : ∀ m, (g m).supported = true)
    (hforce : ∀ m, (g m).forceRequired = false)
    (hfuel : 2 * N + 2 ≤ fuel) :
    ∃ g1 g2, setEnabled fuel g x true = some g1 ∧ setEnabled fuel g1 x false = some g2 ∧
      (g2 = g ↔
        x ∉ (g1 x).subscribers ∧
        ∀ (a : Fin N) (rest : List (Fin N)), IsRing g1 a rest → x ∈ a :: rest) ∧
      (x ∉ (g x).dependencies →
        (∀ (a : Fin N) (rest : List (Fin N)), IsCycle g a rest →
          Relation.ReflTransGen (fun p q => q ∈ (g p).dependencies) x a → x ∈ a :: rest) →
        g2 = g) ∧
      (g2 = g → ∀ m, (g2 m).enabled = false ∧ (g2 m).subscribers = ∅ ∧
        (g2 m).canGenerate = false) := by
  obtain ⟨g1, h1⟩ := setEnabled_some fuel g x true hfuel
  obtain ⟨g2, h2⟩ := setEnabled_some fuel g1 x false hfuel
  refine ⟨g1, g2, h1, h2, ?_⟩
  have hT1 : Toward true g g1 := setEnabled_toward h1
  have hT2 : Toward false g1 g2 := setEnabled_toward h2
  have hS0 : Settled g (fun m => m = x) (fun _ _ => False) :=
    ⟨(settled_fresh hfresh).subs_enabled,
      fun m p q => ((settled_fresh hfresh).req_enabled m p q).imp (fun f => f.elim) id,
      (settled_fresh hfresh).deps_done⟩
  have hS := (enable_settled fuel g g1 x _).1 h1 hS0
  have hR : Rooted x g1 :=
    (enable_rooted x fuel g g1 x).1 h1 (rooted_fresh x hfresh) (Or.inl rfl)
  have hO : OneWay g1 := (enable_oneWay fuel g g1 x).1 h1 (oneWay_fresh hfresh)
  have hsound : EnSound g x g1 :=
    (enable_sound g x fuel g g1 x).1 h1 (enSound_refl g x) (fun he hs => Reached.root he hs)
  have hsup1 : ∀ m, (g1 m).supported = true := fun m => ((hT1 m).2.1).trans (hsup m)
  have hiff : g2 = g ↔
      x ∉ (g1 x).subscribers ∧
      ∀ (a : Fin N) (rest : List (Fin N)), IsRing g1 a rest → x ∈ a :: rest := by
    constructor
    · intro e
      refine ⟨?_, ?_⟩
      · intro hself
        have : x ∈ (g2 x).subscribers :=
          ((disable_state h2 x).2 x).mpr ⟨hself, fun hc => hc.2.2 hself⟩
        rw [e, (hfresh x).2] at this
        simp at this
      · intro a rest hring
        by_contra hx
        have hpa : ∃ p, p ∈ (g1 a).subscribers := by
          obtain ⟨p, _, hp⟩ := chain_sources (rest ++ [a]) a hring a (by simp)
          exact ⟨p, hp⟩
        obtain ⟨p, hp⟩ := hpa
        have hen : (g1 a).enabled = true := by
          rcases hS.req_enabled a (hsup1 a) (Finset.ne_empty_of_mem hp) with hf | he
          · exact hf.elim
          · exact he
        have hnr : ¬ Released g1 x a := fun hr =>
          ring_not_released hring hx a hr (List.mem_cons_self _ _)
        have : (g2 a).enabled = true := ((disable_state h2 a).1).mpr ⟨hen, hnr⟩
        rw [e, (hfresh a).1] at this
        cases this
    · rintro ⟨hself, hring⟩
      obtain ⟨hone, hrel⟩ :=
        released_of_ringless hR hO hS.subs_enabled hsup1 hself hring
      have hen : ∀ m, (g2 m).enabled = false := by
        intro m
        cases hm : (g2 m).enabled with
        | false => rfl
        | true =>
          have := ((disable_state h2 m).1).mp hm
          exact absurd (hrel m this.1) this.2
      have hsubs : ∀ m, (g2 m).subscribers = ∅ := by
        intro m
        apply Finset.eq_empty_of_forall_not_mem
        intro s hs
        have h := ((disable_state h2 m).2 s).mp hs
        exact h.2 ⟨hrel s (hS.subs_enabled m s h.1), hR.1 m s h.1, hone m s h.1⟩
      funext m
      have hd : (g2 m).dependencies = (g m).dependencies :=
        ((hT2 m).1).trans (hT1 m).1
      have hsp : (g2 m).supported = (g m).supported :=
        ((hT2 m).2.1).trans (hT1 m).2.1
      have hf : (g2 m).forceRequired = (g m).forceRequired :=
        ((hT2 m).2.2.1).trans (hT1 m).2.2.1
      have he : (g2 m).enabled = (g m).enabled := (hen m).trans (hfresh m).1.symm
      have hsb : (g2 m).subscribers = (g m).subscribers :=
        (hsubs m).trans (hfresh m).2.symm
      cases hg2 : g2 m
      cases hg : g m
      simp only [hg2, hg] at hd hsp hf he hsb
      simp only [hd, hsp, hf, he, hsb]
  refine ⟨hiff, ?_, ?_⟩
  · intro hnd hcyc
    apply hiff.mpr
    refine ⟨?_, ?_⟩
    · intro hself
      have := hR.1 x x hself
      rw [(hT1 x).1] at this
      exact hnd this
    · intro a rest hring
      have hcycle : IsCycle g a rest := by
        unfold IsCycle
        refine List.Chain.imp ?_ hring
        intro p q hpq
        have := hR.1 q p hpq
        rw [(hT1 p).1] at this
        exact this
      obtain ⟨p, _, hp⟩ := chain_sources (rest ++ [a]) a hring a (by simp)
      have hen : (g1 a).enabled = true := by
        rcases hS.req_enabled a (hsup1 a) (Finset.ne_empty_of_mem hp) with hf | he
        · exact hf.elim
        · exact he
      have hreach : Reached g x a := by
        rcases hsound.2 a hen with h0 | h0
        · rw [(hfresh a).1] at h0
          cases h0
        · exact h0
      exact hcyc a rest hcycle (reached_reflTransGen hreach)
  · intro e m
    have hen : (g2 m).enabled = false := by rw [e]; exact (hfresh m).1
    have hsb : (g2 m).subscribers = ∅ := by rw [e]; exact (hfresh m).2
    have hfr : (g2 m).forceRequired = false := by rw [e]; exact hforce m
    refine ⟨hen, hsb, ?_⟩
    simp [BaseType.canGenerate, BaseType.isRequired, hen, hsb, hfr]

/-- An instance on the ring 0 → 1 → 2 → 0, enabling and disabling node 0, which
lies on the ring.  By evaluation the round trip ends in the fresh state there,
and also in `aside4`, where a ring lies out of reach of node 0, and in
`lasso3`, where the two nodes behind node 0 depend on each other. -/
theorem enable_disable_round_trip_witness :
    Fresh ring3 ∧ (∀ m, (ring3 m).supported = true) ∧
    (∀ m, (ring3 m).forceRequired = false) ∧ 2 * 3 + 2 ≤ 8 ∧
    (∃ g1 g2, setEnabled 8 ring3 0 true = some g1 ∧ setEnabled 8 g1 0 false = some g2 ∧
      (g2 = ring3 ↔
        0 ∉ (g1 0).subscribers ∧
        ∀ (a : Fin 3) (rest : List (Fin 3)), IsRing g1 a rest → 0 ∈ a :: rest) ∧
      (0 ∉ (ring3 0).dependencies →
        (∀ (a : Fin 3) (rest : List (Fin 3)), IsCycle ring3 a rest →
          Relation.ReflTransGen (fun p q => q ∈ (ring3 p).dependencies) 0 a →
          0 ∈ a :: rest) →
        g2 = ring3) ∧
      (g2 = ring3 → ∀ m, (g2 m).enabled = false ∧ (g2 m).subscribers = ∅ ∧
        (g2 m).canGenerate = false)) ∧
    (∃ g2, runCalls 8 [.setEnabled 0 true, .setEnabled 0 false] ring3 = some g2 ∧
      Fresh g2) ∧
    (∃ g2, runCalls 10 [.setEnabled 0 true, .setEnabled 0 false] aside4 = some g2 ∧
      Fresh g2) ∧
    ∃ g2, runCalls 8 [.setEnabled 0 true, .setEnabled 0 false] lasso3 = some g2 ∧
      Fresh g2 :=
  ⟨by decide, by decide, by decide, by decide,
    enable_disable_round_trip ring3 0 8 (by decide) (by decide) (by decide) (by decide),
    (endsIn_iff _ _).mp (by decide), (endsIn_iff _ _).mp (by decide),
    (endsIn_iff _ _).mp (by decide)⟩


/-- C25, as stated, fails: in `getQueryPoolResults` the data (position 3) is
an array of `void` whose length is the by-value size (position 2), a direct
length relationship; after the argument transformation the size is not
hidden. -/
theorem void_array_keeps_size_visible :
    (ctxGetResults.params.getD 3 {}).lengthVar = some 2 ∧
    (ctxGetResults.params.getD 3 {}).lenAttribIndirect = false ∧
    ((MemberResolver.transformMemberArguments plainExternal plainHandles
      ctxGetResults).params.getD 2 {}).identifier = "dataSize" ∧
    ((MemberResolver.transformMemberArguments plainExternal plainHandles
      ctxGetResults).params.getD 2 {}).ignoreFlag = false :=
  ⟨by rfl, by rfl, by rfl, by rfl⟩

/-- C25, amended: let the conversions of a parameter keep its ignore flag, and
the conversion to an array proxy what the registry says of its being a
pointer.  After the argument transformation, every parameter `p` that has a
bound length parameter `c` is in array-view form: it has been converted to an
array proxy, after an array of `void` has got its type (bytes for a length
passed by pointer, otherwise the template parameter `DataType`), and then
gone through the second loop; when `p` is itself the bound length of a
parameter it also carries the ignore flag and the bound array written for
that.  A length parameter `c`, whether one parameter is bound to it or
several, is hidden (ignore flag set) exactly when the length relationship of
a parameter bound to `c` is not indirect, or `c` was hidden before, provided
no parameter bound to `c` is an array of `void` with `c` passed by value;
when the last parameter bound to `c` is such an array, `c` is not hidden.  In
every case the flag of `c` is what the parameters bound to `c` write to it one
after the other in declared order (`hiddenAfter`). -/
theorem count_hidden_unless_indirect (ext : External) (handles : Handles)
    (ctx : MemberContext) (hk : ext.KeepsFlags)
    (horig : ∀ v, (ext.convertToArrayProxy v).originalIsPointer = v.originalIsPointer) :
    (∀ c, c < ctx.params.length →
      ((MemberResolver.transformMemberArguments ext handles ctx).params.getD c {}).ignoreFlag =
        MemberResolver.hiddenAfter ctx.params c) ∧
    (∀ c, c < ctx.params.length →
      (∀ j, j < ctx.params.length → (ctx.params.getD j {}).lengthVar = some c →
        ¬ ((ctx.params.getD j {}).originalType = "void" ∧
          (ctx.params.getD c {}).originalIsPointer = false)) →
      (((MemberResolver.transformMemberArguments ext handles ctx).params.getD c {}).ignoreFlag
          = true ↔
        (ctx.params.getD c {}).ignoreFlag = true ∨
        ∃ j, j < ctx.params.length ∧ (ctx.params.getD j {}).lengthVar = some c ∧
          (ctx.params.getD j {}).lenAttribIndirect = false)) ∧
    (∀ i c, i < ctx.params.length → c < ctx.params.length →
      (ctx.params.getD i {}).lengthVar = some c →
      (∀ j, i < j → (ctx.params.getD j {}).lengthVar ≠ some c) →
      (ctx.params.getD i {}).originalType = "void" →
      (ctx.params.getD c {}).originalIsPointer = false →
      ((MemberResolver.transformMemberArguments ext handles ctx).params.getD c {}).ignoreFlag
        = false) ∧
    (∀ i c, i < ctx.params.length → (ctx.params.getD i {}).lengthVar = some c →
      ∃ (a0 : Option Nat) (f0 : Bool) (a : Option Nat) (f : Bool),
        (MemberResolver.transformMemberArguments ext handles ctx).params.getD i {} =
          MemberResolver.transformParam ext handles ctx
            { ext.convertToArrayProxy
                (MemberResolver.retype
                  { ctx.params.getD i {} with arrayVar := a0, ignoreFlag := f0 }
                  (ctx.params.getD c {}).originalIsPointer) with
              arrayVar := a, ignoreFlag := f }) ∧
    (∀ i c, i < ctx.params.length → (ctx.params.getD i {}).lengthVar = some c →
      (∀ j, (ctx.params.getD j {}).lengthVar ≠ some i) →
      (MemberResolver.transformMemberArguments ext handles ctx).params.getD i {} =
        MemberResolver.transformParam ext handles ctx
          (ext.convertToArrayProxy
            (MemberResolver.retype (ctx.params.getD i {})
              (ctx.params.getD c {}).originalIsPointer))) := by
  have hflag : ∀ c, c < ctx.params.length →
      ((MemberResolver.transformMemberArguments ext handles ctx).params.getD c {}).ignoreFlag =
        MemberResolver.hiddenAfter ctx.params c := by
    intro c hc
    unfold MemberResolver.transformMemberArguments
    dsimp only
    rw [getD_map_lt _ _ c (by rw [proxyLoop_length]; exact hc),
      transformParam_ignoreFlag ext hk, proxyLoop_flag ext hk horig ctx.params c hc]
  refine ⟨hflag, ?_, ?_, ?_, ?_⟩
  · intro c hc hvoid
    rw [hflag c hc]
    exact hiddenAfter_direct ctx.params c hvoid
  · intro i c hil hc hi hlast hvoid hval
    rw [hflag c hc]
    exact hiddenAfter_void ctx.params i c hil hi hlast hvoid hval
  · intro i c hil hi
    obtain ⟨a0, f0, a, f, hv⟩ := proxyLoop_view ext horig ctx.params i c hil hi
    refine ⟨a0, f0, a, f, ?_⟩
    unfold MemberResolver.transformMemberArguments
    dsimp only
    rw [getD_map_lt _ _ i (by rw [proxyLoop_length]; exact hil), hv]
  · intro i c hil hi hfree
    unfold MemberResolver.transformMemberArguments
    dsimp only
    rw [getD_map_lt _ _ i (by rw [proxyLoop_length]; exact hil),
      proxyLoop_plain_view ext horig ctx.params i c hil hi hfree]

/-- An instance on `bindVertexBuffers`, where the buffers (position 3) and the
offsets (position 4) share the bound length `bindingCount` (position 2), which
comes out hidden, and on `waitForFences`, where the fences (position 2) alone
have the bound length `fenceCount` (position 1), which comes out hidden; by
evaluation, the parameters of `bindVertexBuffers` after the transformation. -/
theorem count_hidden_unless_indirect_witness :
    plainExternal.KeepsFlags ∧
    (∀ v, (plainExternal.convertToArrayProxy v).originalIsPointer = v.originalIsPointer) ∧
    (ctxBindVertexBuffers.params.getD 3 {}).lengthVar = some 2 ∧
    (ctxBindVertexBuffers.params.getD 4 {}).lengthVar = some 2 ∧
    ((MemberResolver.transformMemberArguments plainExternal plainHandles
      ctxBindVertexBuffers).params.getD 2 {}).ignoreFlag = true ∧
    (ctxWaitForFences.params.getD 2 {}).lengthVar = some 1 ∧
    ((MemberResolver.transformMemberArguments plainExternal plainHandles
      ctxWaitForFences).params.getD 1 {}).ignoreFlag = true ∧
    (MemberResolver.transformMemberArguments plainExternal plainHandles
      ctxBindVertexBuffers).params.map (fun p => (p.identifier, p.ignoreFlag, p.specialType)) =
      [("commandBuffer", false, SpecialType.TYPE_DEFAULT),
        ("firstBinding", false, SpecialType.TYPE_DEFAULT),
        ("bindingCount", true, SpecialType.TYPE_DEFAULT),
        ("buffers", false, SpecialType.TYPE_ARRAY_PROXY),
        ("offsets", false, SpecialType.TYPE_ARRAY_PROXY)] :=
  ⟨plainExternal_keepsFlags, fun _ => rfl, by rfl, by rfl,
    ((count_hidden_unless_indirect plainExternal plainHandles ctxBindVertexBuffers
      plainExternal_keepsFlags (fun _ => rfl)).2.1 2 (by decide) (by decide)).mpr
      (Or.inr ⟨3, by decide, by rfl, by rfl⟩),
    by rfl,
    ((count_hidden_unless_indirect plainExternal plainHandles ctxWaitForFences
      plainExternal_keepsFlags (fun _ => rfl)).2.1 1 (by decide) (by decide)).mpr
      (Or.inr ⟨2, by decide, by rfl, by rfl⟩),
    by rfl⟩


/-- C26, as stated, fails: in `enumeratePhysicalDevices` the count parameter
`pPhysicalDeviceCount` is `p` followed by an uppercase letter, and the argument
transformation leaves its identifier as it is: it is neither an array nor a
structure, so `convertName` is not called on it. -/
theorem count_pointer_keeps_prefix :
    ctxEnumerateRaw.params.map (fun p => p.identifier) =
      ["instance", "pPhysicalDeviceCount", "pPhysicalDevices"] ∧
    isPointerToCArray "pPhysicalDeviceCount" = true ∧
    stripStartingP "pPhysicalDeviceCount" = "physicalDeviceCount" ∧
    (MemberResolver.transformMemberArguments plainExternal plainHandles
      ctxEnumerateRaw).params.map (fun p => p.identifier) =
      ["instance", "pPhysicalDeviceCount", "physicalDevices"] :=
  ⟨by rfl, by rfl, by rfl, by rfl⟩

/-- C26, amended: with conversions that keep the identifier of a parameter
and `strFirstLower` lowering the first character, the argument transformation
renames a parameter by `stripStartingP`, once when it is an array, a structure
or a union, once more when it is a handle of a creating member in the RAII
namespace, and not at all otherwise: its identifier is then unchanged.
`convertName` agrees with `stripStartingP` on every identifier, and
`stripStartingP` drops the `p` and lowers the next letter of an identifier
that is `p` followed by an uppercase letter, and returns every other
identifier as it is. -/
theorem renamed_where_convertName_runs (ext : External) (handles : Handles)
    (ctx : MemberContext) (hk : ext.KeepsFlags)
    (hlower : ∀ s, ext.strFirstLower s = strFirstLower s) :
    (∀ k, k < ctx.params.length →
      ((MemberResolver.transformMemberArguments ext handles ctx).params.getD k {}).identifier =
        stripStartingP^[MemberResolver.renameCount ext handles ctx
            ((MemberResolver.proxyLoop ext ctx.params).getD k {})]
          (ctx.params.getD k {}).identifier) ∧
    (∀ v, (MemberResolver.convertName ext v).identifier = stripStartingP v.identifier) ∧
    (∀ id : String, isPointerToCArray id = false → stripStartingP id = id) ∧
    (∀ (c1 : Char) (rest : List Char), c1.isUpper = true →
      stripStartingP (String.mk ('p' :: c1 :: rest)) = String.mk (c1.toLower :: rest)) ∧
    (∀ id : String, isPointerToCArray id = true ↔
      ∃ (c1 : Char) (rest : List Char), c1.isUpper = true ∧
        id = String.mk ('p' :: c1 :: rest)) := by
  refine ⟨?_, convertName_identifier ext hlower, stripStartingP_cases⟩
  intro k hkl
  unfold MemberResolver.transformMemberArguments
  dsimp only
  rw [getD_map_lt _ _ k (by rw [proxyLoop_length]; exact hkl),
    transformParam_identifier ext hk hlower,
    getD_identifier_of_map_eq _ _ (proxyLoop_identifiers ext hk ctx.params) k hkl]

/-- An instance on `enumeratePhysicalDevices`: the array of physical devices
(position 2) is renamed once. -/
theorem renamed_where_convertName_runs_witness :
    plainExternal.KeepsFlags ∧ (∀ s, plainExternal.strFirstLower s = strFirstLower s) ∧
    2 < ctxEnumerateRaw.params.length ∧
    ((MemberResolver.transformMemberArguments plainExternal plainHandles
      ctxEnumerateRaw).params.getD 2 {}).identifier =
      stripStartingP^[MemberResolver.renameCount plainExternal plainHandles ctxEnumerateRaw
          ((MemberResolver.proxyLoop plainExternal ctxEnumerateRaw.params).getD 2 {})]
        (ctxEnumerateRaw.params.getD 2 {}).identifier ∧
    MemberResolver.renameCount plainExternal plainHandles ctxEnumerateRaw
      ((MemberResolver.proxyLoop plainExternal ctxEnumerateRaw.params).getD 2 {}) = 1 ∧
    stripStartingP (ctxEnumerateRaw.params.getD 2 {}).identifier = "physicalDevices" :=
  ⟨plainExternal_keepsFlags, fun _ => rfl, by decide,
    (renamed_where_convertName_runs plainExternal plainHandles ctxEnumerateRaw
      plainExternal_keepsFlags (fun _ => rfl)).1 2 (by decide),
    by rfl, by rfl⟩

/-- C27, as stated, fails: the fence of `submit` is a handle, and the argument
transformation leaves it as it is, in the primary and in the RAII namespace:
it is not converted to a reference and not marked const. -/
theorem handle_parameter_not_converted :
    plainHandles.isHandle "VkFence" = true ∧
    ctxSubmit.params.getD 2 {} = handleParam "fence" "VkFence" ∧
    (MemberResolver.transformMemberArguments plainExternal plainHandles
      ctxSubmit).params.getD 2 {} = handleParam "fence" "VkFence" ∧
    (MemberResolver.transformMemberArguments plainExternal plainHandles
      { ctxSubmit with ns := Namespace.RAII }).params.getD 2 {} =
      handleParam "fence" "VkFence" ∧
    (plainExternal.setConst (plainExternal.convertToReference (handleParam "fence" "VkFence"))
      true).suffix = " &" ∧
    (handleParam "fence" "VkFence").suffix = "" :=
  ⟨by rfl, by rfl, by rfl, by rfl, by rfl, by rfl⟩

/-- C27, amended: after the argument transformation, in the primary and in
the RAII namespace, a parameter that is not an array and whose original type
is a structure or a union is in const-reference form (`convertToReference`,
then `setConst(true)`) and renamed; an array is only renamed; any other
parameter, a handle among them, is left as the step before has left it.  That
step converts a handle to its RAII type, and renames it, for a creating
member in the RAII namespace and does nothing otherwise; before it, a
parameter without bound length that is not the bound length of a parameter
is as it was given. -/
theorem struct_parameters_const_reference (ext : External) (handles : Handles)
    (ctx : MemberContext) (k : Nat) (hkl : k < ctx.params.length) :
    (ext.isArray (MemberResolver.raiiStep ext handles ctx
        ((MemberResolver.proxyLoop ext ctx.params).getD k {})) = false →
      ext.isStructOrUnion (MemberResolver.raiiStep ext handles ctx
        ((MemberResolver.proxyLoop ext ctx.params).getD k {})).originalType = true →
      (MemberResolver.transformMemberArguments ext handles ctx).params.getD k {} =
        MemberResolver.convertName ext
          (ext.setConst (ext.convertToReference
            (MemberResolver.raiiStep ext handles ctx
              ((MemberResolver.proxyLoop ext ctx.params).getD k {}))) true)) ∧
    (ext.isArray (MemberResolver.raiiStep ext handles ctx
        ((MemberResolver.proxyLoop ext ctx.params).getD k {})) = true →
      (MemberResolver.transformMemberArguments ext handles ctx).params.getD k {} =
        MemberResolver.convertName ext
          (MemberResolver.raiiStep ext handles ctx
            ((MemberResolver.proxyLoop ext ctx.params).getD k {}))) ∧
    (ext.isArray (MemberResolver.raiiStep ext handles ctx
        ((MemberResolver.proxyLoop ext ctx.params).getD k {})) = false →
      ext.isStructOrUnion (MemberResolver.raiiStep ext handles ctx
        ((MemberResolver.proxyLoop ext ctx.params).getD k {})).originalType = false →
      (MemberResolver.transformMemberArguments ext handles ctx).params.getD k {} =
        MemberResolver.raiiStep ext handles ctx
          ((MemberResolver.proxyLoop ext ctx.params).getD k {})) ∧
    (∀ q : VariableData,
      (MemberResolver.raiiCreates ctx = true → handles.isHandle q.originalType = true →
        MemberResolver.raiiStep ext handles ctx q =
          MemberResolver.convertName ext (ext.toRAII q)) ∧
      (¬ (MemberResolver.raiiCreates ctx = true ∧ handles.isHandle q.originalType = true) →
        MemberResolver.raiiStep ext handles ctx q = q)) ∧
    ((ctx.params.getD k {}).lengthVar = none →
      (∀ j, (ctx.params.getD j {}).lengthVar ≠ some k) →
      (MemberResolver.proxyLoop ext ctx.params).getD k {} = ctx.params.getD k {}) := by
  have hfinal : (MemberResolver.transformMemberArguments ext handles ctx).params.getD k {} =
      MemberResolver.transformParam ext handles ctx
        ((MemberResolver.proxyLoop ext ctx.params).getD k {}) := by
    unfold MemberResolver.transformMemberArguments
    dsimp only
    rw [getD_map_lt _ _ k (by rw [proxyLoop_length]; exact hkl)]
  rw [hfinal]
  have hu := proxyLoop_untouched ext ctx.params k
  generalize (MemberResolver.proxyLoop ext ctx.params).getD k {} = q at hu ⊢
  refine ⟨?_, ?_, ?_, ?_, hu⟩
  · intro h1 h2
    simp only [MemberResolver.transformParam, h1, h2, Bool.false_eq_true, if_false, if_true]
  · intro h1
    simp only [MemberResolver.transformParam, h1, if_true]
  · intro h1 h2
    simp only [MemberResolver.transformParam, h1, h2, Bool.false_eq_true, if_false]
  · intro q
    refine ⟨?_, ?_⟩
    · intro h1 h2
      simp [MemberResolver.raiiStep, h1, h2]
    · intro h
      unfold MemberResolver.raiiStep
      cases h1 : MemberResolver.raiiCreates ctx
      · simp
      · cases h2 : handles.isHandle q.originalType
        · simp
        · exact absurd ⟨h1, h2⟩ h

/-- An instance on `submit`: the structure passed by pointer (position 1) comes
out as a const reference named `submitInfo`. -/
theorem struct_parameters_const_reference_witness :
    1 < ctxSubmit.params.length ∧
    plainExternal.isArray (MemberResolver.raiiStep plainExternal plainHandles ctxSubmit
      ((MemberResolver.proxyLoop plainExternal ctxSubmit.params).getD 1 {})) = false ∧
    plainExternal.isStructOrUnion (MemberResolver.raiiStep plainExternal plainHandles
      ctxSubmit ((MemberResolver.proxyLoop plainExternal ctxSubmit.params).getD 1 {})).originalType
      = true ∧
    (MemberResolver.transformMemberArguments plainExternal plainHandles
      ctxSubmit).params.getD 1 {} =
      MemberResolver.convertName plainExternal
        (plainExternal.setConst (plainExternal.convertToReference
          (MemberResolver.raiiStep plainExternal plainHandles ctxSubmit
            ((MemberResolver.proxyLoop plainExternal ctxSubmit.params).getD 1 {}))) true) ∧
    plainExternal.toString
      ((MemberResolver.transformMemberArguments plainExternal plainHandles
        ctxSubmit).params.getD 1 {}) = "const SubmitInfo & submitInfo" :=
  ⟨by decide, by rfl, by rfl,
    (struct_parameters_const_reference plainExternal plainHandles ctxSubmit 1
      (by decide)).1 (by rfl) (by rfl),
    by rfl⟩

end Generator
